import Mathlib

/-!
# Hydrogen service worker (`src/platform/web/service-worker.js`)

A shallow embedding of the service worker of the Hydrogen Matrix client and the
properties of its installation, its request cache, its cross-window message
protocol, its push-notification handling and its notification clicks.

Conventions of the embedding.

* JavaScript strings are `String`; the string methods the worker calls
  (`startsWith`, `substr`) are defined on the list of characters.
* Every `async` function is run as one sequential computation on an explicit
  `World`; a platform call takes effect at the point where it is issued, also
  where the source does not `await` its promise (`hashedCache.delete(request)`
  in `purgeOldCaches`, `cache.put` for thumbnails in `updateCache`).
* The browser interfaces (`URL`, `Cache`, `CacheStorage`, `fetch`, `Clients`,
  notifications) are modelled by small executable definitions; the URL parser is
  a parameter (`Platform`), so the theorems hold for every parser.
* `Step` relates the states of one run of the worker script; a restart of the
  worker evaluates the script again and is not a step.
-/

namespace ServiceWorker

/-! ## JavaScript strings and numbers -/

/-- JavaScript `s.startsWith(p)`. -/
def startsWith (s p : String) : Bool := p.data.isPrefixOf s.data

/-- JavaScript `s.substr(n)`: the string from position `n` on. -/
def substr (s : String) (n : Nat) : String := String.mk (s.data.drop n)

/-- The code points that `parseInt` skips at the start of its input
(ECMAScript `StrWhiteSpaceChar`: white space and line terminators). -/
def isStrWhiteSpaceChar (c : Char) : Bool :=
  c.toNat ∈ [0x09, 0x0A, 0x0B, 0x0C, 0x0D, 0x20, 0xA0, 0x1680, 0x2000, 0x2001, 0x2002,
    0x2003, 0x2004, 0x2005, 0x2006, 0x2007, 0x2008, 0x2009, 0x200A, 0x2028, 0x2029,
    0x202F, 0x205F, 0x3000, 0xFEFF]

/-- A decimal digit of `parseInt(_, 10)`. -/
def isDecDigit (c : Char) : Bool := decide (48 ≤ c.toNat ∧ c.toNat ≤ 57)

/-- The number a run of decimal digits denotes. -/
def digitsValue (ds : List Char) : Nat := ds.foldl (fun acc c => 10 * acc + (c.toNat - 48)) 0

/-- The longest prefix of decimal digits, read as a number; `none` is `NaN` (no digit). -/
def parseDigits (cs : List Char) : Option Nat :=
  let ds := cs.takeWhile isDecDigit
  if ds.isEmpty then none else some (digitsValue ds)

/-- JavaScript `parseInt(s, 10)` on a string: leading white space is skipped, one sign is read,
then the
longest run of decimal digits; whatever follows is ignored. `none` stands for `NaN`. -/
def parseIntChars (cs : List Char) : Option Int :=
  match cs.dropWhile isStrWhiteSpaceChar with
  | '-' :: rest => (parseDigits rest).map (fun n => - (n : Int))
  | '+' :: rest => (parseDigits rest).map (fun n => (n : Int))
  | rest => (parseDigits rest).map (fun n => (n : Int))

/-- JavaScript `parseInt(v, 10)` where `v` is a string or `null`; `null` is first converted to the
string `"null"`, which has no digits. -/
def parseInt (v : Option String) : Option Int :=
  match v with
  | none => parseIntChars "null".data
  | some s => parseIntChars s.data

/-- The comparison `x <= k` of JavaScript numbers: false when `x` is `NaN`. -/
def jsLe (x : Option Int) (k : Int) : Bool :=
  match x with
  | none => false
  | some v => decide (v ≤ k)

/-! ## URLs -/

/-- The parts of a `URL` object the worker reads. -/
structure URL where
  href : String
  origin : String
  pathname : String
  hash : String
  searchParams : List (String × String)
deriving DecidableEq, Repr

/-- JavaScript `url.searchParams.get(name)`: the value of the first pair named `name`, else
`null`. -/
def searchParamsGet (params : List (String × String)) (name : String) : Option String :=
  match params with
  | [] => none
  | (k, v) :: rest => if k = name then some v else searchParamsGet rest name

/-- The `URL` constructor of the platform: `newURL s none` is `new URL(s)` and
`newURL s (some b)` is `new URL(s, b)`. -/
structure Platform where
  newURL : String → Option String → URL

/-- The thumbnail endpoint prefix. -/
def thumbnailPrefix : String := "/_matrix/media/r0/thumbnail/"

/-- JavaScript `isCacheableThumbnail(url)`. -/
def isCacheableThumbnail (url : URL) : Bool :=
  if startsWith url.pathname thumbnailPrefix then
    let width := parseInt (searchParamsGet url.searchParams "width")
    let height := parseInt (searchParamsGet url.searchParams "height")
    if jsLe width 50 && jsLe height 50 then true else false
  else false

/-! ## Build-time constants and the registration -/

/-- The constants the build writes into the worker (`%%VERSION%%`, `%%GLOBAL_HASH%%` and the
three asset lists) and the scope of the registration (`self.registration.scope`). -/
structure Config where
  VERSION : String
  GLOBAL_HASH : String
  UNHASHED_PRECACHED_ASSETS : List String
  HASHED_PRECACHED_ASSETS : List String
  HASHED_CACHED_ON_REQUEST_ASSETS : List String
  scope : String

/-- The name of the cache of unhashed assets. -/
def unhashedCacheName (cfg : Config) : String := "hydrogen-assets-" ++ cfg.GLOBAL_HASH

/-- The name of the cache of hashed assets. -/
def hashedCacheName : String := "hydrogen-assets"

/-- The name of the cache of media thumbnails. -/
def mediaThumbnailCacheName : String := "hydrogen-media-thumbnails-v2"

/-! ## Requests, responses and the Cache API -/

/-- A request, identified by its URL as the cache identifies it. -/
structure Request where
  url : String
deriving DecidableEq, Repr

/-- A response: its status and its content. -/
structure Response where
  status : Nat
  body : String
deriving DecidableEq, Repr

/-- A `Cache`: the stored request/response pairs, oldest first. -/
abbrev Cache := List (Request × Response)

/-- JavaScript `cache.match(request)`: the response stored for the request's URL, if any. -/
def Cache.matchRequest : Cache → Request → Option Response
  | [], _ => none
  | (key, response) :: rest, request =>
    if key.url = request.url then some response else Cache.matchRequest rest request

/-- JavaScript `cache.delete(request)`: removes the entries stored for the request's URL. -/
def Cache.delete (c : Cache) (request : Request) : Cache :=
  c.filter (fun e => decide (e.1.url ≠ request.url))

/-- JavaScript `cache.put(request, response)`: replaces what is stored for the request's URL. -/
def Cache.put (c : Cache) (request : Request) (response : Response) : Cache :=
  Cache.delete c request ++ [(request, response)]

/-- JavaScript `cache.keys()`. -/
def Cache.keys (c : Cache) : List Request := c.map Prod.fst

/-- JavaScript `CacheStorage` (`caches`): the named caches, oldest first. -/
abbrev CacheStorage := List (String × Cache)

/-- JavaScript `caches.keys()`. -/
def CacheStorage.keys (cs : CacheStorage) : List String := cs.map Prod.fst

/-- The cache stored under a name, `none` when there is none. -/
def CacheStorage.lookup : CacheStorage → String → Option Cache
  | [], _ => none
  | (key, cache) :: rest, name =>
    if key = name then some cache else CacheStorage.lookup rest name

/-- JavaScript `caches.has(name)`. -/
def CacheStorage.has (cs : CacheStorage) (name : String) : Bool := (cs.lookup name).isSome

/-- JavaScript `caches.delete(name)`. -/
def CacheStorage.delete (cs : CacheStorage) (name : String) : CacheStorage :=
  cs.filter (fun e => decide (e.1 ≠ name))

/-- The effect of `caches.open(name)` on the storage: the cache is created when absent. -/
def CacheStorage.openCache (cs : CacheStorage) (name : String) : CacheStorage :=
  if cs.has name then cs else cs ++ [(name, [])]

/-- The entries of the cache of that name (none when there is no such cache). -/
def CacheStorage.get (cs : CacheStorage) (name : String) : Cache :=
  (cs.lookup name).getD []

/-- An operation `f` applied to the cache opened under `name`. -/
def CacheStorage.update : CacheStorage → String → (Cache → Cache) → CacheStorage
  | [], _, _ => []
  | (key, cache) :: rest, name, f =>
    if key = name then (key, f cache) :: CacheStorage.update rest name f
    else (key, cache) :: CacheStorage.update rest name f

/-! ## Clients, messages and notifications -/

/-- A window client as `self.clients.matchAll` reports it. -/
structure Client where
  id : String
  url : String
  visibilityState : String
  focused : Bool
deriving DecidableEq, Repr

/-- The payloads that travel in messages: `undefined`, a boolean, `{version, buildHash}`,
`{sessionId}` and `{sessionId, roomId}`. -/
inductive Payload where
  | undefined
  | bool (b : Bool)
  | version (version buildHash : String)
  | session (sessionId : Option String)
  | room (sessionId roomId : Option String)
deriving DecidableEq, Repr

/-- Whether a payload is truthy. -/
def Payload.truthy : Payload → Bool
  | Payload.undefined => false
  | Payload.bool b => b
  | _ => true

/-- A message the worker posts to a client: a request `{type, id, payload}` or a reply
`{replyTo, payload}`. -/
inductive OutMessage where
  | request (type : String) (id : Nat) (payload : Payload)
  | reply (replyTo : Option Nat) (payload : Payload)
deriving DecidableEq, Repr

/-- The `data` of a message the worker receives. -/
structure MessageData where
  type : Option String := none
  id : Option Nat := none
  replyTo : Option Nat := none
  payload : Payload := Payload.undefined
deriving DecidableEq, Repr

/-- The function stored in `pendingReplies` under a message id: it resolves the promise that
either a running `haltRequests`/`closeSession` (by its number) or the caller awaits. -/
inductive Resolver where
  | task (index : Nat)
  | caller
deriving DecidableEq, Repr

/-- The commands that wait for the replies of several clients. -/
inductive Command where
  | haltRequests
  | closeSession
deriving DecidableEq, Repr

/-- A running `haltRequests()` or `closeSession()`: the client and message id its `finally`
replies to, the ids of the messages whose replies its `Promise.all` still awaits, and whether
it has resolved. -/
structure Task where
  command : Command
  source : String
  replyId : Option Nat
  awaiting : List Nat
  settled : Bool
deriving DecidableEq, Repr

/-- The `data` of a notification. -/
structure NotificationData where
  sessionId : Option String
  roomId : Option String := none
deriving DecidableEq, Repr

/-- A displayed notification. -/
structure Notification where
  title : String
  body : Option String
  tag : String
  data : NotificationData
deriving DecidableEq, Repr

/-! ## The worker's state -/

/-- A thrown value: its `name` and `message`. -/
structure JsError where
  name : String
  message : String
deriving DecidableEq, Repr

/-- The options of a `fetch` call besides the signal, which is always the signal of
`pendingFetchAbortController`. -/
structure FetchInit where
  mode : Option String := none
  credentials : Option String := none
deriving DecidableEq, Repr

/-- The network: what a fetch of a request with given options settles to. -/
abbrev Network := Request → FetchInit → Except JsError Response

/-- The state the worker acts on. -/
structure World where
  /-- JavaScript `caches` -/
  caches : CacheStorage := []
  /-- whether `pendingFetchAbortController` has been aborted -/
  aborted : Bool := false
  /-- the fetches that went to the network, oldest first -/
  fetched : List (Request × FetchInit) := []
  /-- the errors written by `console.error`, oldest first -/
  consoleErrors : List JsError := []
  /-- whether `self.clients.claim()` has been called -/
  claimed : Bool := false
  /-- whether `self.skipWaiting()` has been called -/
  skipWaitingCalled : Bool := false
  /-- the window clients that `self.clients.matchAll()` reports (its default type is
  `"window"`, so with and without `{type: "window"}` the list is the same) -/
  clients : List Client := []
  /-- JavaScript `messageIdCounter` -/
  messageIdCounter : Nat := 0
  /-- JavaScript `pendingReplies` -/
  pendingReplies : List (Nat × Resolver) := []
  /-- the started `haltRequests()` and `closeSession()` calls, oldest first -/
  tasks : List Task := []
  /-- the messages posted with `postMessage`, each with the id of its client, oldest first -/
  posted : List (String × OutMessage) := []
  /-- the notifications `self.registration.getNotifications()` reports -/
  notifications : List Notification := []
deriving DecidableEq, Repr

/-! ## Activation -/

/-- JavaScript `purgeOldCaches()`. -/
def purgeOldCaches (P : Platform) (cfg : Config) (w : World) : World :=
  let keyList := w.caches.keys
  let caches1 := keyList.foldl (fun cs key =>
    if key ≠ unhashedCacheName cfg ∧ key ≠ hashedCacheName ∧ key ≠ mediaThumbnailCacheName then
      cs.delete key
    else cs) w.caches
  let caches2 := caches1.openCache hashedCacheName
  let keys := (caches2.get hashedCacheName).keys
  let hashedAssetURLs :=
    (cfg.HASHED_PRECACHED_ASSETS ++ cfg.HASHED_CACHED_ON_REQUEST_ASSETS).map
      (fun a => (P.newURL a (some cfg.scope)).href)
  let caches3 := keys.foldl (fun cs request =>
    if !(hashedAssetURLs.any (fun url => decide (url = request.url))) then
      cs.update hashedCacheName (fun c => c.delete request)
    else cs) caches2
  { w with caches := caches3 }

/-- The `activate` listener: claim the clients, then purge. -/
def onActivate (P : Platform) (cfg : Config) (w : World) : World :=
  purgeOldCaches P cfg { w with claimed := true }

/-! ## Request handling -/

/-- JavaScript `fetch(request, {signal: pendingFetchAbortController.signal, ...init})`: rejected
with an
`AbortError` without reaching the network when the signal is already aborted. -/
def fetch (net : Network) (request : Request) (init : FetchInit) (w : World) :
    Except JsError Response × World :=
  if w.aborted then
    (Except.error { name := "AbortError", message := "The operation was aborted." }, w)
  else
    (net request init, { w with fetched := w.fetched ++ [(request, init)] })

/-- JavaScript `updateCache(request, response)`. -/
def updateCache (P : Platform) (cfg : Config) (request : Request) (response : Response)
    (w : World) : World :=
  if response.status ≥ 400 then w
  else
    let url := P.newURL request.url none
    let baseURL := cfg.scope
    if isCacheableThumbnail url then
      let caches := w.caches.openCache mediaThumbnailCacheName
      { w with caches := caches.update mediaThumbnailCacheName (fun c => c.put request response) }
    else if startsWith request.url baseURL then
      let assetName := substr request.url baseURL.length
      if assetName ∈ cfg.HASHED_CACHED_ON_REQUEST_ASSETS then
        let caches := w.caches.openCache hashedCacheName
        { w with caches := caches.update hashedCacheName (fun c => c.put request response) }
      else w
    else w

/-- JavaScript `readCache(request)`: the response found (`none` for `undefined`/`null`) and the
state. -/
def readCache (P : Platform) (cfg : Config) (request : Request) (w : World) :
    Option Response × World :=
  let w1 := { w with caches := w.caches.openCache (unhashedCacheName cfg) }
  match (w1.caches.get (unhashedCacheName cfg)).matchRequest request with
  | some response => (some response, w1)
  | none =>
    let w2 := { w1 with caches := w1.caches.openCache hashedCacheName }
    match (w2.caches.get hashedCacheName).matchRequest request with
    | some response => (some response, w2)
    | none =>
      let url := P.newURL request.url none
      if isCacheableThumbnail url then
        let w3 := { w2 with caches := w2.caches.openCache mediaThumbnailCacheName }
        match (w3.caches.get mediaThumbnailCacheName).matchRequest request with
        | some response =>
          if response.status ≥ 400 then
            (none, { w3 with caches :=
              w3.caches.update mediaThumbnailCacheName (fun c => c.delete request) })
          else (some response, w3)
        | none => (none, w3)
      else (none, w2)

/-- The request `new Request(new URL("index.html", baseURL.href))`, where `baseURL` is
`new URL(self.registration.scope)`. -/
def indexRequest (P : Platform) (cfg : Config) : Request :=
  let baseURL := P.newURL cfg.scope none
  { url := (P.newURL "index.html" (some baseURL.href)).href }

/-- The request `handleRequest` looks up: `index.html` under the scope for a request to the
scope's own origin and pathname, the request itself otherwise. -/
def rewriteRequest (P : Platform) (cfg : Config) (request : Request) : Request :=
  let baseURL := P.newURL cfg.scope none
  let url := P.newURL request.url none
  if url.origin = baseURL.origin ∧ url.pathname = baseURL.pathname then indexRequest P cfg
  else request

/-- The options `handleRequest` fetches with, decided on the URL of the incoming request. -/
def fetchInitFor (url : URL) : FetchInit :=
  if isCacheableThumbnail url then { mode := some "cors", credentials := some "omit" }
  else {}

/-- The `try` block of `handleRequest(request)`. -/
def handleRequestTry (P : Platform) (cfg : Config) (net : Network) (request : Request)
    (w : World) : Except JsError Response × World :=
  let url := P.newURL request.url none
  let request := rewriteRequest P cfg request
  match readCache P cfg request w with
  | (some response, w1) => (Except.ok response, w1)
  | (none, w1) =>
    match fetch net request (fetchInitFor url) w1 with
    | (Except.error err, w2) => (Except.error err, w2)
    | (Except.ok response, w2) => (Except.ok response, updateCache P cfg request response w2)

/-- JavaScript `handleRequest(request)`: the `try` block, and the `catch` that logs and rethrows. -/
def handleRequest (P : Platform) (cfg : Config) (net : Network) (request : Request)
    (w : World) : Except JsError Response × World :=
  match handleRequestTry P cfg net request w with
  | (Except.ok response, w1) => (Except.ok response, w1)
  | (Except.error err, w1) =>
    if err.name ≠ "TypeError" ∧ err.name ≠ "AbortError" then
      (Except.error err, { w1 with consoleErrors := w1.consoleErrors ++ [err] })
    else (Except.error err, w1)

/-- A sequence of `fetch` events, each handled against the network of its moment. -/
def handleRequests (P : Platform) (cfg : Config) (events : List (Request × Network))
    (w : World) : World :=
  events.foldl (fun w ev => (handleRequest P cfg ev.2 ev.1 w).2) w

/-! ## The message protocol -/

/-- JavaScript `map.get(key)` on `pendingReplies`. -/
def mapGet : List (Nat × Resolver) → Nat → Option Resolver
  | [], _ => none
  | (k, v) :: rest, key => if k = key then some v else mapGet rest key

/-- JavaScript `map.delete(key)` on `pendingReplies`. -/
def mapDelete (m : List (Nat × Resolver)) (key : Nat) : List (Nat × Resolver) :=
  m.filter (fun e => decide (e.1 ≠ key))

/-- JavaScript `map.set(key, value)` on `pendingReplies`. -/
def mapSet (m : List (Nat × Resolver)) (key : Nat) (value : Resolver) : List (Nat × Resolver) :=
  mapDelete m key ++ [(key, value)]

/-- JavaScript `sendAndWaitForReply(client, type, payload)`: the id given to the message and the
state
after the call; `resolve` is the function the new promise registers. -/
def sendAndWaitForReply (client : Client) (type : String) (payload : Payload)
    (resolve : Resolver) (w : World) : Nat × World :=
  let id := w.messageIdCounter + 1
  (id, { w with
    messageIdCounter := id
    pendingReplies := mapSet w.pendingReplies id resolve
    posted := w.posted ++ [(client.id, OutMessage.request type id payload)] })

/-- JavaScript `sendAndWaitForReply` called for each client of a list in turn, for the task `index`;
the ids given, in order, and the state. -/
def sendToAll (type : String) (payload : Payload) (index : Nat) :
    List Client → World → List Nat × World
  | [], w => ([], w)
  | client :: rest, w =>
    let (id, w1) := sendAndWaitForReply client type payload (Resolver.task index) w
    let (ids, w2) := sendToAll type payload index rest w1
    (id :: ids, w2)

/-- The task of a given number. -/
def getTask : List Task → Nat → Option Task
  | [], _ => none
  | task :: _, 0 => some task
  | _ :: rest, n + 1 => getTask rest n

/-- A change applied to the task of a given number. -/
def updateTask : List Task → Nat → (Task → Task) → List Task
  | [], _, _ => []
  | task :: rest, 0, f => f task :: rest
  | task :: rest, n + 1, f => task :: updateTask rest n f

/-- What runs when the `Promise.all` of a task has nothing left to await: `haltRequests`
aborts `pendingFetchAbortController`; then the function resolves and the `finally` of the
message listener replies to the client that sent the command. -/
def progress (index : Nat) (w : World) : World :=
  match getTask w.tasks index with
  | none => w
  | some task =>
    if task.awaiting = [] ∧ task.settled = false then
      { w with
        aborted := if task.command = Command.haltRequests then true else w.aborted
        tasks := updateTask w.tasks index (fun t => { t with settled := true })
        posted := w.posted ++ [(task.source, OutMessage.reply task.replyId Payload.undefined)] }
    else w

/-- JavaScript `haltRequests().finally(() => reply())` as started by the message listener for a
message
with id `replyId` from the client `source`. -/
def haltRequests (source : String) (replyId : Option Nat) (w : World) : World :=
  let clients := w.clients
  let index := w.tasks.length
  let (ids, w1) := sendToAll "haltRequests" Payload.undefined index clients w
  let task : Task := ⟨Command.haltRequests, source, replyId, ids, false⟩
  progress index { w1 with tasks := w1.tasks ++ [task] }

/-- JavaScript `closeSession(sessionId, requestingClientId).finally(() => reply())` as started
by the
message listener for a message with id `replyId` from the client `source`. -/
def closeSession (sessionId : Option String) (requestingClientId : String) (source : String)
    (replyId : Option Nat) (w : World) : World :=
  let clients := w.clients
  let index := w.tasks.length
  let (ids, w1) := sendToAll "closeSession" (Payload.session sessionId) index
    (clients.filter (fun client => decide (client.id ≠ requestingClientId))) w
  let task : Task := ⟨Command.closeSession, source, replyId, ids, false⟩
  progress index { w1 with tasks := w1.tasks ++ [task] }

/-- The promise registered under a message id is resolved: a task stops awaiting that
message and goes on when nothing is left to await. -/
def resolveReply (resolve : Resolver) (id : Nat) (w : World) : World :=
  match resolve with
  | Resolver.caller => w
  | Resolver.task index =>
    progress index { w with
      tasks := updateTask w.tasks index (fun t => { t with awaiting := t.awaiting.erase id }) }

/-- JavaScript `payload.sessionId` for the payload of a `closeSession` message; `none` when
reading the
property throws (the payload is `undefined`). -/
def Payload.sessionId : Payload → Option (Option String)
  | Payload.undefined => none
  | Payload.session sessionId => some sessionId
  | Payload.room sessionId _ => some sessionId
  | _ => some none

/-- The `message` listener, for a message with data `data` from the client `source`. -/
def onMessage (cfg : Config) (source : String) (data : MessageData) (w : World) : World :=
  match data.replyTo with
  | some (replyTo + 1) =>
    match mapGet w.pendingReplies (replyTo + 1) with
    | some resolve =>
      resolveReply resolve (replyTo + 1)
        { w with pendingReplies := mapDelete w.pendingReplies (replyTo + 1) }
    | none => w
  | _ =>
    if data.type = some "version" then
      { w with posted := w.posted ++ [(source,
          OutMessage.reply data.id (Payload.version cfg.VERSION cfg.GLOBAL_HASH))] }
    else if data.type = some "skipWaiting" then { w with skipWaitingCalled := true }
    else if data.type = some "haltRequests" then haltRequests source data.id w
    else if data.type = some "closeSession" then
      match data.payload.sessionId with
      | some sessionId => closeSession sessionId source source data.id w
      | none => w
    else w

/-- A sequence of `message` events, each with the id of its source. -/
def onMessages (cfg : Config) (events : List (String × MessageData)) (w : World) : World :=
  events.foldl (fun w ev => onMessage cfg ev.1 ev.2 w) w

/-- Whether a received message is a reply: its `replyTo` is truthy. -/
def isReply (data : MessageData) : Bool :=
  match data.replyTo with
  | some (_ + 1) => true
  | _ => false

/-- The common shape of `haltRequests` and `closeSession`: send to every target, then await
all replies. -/
def startTask (command : Command) (source : String) (replyId : Option Nat) (type : String)
    (payload : Payload) (targets : List Client) (w : World) : World :=
  let index := w.tasks.length
  let sent := sendToAll type payload index targets w
  progress index { sent.2 with
    tasks := sent.2.tasks ++ [⟨command, source, replyId, sent.1, false⟩] }

/-- Whether the task of a given number has resolved: for `haltRequests` this is the moment
`pendingFetchAbortController.abort()` has run, and for both commands the moment the `finally`
of the listener replies to the issuer. -/
def taskSettled (w : World) (index : Nat) : Bool :=
  match getTask w.tasks index with
  | some task => task.settled
  | none => false

/-- The task of a given number has not resolved and its `Promise.all` still awaits the reply
to the message `id`. -/
def Awaits (w : World) (index id : Nat) : Prop :=
  ∃ task, getTask w.tasks index = some task ∧ id ∈ task.awaiting ∧ task.settled = false

/-- The message id a received message replies to, if it is a reply. -/
def repliedBy (data : MessageData) : List Nat :=
  match data.replyTo with
  | some (k + 1) => [k + 1]
  | _ => []

/-- The message ids that a sequence of received messages replies to. -/
def repliedIds (events : List (String × MessageData)) : List Nat :=
  events.foldl (fun acc ev => acc ++ repliedBy ev.2) []

/-- The task `index`, started for the command of `source` with the requests `ids`, is in step
with the replies received so far: it awaits exactly the requests not yet replied to, whose
resolvers are still registered; it has resolved as soon as nothing is awaited, and then the
fetches are aborted (for `haltRequests`) and the issuer has been replied to. -/
def Tracks (w : World) (index : Nat) (command : Command) (source : String)
    (replyId : Option Nat) (ids replied : List Nat) : Prop :=
  ∃ awaiting settled,
    getTask w.tasks index = some ⟨command, source, replyId, awaiting, settled⟩ ∧
    awaiting = ids.filter (fun id => decide (id ∉ replied)) ∧
    (awaiting = [] → settled = true) ∧
    (settled = true →
      (command = Command.haltRequests → w.aborted = true) ∧
      (source, OutMessage.reply replyId Payload.undefined) ∈ w.posted) ∧
    (∀ id ∈ ids, id ∉ replied → mapGet w.pendingReplies id = some (Resolver.task index)) ∧
    (∀ id ∈ ids, id ≤ w.messageIdCounter)

/-! ## Push notifications -/

/-- The tag of the "messages read" notification. -/
def NOTIF_TAG_MESSAGES_READ : String := "messages_read"

/-- The tag of the notifications for new messages. -/
def NOTIF_TAG_NEW_MESSAGE : String := "new_message"

/-- The fields of a push payload that the worker reads (`content_body` is
`n.content?.body`); an absent field is `none`. -/
structure PushPayload where
  session_id : Option String := none
  sender : Option String := none
  sender_display_name : Option String := none
  event_id : Option String := none
  room_id : Option String := none
  room_name : Option String := none
  content_body : Option String := none
  unread : Option Int := none
deriving DecidableEq, Repr

/-- Whether a string-or-`undefined` value is truthy: present and not empty. -/
def truthyString (s : Option String) : Bool :=
  match s with
  | some v => decide (v ≠ "")
  | none => false

/-- JavaScript `a || b` on string-or-`undefined` values. -/
def jsOr (a b : Option String) : Option String := if truthyString a then a else b

/-- JavaScript `self.registration.getNotifications({tag})`; without a tag, all of them. -/
def getNotifications (tag : Option String) (w : World) : List Notification :=
  match tag with
  | none => w.notifications
  | some t => w.notifications.filter (fun notif => decide (notif.tag = t))

/-- JavaScript `notif.close()`. -/
def closeNotification (notif : Notification) (w : World) : World :=
  { w with notifications := w.notifications.erase notif }

/-- JavaScript `self.registration.showNotification(title, {body, data, tag})`: the notification
is displayed, and when its tag is not empty it takes the place of the displayed
notifications that have the same tag (the show steps of the Notifications API). Whether the
new notification stands where the old one stood or after the others depends on the
platform; here it stands after the others. -/
def showNotification (title : String) (body : Option String) (data : NotificationData)
    (tag : String) (w : World) : World :=
  let kept :=
    if tag = "" then w.notifications
    else w.notifications.filter (fun notif => decide (notif.tag ≠ tag))
  { w with notifications := kept ++ [{ title := title, body := body, tag := tag, data := data }] }

/-- JavaScript `await sendAndWaitForReply(client, type, payload)` in a handler that goes on when the
reply has arrived: `answers id` is the payload of the reply to the message `id`, `none` when
no reply ever arrives, in which case the handler never goes on. -/
def awaitReply (answers : Nat → Option Payload) (client : Client) (type : String)
    (payload : Payload) (w : World) : Option (Payload × World) :=
  let sent := sendAndWaitForReply client type payload Resolver.caller w
  match answers sent.1 with
  | none => none
  | some reply =>
    some (reply, { sent.2 with pendingReplies := mapDelete sent.2.pendingReplies sent.1 })

/-- The loop of `findClient(predicate)` over a client list: the first client on which the
predicate is truthy. -/
def findClientIn (predicate : Client → World → Option (Bool × World)) :
    List Client → World → Option (Option Client × World)
  | [], w => some (none, w)
  | client :: rest, w =>
    match predicate client w with
    | none => none
    | some (true, w1) => some (some client, w1)
    | some (false, w1) => findClientIn predicate rest w1

/-- JavaScript `findClient(predicate)`. -/
def findClient (predicate : Client → World → Option (Bool × World)) (w : World) :
    Option (Option Client × World) :=
  findClientIn predicate w.clients w

/-- The predicate `handlePushNotification` passes to `findClient` for a new message: a
visible and focused client is asked `hasRoomOpen`; for any other client the predicate returns
`undefined`. -/
def hasRoomOpenPredicate (answers : Nat → Option Payload) (sessionId roomId : Option String)
    (client : Client) (w : World) : Option (Bool × World) :=
  if client.visibilityState = "visible" ∧ client.focused = true then
    match awaitReply answers client "hasRoomOpen" (Payload.room sessionId roomId) w with
    | none => none
    | some (reply, w1) => some (reply.truthy, w1)
  else some (false, w)

/-- The `for (const client of clientList)` loop of `handlePushNotification`: whether it
returns early because a visible and focused client has the room open. -/
def roomOpenLoop (answers : Nat → Option Payload) (sessionId roomId : Option String) :
    List Client → World → Option (Bool × World)
  | [], w => some (false, w)
  | client :: rest, w =>
    if client.visibilityState = "visible" ∧ client.focused = true then
      match awaitReply answers client "hasRoomOpen" (Payload.room sessionId roomId) w with
      | none => none
      | some (isRoomOpen, w1) =>
        if isRoomOpen.truthy then some (true, w1)
        else roomOpenLoop answers sessionId roomId rest w1
    else roomOpenLoop answers sessionId roomId rest w

/-- How a run of `handlePushNotification` ended: it returned early because a focused client
has the room open, it went through the new-message branch to `showNotification`, it went
through the `unread === 0` branch, or the payload matched neither branch. -/
inductive PushOutcome where
  | suppressed
  | newMessage
  | readSync
  | ignored
deriving DecidableEq, Repr

/-- The notification `handlePushNotification` shows for a new message. -/
def newMessageNotification (n : PushPayload) : Notification :=
  let sender := jsOr n.sender_display_name n.sender
  { title :=
      if truthyString n.room_name then
        sender.getD "" ++ " wrote you in " ++ n.room_name.getD ""
      else sender.getD "" ++ " wrote you"
    body := n.content_body
    tag := NOTIF_TAG_NEW_MESSAGE
    data := { sessionId := n.session_id, roomId := n.room_id } }

/-- JavaScript `handlePushNotification(n)`: how it ended and the state, or `none` when it
awaits a reply that never arrives. -/
def handlePushNotification (answers : Nat → Option Payload) (n : PushPayload) (w : World) :
    Option (PushOutcome × World) :=
  let sessionId := n.session_id
  let sender := jsOr n.sender_display_name n.sender
  if truthyString sender = true ∧ truthyString n.event_id = true then
    let clientList := w.clients
    let roomId := n.room_id
    match findClient (hasRoomOpenPredicate answers sessionId roomId) w with
    | none => none
    | some (some _, w1) => some (PushOutcome.suppressed, w1)
    | some (none, w1) =>
      match roomOpenLoop answers sessionId roomId clientList w1 with
      | none => none
      | some (true, w2) => some (PushOutcome.suppressed, w2)
      | some (false, w2) =>
        let shown := newMessageNotification n
        let newMessageNotifs := getNotifications (some NOTIF_TAG_NEW_MESSAGE) w2
        let notifsForRoom :=
          newMessageNotifs.filter (fun notif => decide (notif.data.roomId = roomId))
        let w3 := notifsForRoom.foldl (fun w notif => closeNotification notif w) w2
        some (PushOutcome.newMessage,
          showNotification shown.title shown.body shown.data shown.tag w3)
  else if n.unread = some 0 then
    let notifs := getNotifications none w
    let w1 := notifs.foldl (fun w notif =>
      if notif.tag ≠ NOTIF_TAG_MESSAGES_READ then closeNotification notif w else w) w
    match findClient
        (fun client w => some (decide (client.visibilityState = "visible"), w)) w1 with
    | none => none
    | some (found, w2) =>
      if found.isNone then
        let readNotifs := getNotifications (some NOTIF_TAG_MESSAGES_READ) w2
        if readNotifs.length = 0 then
          some (PushOutcome.readSync,
            showNotification "New messages that have since been read" none
              { sessionId := sessionId } NOTIF_TAG_MESSAGES_READ w2)
        else some (PushOutcome.readSync, w2)
      else some (PushOutcome.readSync, w2)
  else some (PushOutcome.ignored, w)

/-- Whether a posted message is a request whose reply, as `answers` gives it, is truthy. -/
def affirmed (answers : Nat → Option Payload) (x : String × OutMessage) : Bool :=
  match x.2 with
  | OutMessage.request _ id _ =>
    match answers id with
    | some reply => reply.truthy
    | none => false
  | OutMessage.reply _ _ => false

/-- The posted messages `extra` are `hasRoomOpen` queries: each went to a visible and focused
client of `cs`, carries `{sessionId, roomId}` and has been replied to. -/
def RoomQueries (answers : Nat → Option Payload) (sessionId roomId : Option String)
    (cs : List Client) (extra : List (String × OutMessage)) : Prop :=
  ∀ x ∈ extra, ∃ c ∈ cs, (c.visibilityState = "visible" ∧ c.focused = true) ∧
    ∃ id reply, x = (c.id, OutMessage.request "hasRoomOpen" id (Payload.room sessionId roomId)) ∧
      answers id = some reply

/-! ## Installation -/

/-- JavaScript `response.ok`: the status is in the range 200 to 299. -/
def Response.ok (r : Response) : Bool := decide (200 ≤ r.status ∧ r.status ≤ 299)

/-- The request `cache.add`, `cache.addAll` and `cache.match` make of an asset path in the
worker: the path is resolved against the URL of the worker script. -/
def assetRequest (P : Platform) (scriptURL : String) (asset : String) : Request :=
  { url := (P.newURL asset (some scriptURL)).href }

/-- The responses `cache.addAll(requests)` waits for: each request is fetched with no options
of its own; a network failure, a response that is not `ok` and a partial response (status
206) make the call fail (the first failure in list order is the one reported). -/
def addAllResponses (net : Network) : List Request → Except JsError (List (Request × Response))
  | [] => Except.ok []
  | request :: rest =>
    match net request {} with
    | Except.error err => Except.error err
    | Except.ok response =>
      if response.ok ∧ response.status ≠ 206 then
        match addAllResponses net rest with
        | Except.error err => Except.error err
        | Except.ok entries => Except.ok ((request, response) :: entries)
      else Except.error { name := "TypeError", message := "Request failed" }

/-- JavaScript `cache.addAll(requests)` on the cache opened under `name`: every request is
fetched (these fetches do not carry the signal of `pendingFetchAbortController`); the
responses are stored, all of them or none, and nothing is stored when a fetch fails or two
of the requests have the same URL. -/
def cacheAddAll (net : Network) (name : String) (requests : List Request) (w : World) :
    Except JsError Unit × World :=
  let w1 := { w with fetched := w.fetched ++ requests.map (fun r => (r, {})) }
  match addAllResponses net requests with
  | Except.error err => (Except.error err, w1)
  | Except.ok entries =>
    if (requests.map (fun r => r.url)).Nodup then
      let caches := w1.caches.update name (fun c => entries.foldl (fun c e => c.put e.1 e.2) c)
      (Except.ok (), { w1 with caches := caches })
    else
      (Except.error { name := "InvalidStateError", message := "duplicate requests" }, w1)

/-- JavaScript `cache.add(request)`, which is `cache.addAll([request])`. -/
def cacheAdd (net : Network) (name : String) (request : Request) (w : World) :
    Except JsError Unit × World :=
  cacheAddAll net name [request] w

/-- One callback of `HASHED_PRECACHED_ASSETS.map` whose `hashedCache.match(asset)` found
nothing: `hashedCache.add(asset)`. In `acc` are the outcome of the callbacks before it and the
state. A failed `add` makes the `Promise.all` fail (with the first failure) and does not stop
the other callbacks. -/
def addMissingStep (net : Network) (acc : Except JsError Unit × World) (request : Request) :
    Except JsError Unit × World :=
  match cacheAdd net hashedCacheName request acc.2 with
  | (Except.ok _, w1) => (acc.1, w1)
  | (Except.error err, w1) =>
    match acc.1 with
    | Except.ok _ => (Except.error err, w1)
    | Except.error first => (Except.error first, w1)

/-- The second half of the `install` listener, after every `hashedCache.match(asset)` has
been answered: `hashedCache.add(asset)` for the assets that had no entry, in order. -/
def addMissing (net : Network) (missing : List Request) (w : World) :
    Except JsError Unit × World :=
  missing.foldl (addMissingStep net) (Except.ok (), w)

/-- The requests made of a list of asset paths. -/
def precacheRequests (P : Platform) (scriptURL : String) (assets : List String) :
    List Request :=
  assets.map (assetRequest P scriptURL)

/-- The `install` listener (the promise given to `e.waitUntil`), for a worker script at
`scriptURL`. The callbacks of `HASHED_PRECACHED_ASSETS.map` all call `hashedCache.match`
before any of them calls `hashedCache.add`, so the lookups see the hashed cache as it is
when it is opened. -/
def install (P : Platform) (cfg : Config) (scriptURL : String) (net : Network) (w : World) :
    Except JsError Unit × World :=
  let w1 := { w with caches := w.caches.openCache (unhashedCacheName cfg) }
  match cacheAddAll net (unhashedCacheName cfg)
      (precacheRequests P scriptURL cfg.UNHASHED_PRECACHED_ASSETS) w1 with
  | (Except.error err, w2) => (Except.error err, w2)
  | (Except.ok _, w2) =>
    let w3 := { w2 with caches := w2.caches.openCache hashedCacheName }
    let hashedCache := w3.caches.get hashedCacheName
    let missing := (precacheRequests P scriptURL cfg.HASHED_PRECACHED_ASSETS).filter
      (fun request => (hashedCache.matchRequest request).isNone)
    addMissing net missing w3

/-! ## The reply table -/

/-- The call `resolve(event.data.payload)` the message listener makes for a message with a
truthy `replyTo` under which a function is registered: the id, the function and its
argument; `none` when the listener calls no such function. -/
def replyResolution (data : MessageData) (w : World) : Option (Nat × Resolver × Payload) :=
  match data.replyTo with
  | some (replyTo + 1) =>
    match mapGet w.pendingReplies (replyTo + 1) with
    | some resolve => some (replyTo + 1, resolve, data.payload)
    | none => none
  | _ => none

/-- The ids of the requests among the posted messages, oldest first: the ids
`sendAndWaitForReply` has assigned. -/
def requestIds (posted : List (String × OutMessage)) : List Nat :=
  posted.filterMap (fun x =>
    match x.2 with
    | OutMessage.request _ id _ => some id
    | OutMessage.reply _ _ => none)

/-- Every id assigned so far, and every id in the table of pending replies, is at least 1
and at most `messageIdCounter`. -/
def IdsAssigned (w : World) : Prop :=
  (∀ id ∈ requestIds w.posted, 0 < id ∧ id ≤ w.messageIdCounter) ∧
  (∀ e ∈ w.pendingReplies, 0 < e.1 ∧ e.1 ≤ w.messageIdCounter)


/-! ## Why a fetch fails -/

/-- Why a `fetch` made by `handleRequest` gives no response: the signal of
`pendingFetchAbortController` was aborted, the client gave the request up (it navigated
away or was closed), or the network could not be reached. -/
inductive FetchFailure where
  | tokenAborted
  | superseded
  | unreachable
deriving DecidableEq, Repr

/-- The error JavaScript `fetch` rejects with: an `AbortError` for an aborted signal, a
`TypeError` for every network error. -/
def FetchFailure.error : FetchFailure → JsError
  | FetchFailure.tokenAborted => { name := "AbortError", message := "The operation was aborted." }
  | FetchFailure.superseded => { name := "TypeError", message := "Failed to fetch" }
  | FetchFailure.unreachable => { name := "TypeError", message := "Failed to fetch" }

/-- Whether the failure is a cancellation: the token was triggered or the request was
superseded. -/
def FetchFailure.isCancellation : FetchFailure → Bool
  | FetchFailure.tokenAborted => true
  | FetchFailure.superseded => true
  | FetchFailure.unreachable => false


/-! ## Notification clicks -/

/-- What the worker asks of the window clients: `client.navigate(url)`, `client.focus()` and
`self.clients.openWindow(url)`. -/
inductive ClientAction where
  | navigate (clientId : String) (url : String)
  | focus (clientId : String)
  | openWindow (url : String)
deriving DecidableEq, Repr

/-- A string-or-`undefined` value inside a template literal. -/
def templateString (v : Option String) : String := v.getD "undefined"

/-- The `for` loop of `openClientFromNotif`: the first client whose URL, resolved against
`baseURL`, has a hash that starts with `sessionHash` is navigated and focused (a window
client always has `focus`); `none` when the loop ends without returning. -/
def openClientLoop (P : Platform) (baseHref sessionHash roomURL : String) :
    List Client → Option (List ClientAction)
  | [] => none
  | client :: rest =>
    let url := P.newURL client.url (some baseHref)
    if startsWith url.hash sessionHash then
      some [ClientAction.navigate client.id roomURL, ClientAction.focus client.id]
    else openClientLoop P baseHref sessionHash roomURL rest

/-- JavaScript `openClientFromNotif(event)` for a notification with the given `data`: the calls
it makes on the clients. `canOpenWindow` says whether `self.clients.openWindow` exists. -/
def openClientFromNotif (P : Platform) (cfg : Config) (canOpenWindow : Bool)
    (data : NotificationData) (w : World) : List ClientAction :=
  let baseURL := P.newURL cfg.scope none
  let clientList := w.clients
  let sessionHash := "#/session/" ++ templateString data.sessionId
  let roomHash := sessionHash ++ "/room/" ++ templateString data.roomId
  let roomURL := "/" ++ roomHash
  match openClientLoop P baseURL.href sessionHash roomURL clientList with
  | some actions => actions
  | none => if canOpenWindow then [ClientAction.openWindow roomURL] else []

/-- The `notificationclick` listener: the notification is closed, then
`openClientFromNotif` runs. -/
def onNotificationClick (P : Platform) (cfg : Config) (canOpenWindow : Bool)
    (notification : Notification) (w : World) : World × List ClientAction :=
  (closeNotification notification w,
    openClientFromNotif P cfg canOpenWindow notification.data w)

/-! ## The events of one run of the worker -/

/-- One step of a run of the worker script: a listener handles an event (`install`,
`activate`, `fetch`, `message`, `push`, `notificationclick`), a handler that is waiting has
sent a message with `sendAndWaitForReply`, or the browser changes the window clients and the
displayed notifications. -/
inductive Step (P : Platform) (cfg : Config) : World → World → Prop where
  | install (scriptURL : String) (net : Network) (w : World) :
      Step P cfg w (install P cfg scriptURL net w).2
  | activate (w : World) : Step P cfg w (onActivate P cfg w)
  | request (net : Network) (request : Request) (w : World) :
      Step P cfg w (handleRequest P cfg net request w).2
  | message (source : String) (data : MessageData) (w : World) :
      Step P cfg w (onMessage cfg source data w)
  | push (answers : Nat → Option Payload) (n : PushPayload) (w w1 : World)
      (outcome : PushOutcome) (h : handlePushNotification answers n w = some (outcome, w1)) :
      Step P cfg w w1
  | send (client : Client) (type : String) (payload : Payload) (resolve : Resolver)
      (w : World) : Step P cfg w (sendAndWaitForReply client type payload resolve w).2
  | click (canOpenWindow : Bool) (notification : Notification) (w : World) :
      Step P cfg w (onNotificationClick P cfg canOpenWindow notification w).1
  | browser (clients : List Client) (notifications : List Notification) (w : World) :
      Step P cfg w { w with clients := clients, notifications := notifications }

/-- The states a run of the worker script can reach from a state. -/
def Reachable (P : Platform) (cfg : Config) : World → World → Prop :=
  Relation.ReflTransGen (Step P cfg)


/-! ## The push handler without its second scan -/

/-- The function `handlePushNotification(n)` with the loop `for (const client of clientList)`
taken out: after `findClient` has found no client with the room open, the notifications
of the room are closed and the new one is shown at once. Everything else is as in
`handlePushNotification`. -/
def handlePushNotificationWithoutLoop (answers : Nat → Option Payload) (n : PushPayload)
    (w : World) : Option (PushOutcome × World) :=
  let sessionId := n.session_id
  let sender := jsOr n.sender_display_name n.sender
  if truthyString sender = true ∧ truthyString n.event_id = true then
    let roomId := n.room_id
    match findClient (hasRoomOpenPredicate answers sessionId roomId) w with
    | none => none
    | some (some _, w1) => some (PushOutcome.suppressed, w1)
    | some (none, w1) =>
      let shown := newMessageNotification n
      let newMessageNotifs := getNotifications (some NOTIF_TAG_NEW_MESSAGE) w1
      let notifsForRoom :=
        newMessageNotifs.filter (fun notif => decide (notif.data.roomId = roomId))
      let w3 := notifsForRoom.foldl (fun w notif => closeNotification notif w) w1
      some (PushOutcome.newMessage,
        showNotification shown.title shown.body shown.data shown.tag w3)
  else if n.unread = some 0 then
    let notifs := getNotifications none w
    let w1 := notifs.foldl (fun w notif =>
      if notif.tag ≠ NOTIF_TAG_MESSAGES_READ then closeNotification notif w else w) w
    match findClient
        (fun client w => some (decide (client.visibilityState = "visible"), w)) w1 with
    | none => none
    | some (found, w2) =>
      if found.isNone then
        let readNotifs := getNotifications (some NOTIF_TAG_MESSAGES_READ) w2
        if readNotifs.length = 0 then
          some (PushOutcome.readSync,
            showNotification "New messages that have since been read" none
              { sessionId := sessionId } NOTIF_TAG_MESSAGES_READ w2)
        else some (PushOutcome.readSync, w2)
      else some (PushOutcome.readSync, w2)
  else some (PushOutcome.ignored, w)

/-- Whether a client is asked `hasRoomOpen`: it is visible and focused. -/
def isAsked (client : Client) : Bool :=
  decide (client.visibilityState = "visible" ∧ client.focused = true)


/-! ## A URL constructor for sample runs -/

/-- The pieces of a list of characters between occurrences of a separator. -/
def splitOnChar (sep : Char) : List Char → List (List Char)
  | [] => [[]]
  | c :: cs =>
    if c = sep then [] :: splitOnChar sep cs
    else
      match splitOnChar sep cs with
      | [] => [[c]]
      | piece :: pieces => (c :: piece) :: pieces

/-- One `name=value` piece of a query string. -/
def parseParam (piece : List Char) : String × String :=
  (String.mk (piece.takeWhile (fun c => c != '=')),
   String.mk ((piece.dropWhile (fun c => c != '=')).drop 1))

/-- JavaScript `new URL(s)` for an absolute `scheme://host/path?query#hash` string that is
already in
serialised form (no escapes to decode, no dot segments). -/
def parseAbsolute (s : String) : URL :=
  let scheme := s.data.takeWhile (fun c => c != ':')
  let afterScheme := (s.data.dropWhile (fun c => c != ':')).drop 3
  let host := afterScheme.takeWhile (fun c => c != '/' && c != '?' && c != '#')
  let afterHost := afterScheme.dropWhile (fun c => c != '/' && c != '?' && c != '#')
  let path := afterHost.takeWhile (fun c => c != '?' && c != '#')
  let afterPath := afterHost.dropWhile (fun c => c != '?' && c != '#')
  let query := (afterPath.takeWhile (fun c => c != '#')).drop 1
  let hash := afterPath.dropWhile (fun c => c != '#')
  { href := s
    origin := String.mk (scheme ++ "://".data ++ host)
    pathname := if path.isEmpty then "/" else String.mk path
    hash := if hash.length ≤ 1 then "" else String.mk hash
    searchParams := ((splitOnChar '&' query).filter (fun p => !p.isEmpty)).map parseParam }

/-- The part of a path up to and including its last `/`. -/
def directoryOf (path : List Char) : List Char :=
  (path.reverse.dropWhile (fun c => c != '/')).reverse

/-- JavaScript `new URL(s, base)` for `s` an absolute URL, a file name, or `./` followed by a
file name
(possibly empty), resolved against an absolute base. -/
def resolveSimple (s base : String) : URL :=
  if (s.data.dropWhile (fun c => c != ':')).take 3 = "://".data then parseAbsolute s
  else
    let b := parseAbsolute base
    let rel := if s.data.take 2 = "./".data then s.data.drop 2 else s.data
    parseAbsolute (b.origin ++ String.mk (directoryOf b.pathname.data) ++ String.mk rel)

/-- A URL constructor for sample runs. It agrees with the URL standard on the inputs
described at `parseAbsolute` and `resolveSimple`. -/
def samplePlatform : Platform :=
  { newURL := fun s base =>
      match base with
      | none => parseAbsolute s
      | some b => resolveSimple s b }

/-! ## Sample data -/

/-- A sample build: one unhashed page, one precached hashed script, one hashed asset cached
on request, served under `https://app.example/`. -/
def sampleConfig : Config :=
  { VERSION := "0.1.26"
    GLOBAL_HASH := "1234"
    UNHASHED_PRECACHED_ASSETS := ["index.html"]
    HASHED_PRECACHED_ASSETS := ["hydrogen-5678.js"]
    HASHED_CACHED_ON_REQUEST_ASSETS := ["olm-9abc.wasm"]
    scope := "https://app.example/" }

/-- Sample request: a 32x32 thumbnail on a homeserver. -/
def thumbRequest : Request :=
  { url := "https://hs.example/_matrix/media/r0/thumbnail/hs.example/abc?width=32&height=32" }

/-- Sample request: the hashed asset that is cached on request. -/
def olmRequest : Request := { url := "https://app.example/olm-9abc.wasm" }

/-- Sample request: an API call of the application. -/
def syncRequest : Request := { url := "https://hs.example/_matrix/client/r0/sync" }

/-- Sample URL: a 32x32 thumbnail. -/
def thumb32 : URL :=
  { href := "https://hs/_matrix/media/r0/thumbnail/a?width=32&height=32", origin := "https://hs",
    pathname := "/_matrix/media/r0/thumbnail/a", hash := "",
    searchParams := [("width", "32"), ("height", "32")] }

/-- Sample URL: a thumbnail request without `height`. -/
def thumbNoHeight : URL :=
  { href := "https://hs/_matrix/media/r0/thumbnail/a?width=32", origin := "https://hs",
    pathname := "/_matrix/media/r0/thumbnail/a", hash := "", searchParams := [("width", "32")] }

/-- Sample URL: a 64x32 thumbnail. -/
def thumb64 : URL :=
  { href := "https://hs/_matrix/media/r0/thumbnail/a?width=64&height=32", origin := "https://hs",
    pathname := "/_matrix/media/r0/thumbnail/a", hash := "",
    searchParams := [("width", "64"), ("height", "32")] }

/-- A network that answers every fetch with a 200 response. -/
def sampleNetwork : Network := fun _ _ => Except.ok { status := 200, body := "from network" }

/-- A build whose hashed precached assets include the directory of the scope itself. -/
def rootConfig : Config :=
  { VERSION := "0.1.26"
    GLOBAL_HASH := "1234"
    UNHASHED_PRECACHED_ASSETS := []
    HASHED_PRECACHED_ASSETS := ["./"]
    HASHED_CACHED_ON_REQUEST_ASSETS := []
    scope := "https://app.example/" }

/-- The request for the path `./` of `rootConfig`: the root URL of the application. -/
def rootRequest : Request := { url := "https://app.example/" }

/-- The caches of `rootConfig` with its one hashed asset stored, as the install step leaves
them. -/
def rootWorld : World :=
  { caches := [(unhashedCacheName rootConfig, []),
      (hashedCacheName, [(rootRequest, { status := 200, body := "precached" })])] }

/-- The caches of `sampleConfig` with the asset `olm-9abc.wasm` stored in the hashed cache. -/
def olmWorld : World :=
  { caches := [(unhashedCacheName sampleConfig, []),
      (hashedCacheName, [(olmRequest, { status := 200, body := "wasm" })])] }

/-- A registration whose scope lies under the thumbnail endpoint. -/
def thumbScopeConfig : Config :=
  { VERSION := "0.1.26"
    GLOBAL_HASH := "1234"
    UNHASHED_PRECACHED_ASSETS := ["index.html"]
    HASHED_PRECACHED_ASSETS := []
    HASHED_CACHED_ON_REQUEST_ASSETS := []
    scope := "https://hs.example/_matrix/media/r0/thumbnail/" }

/-- A request for the root URL of `thumbScopeConfig`, with a query. -/
def thumbScopeRoot : Request :=
  { url := "https://hs.example/_matrix/media/r0/thumbnail/?width=32&height=32" }

/-- A network whose answer depends on the mode of the fetch. -/
def modeNetwork : Network := fun _ init =>
  if init.mode = some "cors" then Except.ok { status := 200, body := "cors" }
  else Except.ok { status := 200, body := "default mode" }

/-- Sample request: the root URL of `sampleConfig` with a fragment. -/
def sampleRoot : Request := { url := "https://app.example/#/session/1" }

/-- Sample clients: three windows of the application. -/
def clientC1 : Client :=
  { id := "C1", url := "https://app.example/#/session/s1", visibilityState := "visible",
    focused := true }

/-- Sample client: a hidden window. -/
def clientC2 : Client :=
  { id := "C2", url := "https://app.example/#/session/s1", visibilityState := "hidden",
    focused := false }

/-- Sample client: another hidden window. -/
def clientC3 : Client :=
  { id := "C3", url := "https://app.example/#/session/s2", visibilityState := "hidden",
    focused := false }

/-- A worker with the three sample windows open. -/
def threeClients : World := { clients := [clientC1, clientC2, clientC3] }

/-- The `haltRequests` command as `clientC1` sends it. -/
def haltCommand : MessageData := { type := some "haltRequests", id := some 7 }

/-- The `closeSession` command for session `s1` as `clientC1` sends it. -/
def closeCommand : MessageData :=
  { type := some "closeSession", id := some 7, payload := Payload.session (some "s1") }

/-- Sample push: a message of Alice in room `!r1`. -/
def pushA : PushPayload :=
  { session_id := some "s1", sender := some "Alice", event_id := some "e1",
    room_id := some "!r1", content_body := some "hello" }

/-- Sample push: a second message of Alice in room `!r1`. -/
def pushB : PushPayload :=
  { session_id := some "s1", sender := some "Alice", event_id := some "e2",
    room_id := some "!r1", content_body := some "again" }

/-- Sample push: everything has been read. -/
def pushRead : PushPayload := { session_id := some "s1", unread := some 0 }

/-- Replies that say the room is not open. -/
def noRoomOpen : Nat → Option Payload := fun _ => some (Payload.bool false)

/-- Sample notification: a message of Bob in room `!r2`. -/
def notifBob : Notification :=
  { title := "Bob wrote you", body := some "hi", tag := "new_message",
    data := { sessionId := some "s1", roomId := some "!r2" } }

/-- A worker with two hidden windows and the notification for room `!r2` on display. -/
def hiddenClients : World := { clients := [clientC2, clientC3], notifications := [notifBob] }

/-- The "messages read" notification of session `s1`. -/
def notifRead : Notification :=
  { title := "New messages that have since been read", body := none,
    tag := NOTIF_TAG_MESSAGES_READ, data := { sessionId := some "s1" } }

/-- A worker with two hidden windows and two notifications on display: the one for room
`!r2` and the "messages read" one. -/
def hiddenWithNotifs : World :=
  { clients := [clientC2, clientC3], notifications := [notifBob, notifRead] }

/-- The state after push A is handled in `hiddenWithNotifs`. -/
def afterPushA : World :=
  { clients := [clientC2, clientC3], notifications := [notifRead, newMessageNotification pushA] }

/-- The state after push B is handled in `afterPushA`. -/
def afterPushB : World :=
  { clients := [clientC2, clientC3], notifications := [notifRead, newMessageNotification pushB] }

/-- Replies that say the room is open. -/
def roomOpen : Nat → Option Payload := fun _ => some (Payload.bool true)

/-- No reply ever arrives. -/
def noAnswer : Nat → Option Payload := fun _ => none

/-- The state after push A is handled in `threeClients` when the focused window answers that
the room is open: the query has been posted and answered, nothing is displayed. -/
def afterAffirmed : World :=
  { clients := [clientC1, clientC2, clientC3], messageIdCounter := 1,
    posted := [("C1", OutMessage.request "hasRoomOpen" 1
      (Payload.room (some "s1") (some "!r1")))] }

/-- Sample response: the error a homeserver gave for a thumbnail. -/
def goneResponse : Response := { status := 404, body := "gone" }

/-- Sample response: a thumbnail image. -/
def pngResponse : Response := { status := 200, body := "png" }

/-- A world whose media-thumbnail cache holds an error response for `thumbRequest`. -/
def staleThumbWorld : World :=
  { caches := [(mediaThumbnailCacheName, [(thumbRequest, goneResponse)])] }

/-- A world whose media-thumbnail cache holds an image for `thumbRequest`. -/
def freshThumbWorld : World :=
  { caches := [(mediaThumbnailCacheName, [(thumbRequest, pngResponse)])] }

/-- The URL of the worker script of the sample build. -/
def sampleScript : String := "https://app.example/sw.js"

/-- A world whose hashed cache already holds the precached script of `sampleConfig`. -/
def precachedWorld : World :=
  { caches := [(hashedCacheName,
      [({ url := "https://app.example/hydrogen-5678.js" }, { status := 200, body := "old" })])] }

/-- A network on which every fetch fails for the given reason. -/
def failingNetwork (cause : FetchFailure) : Network := fun _ _ => Except.error cause.error

/-- A network on which every fetch fails with an error that is no `TypeError` and no
`AbortError`. -/
def brokenNetwork : Network :=
  fun _ _ => Except.error { name := "SecurityError", message := "blocked" }

/-- Sample URL: a thumbnail whose dimensions are integers followed by other characters. -/
def thumbPx : URL :=
  { href := "https://hs/_matrix/media/r0/thumbnail/a?width=50px&height=10.9",
    origin := "https://hs", pathname := "/_matrix/media/r0/thumbnail/a", hash := "",
    searchParams := [("width", "50px"), ("height", "10.9")] }

/-- Sample URL: a thumbnail whose width is not numeric. -/
def thumbAuto : URL :=
  { href := "https://hs/_matrix/media/r0/thumbnail/a?width=auto&height=32",
    origin := "https://hs", pathname := "/_matrix/media/r0/thumbnail/a", hash := "",
    searchParams := [("width", "auto"), ("height", "32")] }

/-- A window of the application in session `12`, in room `!a`. -/
def clientSession12 : Client :=
  { id := "C12", url := "https://app.example/#/session/12/room/!a",
    visibilityState := "visible", focused := true }

/-- A world whose only window is in session `12`. -/
def session12World : World := { clients := [clientSession12] }

/-- The data of a notification for room `!r` of session `1`. -/
def notifSession1 : NotificationData := { sessionId := some "1", roomId := some "!r" }

/-- A worker with a visible window and two notifications on display, one of them tagged
`messages_read`. -/
def visibleWithNotifs : World :=
  { clients := [clientC1, clientC2, clientC3], notifications := [notifBob, notifRead] }

/-! # Properties -/

/-! ## Reading decimal literals -/

theorem digitChar_spec (k : Nat) (hk : k < 10) :
    isDecDigit (Nat.digitChar k) = true ∧ (Nat.digitChar k).toNat - 48 = k ∧
      isStrWhiteSpaceChar (Nat.digitChar k) = false ∧ Nat.digitChar k ≠ '-' ∧
      Nat.digitChar k ≠ '+' := by
  interval_cases k <;> decide

theorem digitsValue_append_single (l : List Char) (c : Char) :
    digitsValue (l ++ [c]) = 10 * digitsValue l + (c.toNat - 48) := by
  simp [digitsValue, List.foldl_append]

/-- The digits written by `Nat.toDigitsCore` are decimal digits denoting the number. -/
theorem toDigitsCore_spec (fuel : Nat) : ∀ (n : Nat) (ds : List Char), n < fuel →
    ∃ l : List Char, Nat.toDigitsCore 10 fuel n ds = l ++ ds ∧ l ≠ [] ∧
      (∀ c ∈ l, isDecDigit c = true) ∧ digitsValue l = n ∧
      (∀ c, l.head? = some c → isStrWhiteSpaceChar c = false ∧ c ≠ '-' ∧ c ≠ '+') := by
  induction fuel with
  | zero => intro n ds h; omega
  | succ fuel ih =>
    intro n ds h
    have hd := digitChar_spec (n % 10) (Nat.mod_lt _ (by decide))
    unfold Nat.toDigitsCore
    by_cases h0 : n / 10 = 0
    · simp only [h0, if_true]
      refine ⟨[Nat.digitChar (n % 10)], rfl, by simp, ?_, ?_, ?_⟩
      · intro c hc; simp at hc; subst hc; exact hd.1
      · simp [digitsValue, hd.2.1]; omega
      · intro c hc; simp at hc; subst hc; exact hd.2.2
    · simp only [h0, if_false]
      have hlt : n / 10 < fuel := by omega
      obtain ⟨l, hl, hne, hdig, hval, hhead⟩ := ih (n / 10) (Nat.digitChar (n % 10) :: ds) hlt
      refine ⟨l ++ [Nat.digitChar (n % 10)], by simp [hl], by simp, ?_, ?_, ?_⟩
      · intro c hc
        rcases List.mem_append.1 hc with h1 | h1
        · exact hdig c h1
        · simp at h1; subst h1; exact hd.1
      · rw [digitsValue_append_single, hval, hd.2.1]; omega
      · intro c hc
        cases l with
        | nil => exact absurd rfl hne
        | cons a t => exact hhead c (by simpa using hc)

theorem takeWhile_all (p : Char → Bool) (l : List Char) (h : ∀ c ∈ l, p c = true) :
    l.takeWhile p = l := by
  induction l with
  | nil => rfl
  | cons a t ih =>
    simp only [List.takeWhile, h a (List.mem_cons_self _ _)]
    rw [ih (fun c hc => h c (List.mem_cons_of_mem _ hc))]

theorem parseDigits_repr (n : Nat) :
    ∃ l : List Char, (Nat.repr n).data = l ∧ parseDigits l = some n ∧ l ≠ [] ∧
      (∀ c, l.head? = some c → isStrWhiteSpaceChar c = false ∧ c ≠ '-' ∧ c ≠ '+') := by
  obtain ⟨l, hl, hne, hdig, hval, hhead⟩ := toDigitsCore_spec (n + 1) n [] (Nat.lt_succ_self n)
  refine ⟨l, ?_, ?_, hne, hhead⟩
  · simp [Nat.repr, Nat.toDigits, hl, List.asString]
  · unfold parseDigits
    simp only [takeWhile_all _ l hdig]
    cases l with
    | nil => exact absurd rfl hne
    | cons a t => simp [hval]

theorem parseIntChars_natRepr (n : Nat) : parseIntChars (Nat.repr n).data = some (n : Int) := by
  obtain ⟨l, hl, hp, hne, hhead⟩ := parseDigits_repr n
  rw [hl]
  cases l with
  | nil => exact absurd rfl hne
  | cons a t =>
    obtain ⟨hw, hm, hpl⟩ := hhead a rfl
    unfold parseIntChars
    simp only [List.dropWhile, hw]
    split
    · rename_i heq; simp at heq; exact absurd heq.1 hm
    · rename_i heq; simp at heq; exact absurd heq.1 hpl
    · rw [hp]; rfl

/-- Reading back the decimal literal of an integer gives the integer. -/
theorem parseInt_toString (i : Int) : parseInt (some (toString i)) = some i := by
  unfold parseInt
  cases i with
  | ofNat n =>
    show parseIntChars (Nat.repr n).data = _
    exact parseIntChars_natRepr n
  | negSucc n =>
    show parseIntChars ("-" ++ Nat.repr (n + 1)).data = _
    obtain ⟨l, hl, hp, hne, hhead⟩ := parseDigits_repr (n + 1)
    have : ("-" ++ Nat.repr (n + 1)).data = '-' :: l := by
      simp [String.data_append, hl]
    rw [this]
    unfold parseIntChars
    have hw : isStrWhiteSpaceChar '-' = false := by decide
    simp only [List.dropWhile, hw, hp]
    simp [Int.negSucc_eq]

/-! ## The thumbnail predicate -/

/-- C1: `isCacheableThumbnail(url)` is true exactly when the pathname starts with
`/_matrix/media/r0/thumbnail/` and the `width` and the `height` query parameters both read
(by `parseInt(_, 10)`) as a number at most 50. It is false when a dimension is missing, and
false when a dimension is the decimal literal of an integer larger than 50; for dimensions
given as decimal literals of integers `w` and `h` it is true exactly when the pathname
matches, `w ≤ 50` and `h ≤ 50`. -/
theorem isCacheableThumbnail_iff (url : URL) :
    (isCacheableThumbnail url = true ↔
      startsWith url.pathname thumbnailPrefix = true ∧
      (∃ w : Int, parseInt (searchParamsGet url.searchParams "width") = some w ∧ w ≤ 50) ∧
      (∃ h : Int, parseInt (searchParamsGet url.searchParams "height") = some h ∧ h ≤ 50)) ∧
    (searchParamsGet url.searchParams "width" = none ∨
      searchParamsGet url.searchParams "height" = none → isCacheableThumbnail url = false) ∧
    (∀ w h : Int, searchParamsGet url.searchParams "width" = some (toString w) →
      searchParamsGet url.searchParams "height" = some (toString h) →
      (isCacheableThumbnail url = true ↔
        startsWith url.pathname thumbnailPrefix = true ∧ w ≤ 50 ∧ h ≤ 50)) ∧
    (∀ v : Int, 50 < v →
      searchParamsGet url.searchParams "width" = some (toString v) ∨
        searchParamsGet url.searchParams "height" = some (toString v) →
      isCacheableThumbnail url = false) := by
  have key : isCacheableThumbnail url = true ↔
      startsWith url.pathname thumbnailPrefix = true ∧
      (∃ w : Int, parseInt (searchParamsGet url.searchParams "width") = some w ∧ w ≤ 50) ∧
      (∃ h : Int, parseInt (searchParamsGet url.searchParams "height") = some h ∧ h ≤ 50) := by
    unfold isCacheableThumbnail
    cases hp : startsWith url.pathname thumbnailPrefix
    · simp
    · cases hw : parseInt (searchParamsGet url.searchParams "width") <;>
        cases hh : parseInt (searchParamsGet url.searchParams "height") <;>
        simp [jsLe]
  have hnull : parseInt none = none := by decide
  refine ⟨key, ?_, ?_, ?_⟩
  · intro h
    cases hc : isCacheableThumbnail url
    · rfl
    · obtain ⟨_, ⟨w, hw, _⟩, ⟨h', hh, _⟩⟩ := key.1 hc
      rcases h with h | h
      · rw [h, hnull] at hw; cases hw
      · rw [h, hnull] at hh; cases hh
  · intro w h hw hh
    rw [key, hw, hh, parseInt_toString, parseInt_toString]
    simp
  · intro v hv h
    cases hc : isCacheableThumbnail url
    · rfl
    · obtain ⟨_, ⟨w, hw, hw50⟩, ⟨h', hh, hh50⟩⟩ := key.1 hc
      rcases h with h | h
      · rw [h, parseInt_toString] at hw
        cases hw; omega
      · rw [h, parseInt_toString] at hh
        cases hh; omega

/-- Witness for C1: a 32x32 thumbnail request is cacheable, one without `height` is not, and
a 64x32 one is not. -/
theorem isCacheableThumbnail_iff_witness :
    isCacheableThumbnail thumb32 = true ∧ isCacheableThumbnail thumbNoHeight = false ∧
    isCacheableThumbnail thumb64 = false :=
  ⟨((isCacheableThumbnail_iff thumb32).2.2.1 32 32 rfl rfl).2 ⟨by decide, by decide, by decide⟩,
   (isCacheableThumbnail_iff thumbNoHeight).2.1 (Or.inr rfl),
   (isCacheableThumbnail_iff thumb64).2.2.2 64 (by decide) (Or.inl rfl)⟩

/-! ## The cache storage -/

theorem unhashedCacheName_ne_hashed (cfg : Config) : unhashedCacheName cfg ≠ hashedCacheName := by
  intro h
  have := congrArg String.length h
  simp [unhashedCacheName, hashedCacheName, String.length_append] at this
  have h1 : "hydrogen-assets-".length = 16 := by decide
  have h2 : "hydrogen-assets".length = 15 := by decide
  omega

theorem unhashedCacheName_ne_media (cfg : Config) :
    unhashedCacheName cfg ≠ mediaThumbnailCacheName := by
  intro h
  have := congrArg (fun s : String => s.data.take 10) h
  simp [unhashedCacheName, mediaThumbnailCacheName, String.data_append] at this

theorem hashed_ne_media : hashedCacheName ≠ mediaThumbnailCacheName := by decide

theorem CacheStorage.lookup_filter (cs : CacheStorage) (p : String × Cache → Bool)
    (name : String) (h : ∀ c, p (name, c) = true) :
    CacheStorage.lookup (cs.filter p) name = CacheStorage.lookup cs name := by
  induction cs with
  | nil => rfl
  | cons e t ih =>
    obtain ⟨n, c⟩ := e
    by_cases hn : n = name
    · subst hn
      simp [CacheStorage.lookup, List.filter, h c]
    · by_cases hp : p (n, c) = true
      · simp [List.filter, hp, CacheStorage.lookup, hn, ih]
      · simp [List.filter, hp, CacheStorage.lookup, hn, ih]

theorem CacheStorage.lookup_append_ne (cs : CacheStorage) (n name : String) (c : Cache)
    (h : n ≠ name) : CacheStorage.lookup (cs ++ [(n, c)]) name = CacheStorage.lookup cs name := by
  induction cs with
  | nil => simp [CacheStorage.lookup, h]
  | cons e t ih =>
    obtain ⟨m, d⟩ := e
    by_cases hm : m = name
    · subst hm; simp [CacheStorage.lookup]
    · simp [CacheStorage.lookup, hm, ih]

theorem CacheStorage.lookup_append_self (cs : CacheStorage) (n : String) (c : Cache)
    (h : cs.lookup n = none) : CacheStorage.lookup (cs ++ [(n, c)]) n = some c := by
  induction cs with
  | nil => simp [CacheStorage.lookup]
  | cons e t ih =>
    obtain ⟨m, d⟩ := e
    by_cases hm : m = n
    · subst hm; simp [CacheStorage.lookup] at h
    · simp only [CacheStorage.lookup, hm, if_false] at h
      simp [CacheStorage.lookup, hm, ih h]

theorem CacheStorage.lookup_openCache_ne (cs : CacheStorage) (n name : String) (h : n ≠ name) :
    (cs.openCache n).lookup name = cs.lookup name := by
  unfold CacheStorage.openCache
  split
  · rfl
  · exact CacheStorage.lookup_append_ne cs n name [] h

theorem CacheStorage.get_openCache (cs : CacheStorage) (n name : String) :
    (cs.openCache n).get name = cs.get name := by
  unfold CacheStorage.openCache
  split
  · rfl
  · rename_i hhas
    by_cases h : n = name
    · subst h
      have hnone : cs.lookup n = none := by
        cases hl : cs.lookup n with
        | none => rfl
        | some c => simp [CacheStorage.has, hl] at hhas
      simp [CacheStorage.get, CacheStorage.lookup_append_self cs n [] hnone, hnone]
    · simp [CacheStorage.get, CacheStorage.lookup_append_ne cs n name [] h]

theorem CacheStorage.has_openCache (cs : CacheStorage) (n : String) :
    (cs.openCache n).has n = true := by
  unfold CacheStorage.openCache
  split
  · assumption
  · rename_i hhas
    have hnone : cs.lookup n = none := by
      cases hl : cs.lookup n with
      | none => rfl
      | some c => simp [CacheStorage.has, hl] at hhas
    simp [CacheStorage.has, CacheStorage.lookup_append_self cs n [] hnone]

theorem CacheStorage.openCache_of_has (cs : CacheStorage) (n : String) (h : cs.has n = true) :
    cs.openCache n = cs := by
  simp [CacheStorage.openCache, h]

theorem CacheStorage.lookup_update (cs : CacheStorage) (n name : String) (f : Cache → Cache) :
    (cs.update n f).lookup name =
      if name = n then (cs.lookup name).map f else cs.lookup name := by
  induction cs with
  | nil => simp [CacheStorage.update, CacheStorage.lookup]
  | cons e t ih =>
    obtain ⟨m, d⟩ := e
    by_cases hm : m = name
    · subst hm
      by_cases hn : m = n
      · subst hn; simp [CacheStorage.update, CacheStorage.lookup]
      · simp [CacheStorage.update, CacheStorage.lookup, hn]
    · by_cases hn : m = n
      · subst hn
        simp [CacheStorage.update, CacheStorage.lookup, hm, ih]
      · simp [CacheStorage.update, CacheStorage.lookup, hm, hn, ih]

theorem CacheStorage.keys_update (cs : CacheStorage) (n : String) (f : Cache → Cache) :
    (cs.update n f).keys = cs.keys := by
  induction cs with
  | nil => rfl
  | cons e t ih =>
    obtain ⟨m, d⟩ := e
    simp only [CacheStorage.keys] at ih
    by_cases hn : m = n
    · simp [CacheStorage.update, CacheStorage.keys, hn, ih]
    · simp [CacheStorage.update, CacheStorage.keys, hn, ih]

theorem CacheStorage.get_update (cs : CacheStorage) (n name : String) (f : Cache → Cache)
    (h : cs.has n = true) :
    (cs.update n f).get name = if name = n then f (cs.get name) else cs.get name := by
  unfold CacheStorage.get
  rw [CacheStorage.lookup_update]
  by_cases hn : name = n
  · subst hn
    simp only [if_true]
    cases hl : cs.lookup name with
    | none => simp [CacheStorage.has, hl] at h
    | some c => rfl
  · simp [hn]

/-- Deleting, for each listed key judged bad, the entries under that key leaves the entries
whose key is good or not listed. -/
theorem foldl_delete_eq_filter {α ι κ : Type} [DecidableEq κ] (key : α → κ) (k : ι → κ)
    (bad : κ → Bool) (ks : List ι) : ∀ l : List α,
    ks.foldl (fun l i => if bad (k i) = true then l.filter (fun e => decide (key e ≠ k i)) else l) l
      = l.filter (fun e => !(bad (key e) && decide (key e ∈ ks.map k))) := by
  induction ks with
  | nil => intro l; simp
  | cons i t ih =>
    intro l
    simp only [List.foldl_cons]
    rw [ih]
    by_cases hb : bad (k i) = true
    · simp only [hb, if_true, List.filter_filter]
      apply List.filter_congr
      intro e _
      by_cases he : key e = k i
      · simp [he, hb]
      · simp [he]
    · simp only [hb]
      apply List.filter_congr
      intro e _
      by_cases he : key e = k i
      · simp [he, hb]
      · simp [he]

/-- The names `purgeOldCaches` keeps. -/
theorem purge_caches_loop (cfg : Config) (cs : CacheStorage) :
    cs.keys.foldl (fun cs key =>
      if key ≠ unhashedCacheName cfg ∧ key ≠ hashedCacheName ∧ key ≠ mediaThumbnailCacheName then
        cs.delete key
      else cs) cs
    = cs.filter (fun e => decide (e.1 = unhashedCacheName cfg ∨ e.1 = hashedCacheName ∨
        e.1 = mediaThumbnailCacheName)) := by
  have h := foldl_delete_eq_filter (α := String × Cache) Prod.fst (fun s : String => s)
    (fun key => decide (key ≠ unhashedCacheName cfg ∧ key ≠ hashedCacheName ∧
      key ≠ mediaThumbnailCacheName)) cs.keys cs
  simp only [decide_eq_true_eq] at h
  unfold CacheStorage.delete
  rw [h]
  apply List.filter_congr
  intro e he
  have hm : e.1 ∈ cs.keys := List.mem_map_of_mem Prod.fst he
  by_cases h1 : e.1 = unhashedCacheName cfg <;> by_cases h2 : e.1 = hashedCacheName <;>
    by_cases h3 : e.1 = mediaThumbnailCacheName <;> simp [h1, h2, h3, hm]

theorem CacheStorage.has_update (cs : CacheStorage) (n name : String) (f : Cache → Cache) :
    (cs.update n f).has name = cs.has name := by
  unfold CacheStorage.has
  rw [CacheStorage.lookup_update]
  split <;> simp

/-- The second loop of `purgeOldCaches` acts on the hashed cache only. -/
theorem purge_hashed_loop (urls : List String) (ks : List Request) : ∀ cs : CacheStorage,
    cs.has hashedCacheName = true →
    let cs' := ks.foldl (fun cs request =>
      if !(urls.any (fun url => decide (url = request.url))) then
        cs.update hashedCacheName (fun c => c.delete request)
      else cs) cs
    cs'.keys = cs.keys ∧
    (∀ name, name ≠ hashedCacheName → cs'.lookup name = cs.lookup name) ∧
    cs'.has hashedCacheName = true ∧
    cs'.get hashedCacheName = ks.foldl (fun c request =>
      if (!(urls.any (fun url => decide (url = request.url)))) = true then
        c.filter (fun e => decide (e.1.url ≠ request.url))
      else c) (cs.get hashedCacheName) := by
  induction ks with
  | nil => intro cs h; simp [h]
  | cons r t ih =>
    intro cs h
    simp only [List.foldl_cons]
    by_cases hb : (!(urls.any (fun url => decide (url = r.url)))) = true
    · simp only [hb, if_true]
      have h' : (cs.update hashedCacheName (fun c => c.delete r)).has hashedCacheName = true := by
        rw [CacheStorage.has_update]; exact h
      obtain ⟨a, b, c, d⟩ := ih _ h'
      refine ⟨by rw [a, CacheStorage.keys_update], ?_, c, ?_⟩
      · intro name hn
        rw [b name hn, CacheStorage.lookup_update]
        simp [hn]
      · rw [d, CacheStorage.get_update _ _ _ _ h]
        simp [Cache.delete]
    · simp only [hb]
      exact ih cs h

/-! ## Activation: `purgeOldCaches` -/

/-- Deleting from a cache every key whose URL is not listed leaves the entries whose URL is
listed. -/
theorem purge_cache_entries (urls : List String) (c : Cache) :
    c.keys.foldl (fun c request =>
      if (!(urls.any (fun url => decide (url = request.url)))) = true then
        c.filter (fun e => decide (e.1.url ≠ request.url))
      else c) c
    = c.filter (fun e => decide (e.1.url ∈ urls)) := by
  have h := foldl_delete_eq_filter (α := Request × Response) (fun e => e.1.url) Request.url
    (fun u => !(urls.any (fun url => decide (url = u)))) c.keys c
  rw [h]
  apply List.filter_congr
  intro e he
  have hm : e.1.url ∈ List.map Request.url c.keys := by
    unfold Cache.keys
    exact List.mem_map_of_mem Request.url (List.mem_map_of_mem Prod.fst he)
  by_cases hu : e.1.url ∈ urls
  · have : urls.any (fun url => decide (url = e.1.url)) = true := by
      simp only [List.any_eq_true, decide_eq_true_eq]
      exact ⟨_, hu, rfl⟩
    simp [this, hu]
  · have : urls.any (fun url => decide (url = e.1.url)) = false := by
      cases hc : urls.any (fun url => decide (url = e.1.url))
      · rfl
      · simp only [List.any_eq_true, decide_eq_true_eq] at hc
        obtain ⟨x, hx, hxe⟩ := hc
        exact absurd (hxe ▸ hx) hu
    simp [this, hu, hm]

/-- C2: after `purgeOldCaches` (run by the `activate` listener) no cache other than the
unhashed, the hashed and the media-thumbnail one exists; the hashed cache exists and holds
exactly those of its previous entries, in their order, whose URL is the URL of a path of
`HASHED_PRECACHED_ASSETS` or `HASHED_CACHED_ON_REQUEST_ASSETS` resolved against the scope;
the unhashed and the media-thumbnail cache are as before. -/
theorem purgeOldCaches_spec (P : Platform) (cfg : Config) (w : World) :
    (∀ name ∈ (purgeOldCaches P cfg w).caches.keys,
      name = unhashedCacheName cfg ∨ name = hashedCacheName ∨ name = mediaThumbnailCacheName) ∧
    (purgeOldCaches P cfg w).caches.has hashedCacheName = true ∧
    (purgeOldCaches P cfg w).caches.get hashedCacheName =
      (w.caches.get hashedCacheName).filter (fun e => decide (e.1.url ∈
        (cfg.HASHED_PRECACHED_ASSETS ++ cfg.HASHED_CACHED_ON_REQUEST_ASSETS).map
          (fun a => (P.newURL a (some cfg.scope)).href))) ∧
    (purgeOldCaches P cfg w).caches.lookup (unhashedCacheName cfg) =
      w.caches.lookup (unhashedCacheName cfg) ∧
    (purgeOldCaches P cfg w).caches.lookup mediaThumbnailCacheName =
      w.caches.lookup mediaThumbnailCacheName ∧
    (onActivate P cfg w).caches = (purgeOldCaches P cfg w).caches := by
  refine ⟨?_, ?_, ?_, ?_, ?_, rfl⟩ <;> unfold purgeOldCaches <;>
    simp only [purge_caches_loop cfg w.caches]
  all_goals
    have hkeep : ∀ name, (name = unhashedCacheName cfg ∨ name = hashedCacheName ∨
        name = mediaThumbnailCacheName) →
        CacheStorage.lookup (List.filter (fun e : String × Cache =>
          decide (e.1 = unhashedCacheName cfg ∨ e.1 = hashedCacheName ∨
            e.1 = mediaThumbnailCacheName)) w.caches) name
          = CacheStorage.lookup w.caches name := by
      intro name hn
      apply CacheStorage.lookup_filter
      intro c
      simpa using hn
    have hmem : ∀ e ∈ List.filter (fun e : String × Cache =>
          decide (e.1 = unhashedCacheName cfg ∨ e.1 = hashedCacheName ∨
            e.1 = mediaThumbnailCacheName)) w.caches,
        e.1 = unhashedCacheName cfg ∨ e.1 = hashedCacheName ∨
          e.1 = mediaThumbnailCacheName := by
      intro e he
      simpa using (List.mem_filter.1 he).2
    generalize List.filter (fun e : String × Cache =>
          decide (e.1 = unhashedCacheName cfg ∨ e.1 = hashedCacheName ∨
            e.1 = mediaThumbnailCacheName)) w.caches = cs1 at hkeep hmem ⊢
    obtain ⟨hk, hl, hh, hg⟩ := purge_hashed_loop
      ((cfg.HASHED_PRECACHED_ASSETS ++ cfg.HASHED_CACHED_ON_REQUEST_ASSETS).map
        (fun a => (P.newURL a (some cfg.scope)).href))
      (Cache.keys (CacheStorage.get (CacheStorage.openCache cs1 hashedCacheName) hashedCacheName))
      (CacheStorage.openCache cs1 hashedCacheName) (CacheStorage.has_openCache cs1 hashedCacheName)
  · intro name hname
    rw [hk] at hname
    unfold CacheStorage.openCache at hname
    split at hname
    · simp only [CacheStorage.keys, List.mem_map] at hname
      obtain ⟨e, he, rfl⟩ := hname
      exact hmem e he
    · simp only [CacheStorage.keys, List.map_append, List.mem_append, List.mem_map] at hname
      rcases hname with ⟨e, he, rfl⟩ | h1
      · exact hmem e he
      · simp at h1; exact Or.inr (Or.inl h1.symm)
  · exact hh
  · rw [hg, purge_cache_entries, CacheStorage.get_openCache]
    unfold CacheStorage.get
    rw [hkeep hashedCacheName (Or.inr (Or.inl rfl))]
  · rw [hl _ (unhashedCacheName_ne_hashed cfg),
      CacheStorage.lookup_openCache_ne _ _ _ (Ne.symm (unhashedCacheName_ne_hashed cfg)),
      hkeep _ (Or.inl rfl)]
  · rw [hl _ (Ne.symm hashed_ne_media),
      CacheStorage.lookup_openCache_ne _ _ _ hashed_ne_media,
      hkeep _ (Or.inr (Or.inr rfl))]

/-! ## `updateCache` -/

theorem Cache.matchRequest_put (c : Cache) (request : Request) (response : Response) :
    (c.put request response).matchRequest request = some response := by
  unfold Cache.put Cache.delete
  induction c with
  | nil => simp [Cache.matchRequest]
  | cons e t ih =>
    obtain ⟨k, r⟩ := e
    by_cases hk : k.url = request.url
    · simpa [List.filter, hk] using ih
    · simpa [List.filter, hk, Cache.matchRequest] using ih

theorem Cache.mem_put (c : Cache) (request : Request) (response : Response)
    (e : Request × Response) (h : e ∈ c.put request response) :
    e ∈ c ∨ e = (request, response) := by
  unfold Cache.put Cache.delete at h
  rcases List.mem_append.1 h with h | h
  · exact Or.inl (List.mem_filter.1 h).1
  · exact Or.inr (by simpa using h)

theorem Cache.mem_delete (c : Cache) (request : Request) (e : Request × Response)
    (h : e ∈ c.delete request) : e ∈ c :=
  (List.mem_filter.1 h).1

/-- What `updateCache` does to the storage when it writes into the cache `name`. -/
theorem CacheStorage.put_spec (cs : CacheStorage) (name : String) (request : Request)
    (response : Response) :
    ((cs.openCache name).update name (fun c => c.put request response)).get name =
      (cs.get name).put request response ∧
    (∀ other, other ≠ name →
      ((cs.openCache name).update name (fun c => c.put request response)).lookup other =
        cs.lookup other) := by
  constructor
  · rw [CacheStorage.get_update _ _ _ _ (CacheStorage.has_openCache cs name)]
    simp [CacheStorage.get_openCache]
  · intro other h
    rw [CacheStorage.lookup_update]
    simp only [h, if_false]
    exact CacheStorage.lookup_openCache_ne cs name other (Ne.symm h)

/-- C4: `updateCache` called with a response of status 400 or more changes nothing, whatever
the request (a cacheable thumbnail or a path of `HASHED_CACHED_ON_REQUEST_ASSETS` included);
and an entry of status 400 or more found in a cache after any sequence of `handleRequest`
calls was in that cache before the sequence. -/
theorem updateCache_error_response (P : Platform) (cfg : Config) :
    (∀ (request : Request) (response : Response) (w : World), 400 ≤ response.status →
      updateCache P cfg request response w = w) ∧
    (∀ (events : List (Request × Network)) (w : World) (name : String)
      (e : Request × Response), e ∈ (handleRequests P cfg events w).caches.get name →
      400 ≤ e.2.status → e ∈ w.caches.get name) := by
  have hupd : ∀ (request : Request) (response : Response) (w : World) (name : String)
      (e : Request × Response), e ∈ (updateCache P cfg request response w).caches.get name →
      400 ≤ e.2.status → e ∈ w.caches.get name := by
    intro request response w name e he hs
    unfold updateCache at he
    split at he
    · exact he
    · rename_i hlt
      have hput : ∀ n : String,
          e ∈ ((w.caches.openCache n).update n (fun c => c.put request response)).get name →
          e ∈ w.caches.get name := by
        intro n hm
        by_cases hn : name = n
        · subst hn
          rw [(CacheStorage.put_spec w.caches name request response).1] at hm
          rcases Cache.mem_put _ _ _ _ hm with h | h
          · exact h
          · subst h; exact absurd hs hlt
        · unfold CacheStorage.get at hm ⊢
          rwa [(CacheStorage.put_spec w.caches n request response).2 name hn] at hm
      simp only at he
      split at he
      · exact hput _ he
      · split at he
        · split at he
          · exact hput _ he
          · exact he
        · exact he
  have hread : ∀ (request : Request) (w : World) (name : String) (e : Request × Response),
      e ∈ (readCache P cfg request w).2.caches.get name → e ∈ w.caches.get name := by
    intro request w name e he
    unfold readCache at he
    simp only at he
    split at he
    · simpa [CacheStorage.get_openCache] using he
    · split at he
      · simpa [CacheStorage.get_openCache] using he
      · split at he
        · split at he
          · split at he
            · simp only at he
              rw [CacheStorage.get_update _ _ _ _ (CacheStorage.has_openCache _ _)] at he
              split at he
              · have := Cache.mem_delete _ _ _ he
                simpa [CacheStorage.get_openCache] using this
              · simpa [CacheStorage.get_openCache] using he
            · simpa [CacheStorage.get_openCache] using he
          · simpa [CacheStorage.get_openCache] using he
        · simpa [CacheStorage.get_openCache] using he
  have hfetch : ∀ (net : Network) (request : Request) (init : FetchInit) (w : World),
      (fetch net request init w).2.caches = w.caches := by
    intro net request init w
    unfold fetch
    split <;> rfl
  have hstep : ∀ (net : Network) (request : Request) (w : World) (name : String)
      (e : Request × Response), e ∈ (handleRequest P cfg net request w).2.caches.get name →
      400 ≤ e.2.status → e ∈ w.caches.get name := by
    intro net request w name e he hs
    have htry : e ∈ (handleRequestTry P cfg net request w).2.caches.get name := by
      unfold handleRequest at he
      split at he
      · rename_i h; rw [h]; exact he
      · rename_i h; rw [h]
        split at he <;> exact he
    apply hread (rewriteRequest P cfg request) w name e
    unfold handleRequestTry at htry
    simp only at htry
    split at htry
    · rename_i h; rw [h]; exact htry
    · rename_i w1 h
      rw [h]
      have hf := hfetch net (rewriteRequest P cfg request)
        (fetchInitFor (P.newURL request.url none)) w1
      split at htry
      · rename_i h2; rw [h2] at hf; simp only at hf htry; rw [← hf]; exact htry
      · rename_i h2; rw [h2] at hf; simp only at hf htry
        have := hupd _ _ _ name e htry hs
        rw [← hf]; exact this
  refine ⟨?_, ?_⟩
  · intro request response w h
    simp [updateCache, h]
  · intro events
    induction events with
    | nil => intro w name e he _; exact he
    | cons ev t ih =>
      intro w name e he hs
      simp only [handleRequests, List.foldl_cons] at he
      exact hstep ev.2 ev.1 w name e (ih _ name e he hs) hs

/-- C5: for a response of status below 400, `updateCache` stores the response under the
request in the media-thumbnail cache and touches no other cache when the request URL is a
cacheable thumbnail; otherwise, when the request URL starts with the scope and the rest of it
is listed in `HASHED_CACHED_ON_REQUEST_ASSETS`, it stores it in the hashed cache and touches
no other cache; in every other case the state is unchanged. Whatever the response, the
unhashed cache is as before and nothing but `caches` changes. -/
theorem updateCache_ok_response (P : Platform) (cfg : Config) (request : Request)
    (response : Response) (w : World) :
    (response.status < 400 →
      (isCacheableThumbnail (P.newURL request.url none) = true →
        (updateCache P cfg request response w).caches.get mediaThumbnailCacheName =
          (w.caches.get mediaThumbnailCacheName).put request response ∧
        ((updateCache P cfg request response w).caches.get
          mediaThumbnailCacheName).matchRequest request = some response ∧
        (∀ name, name ≠ mediaThumbnailCacheName →
          (updateCache P cfg request response w).caches.lookup name = w.caches.lookup name)) ∧
      (isCacheableThumbnail (P.newURL request.url none) = false →
        startsWith request.url cfg.scope = true →
        substr request.url cfg.scope.length ∈ cfg.HASHED_CACHED_ON_REQUEST_ASSETS →
        (updateCache P cfg request response w).caches.get hashedCacheName =
          (w.caches.get hashedCacheName).put request response ∧
        ((updateCache P cfg request response w).caches.get
          hashedCacheName).matchRequest request = some response ∧
        (∀ name, name ≠ hashedCacheName →
          (updateCache P cfg request response w).caches.lookup name = w.caches.lookup name)) ∧
      (isCacheableThumbnail (P.newURL request.url none) = false →
        ¬ (startsWith request.url cfg.scope = true ∧
          substr request.url cfg.scope.length ∈ cfg.HASHED_CACHED_ON_REQUEST_ASSETS) →
        updateCache P cfg request response w = w)) ∧
    (updateCache P cfg request response w).caches.lookup (unhashedCacheName cfg) =
      w.caches.lookup (unhashedCacheName cfg) ∧
    updateCache P cfg request response w =
      { w with caches := (updateCache P cfg request response w).caches } := by
  refine ⟨?_, ?_, ?_⟩
  · intro hlt
    have hge : ¬ response.status ≥ 400 := by omega
    refine ⟨?_, ?_, ?_⟩
    · intro ht
      have hc : (updateCache P cfg request response w).caches =
          (w.caches.openCache mediaThumbnailCacheName).update mediaThumbnailCacheName
            (fun c => c.put request response) := by
        simp [updateCache, hge, ht]
      rw [hc]
      have hs := CacheStorage.put_spec w.caches mediaThumbnailCacheName request response
      refine ⟨hs.1, ?_, hs.2⟩
      rw [hs.1]; exact Cache.matchRequest_put _ _ _
    · intro ht hsw hin
      have hc : (updateCache P cfg request response w).caches =
          (w.caches.openCache hashedCacheName).update hashedCacheName
            (fun c => c.put request response) := by
        simp [updateCache, hge, ht, hsw, hin]
      rw [hc]
      have hs := CacheStorage.put_spec w.caches hashedCacheName request response
      refine ⟨hs.1, ?_, hs.2⟩
      rw [hs.1]; exact Cache.matchRequest_put _ _ _
    · intro ht hn
      unfold updateCache
      simp only [hge, if_false, ht]
      by_cases hsw : startsWith request.url cfg.scope = true
      · have hin : substr request.url cfg.scope.length ∉ cfg.HASHED_CACHED_ON_REQUEST_ASSETS :=
          fun hin => hn ⟨hsw, hin⟩
        simp [hsw, hin]
      · simp [hsw]
  · unfold updateCache
    split
    · rfl
    · simp only
      split
      · exact (CacheStorage.put_spec w.caches mediaThumbnailCacheName request response).2 _
          (unhashedCacheName_ne_media cfg)
      · split
        · split
          · exact (CacheStorage.put_spec w.caches hashedCacheName request response).2 _
              (unhashedCacheName_ne_hashed cfg)
          · rfl
        · rfl
  · unfold updateCache
    split
    · rfl
    · simp only
      split
      · rfl
      · split
        · split <;> rfl
        · rfl

/-- Witness for C4: a 404 answer to a cacheable thumbnail request is not written, and the
old error entry found after handling a request was there before. -/
theorem updateCache_error_response_witness :
    updateCache samplePlatform sampleConfig thumbRequest { status := 404, body := "" } {} = {} ∧
    (thumbRequest, ({ status := 404, body := "" } : Response)) ∈
      CacheStorage.get ({ caches := [(mediaThumbnailCacheName,
        [(thumbRequest, { status := 404, body := "" })])] } : World).caches
        mediaThumbnailCacheName :=
  ⟨(updateCache_error_response samplePlatform sampleConfig).1 thumbRequest
      { status := 404, body := "" } {} (by decide),
   (updateCache_error_response samplePlatform sampleConfig).2
      [(syncRequest, fun _ _ => Except.ok { status := 200, body := "{}" })]
      { caches := [(mediaThumbnailCacheName, [(thumbRequest, { status := 404, body := "" })])] }
      mediaThumbnailCacheName (thumbRequest, { status := 404, body := "" })
      (by decide) (by decide)⟩

/-- Witness for C5: a 200 answer to a cacheable thumbnail request is stored in the
media-thumbnail cache, a 200 answer for a listed asset in the hashed cache, and a 200 answer
to an API call nowhere. -/
theorem updateCache_ok_response_witness :
    CacheStorage.get (updateCache samplePlatform sampleConfig thumbRequest
      { status := 200, body := "png" } {}).caches mediaThumbnailCacheName =
      [(thumbRequest, { status := 200, body := "png" })] ∧
    CacheStorage.get (updateCache samplePlatform sampleConfig olmRequest
      { status := 200, body := "wasm" } {}).caches hashedCacheName =
      [(olmRequest, { status := 200, body := "wasm" })] ∧
    updateCache samplePlatform sampleConfig syncRequest { status := 200, body := "{}" } {} = {} :=
  ⟨(((updateCache_ok_response samplePlatform sampleConfig thumbRequest
      { status := 200, body := "png" } {}).1 (by decide)).1 (by decide)).1,
   (((updateCache_ok_response samplePlatform sampleConfig olmRequest
      { status := 200, body := "wasm" } {}).1 (by decide)).2.1 (by decide) (by decide)
      (by decide)).1,
   ((updateCache_ok_response samplePlatform sampleConfig syncRequest
      { status := 200, body := "{}" } {}).1 (by decide)).2.2 (by decide) (by decide)⟩

/-! ## `handleRequest`: serving from the cache -/

theorem CacheStorage.has_of_get_match (cs : CacheStorage) (name : String) (request : Request)
    (r : Response) (h : (cs.get name).matchRequest request = some r) : cs.has name = true := by
  unfold CacheStorage.has
  unfold CacheStorage.get at h
  cases hl : cs.lookup name with
  | none => rw [hl] at h; simp [Cache.matchRequest] at h
  | some c => rfl

/-- A request found in the unhashed or the hashed cache is answered by `readCache` from
there; the storage changes at most by the creation of those two caches. -/
theorem readCache_hit (P : Platform) (cfg : Config) (request : Request) (w : World)
    (r : Response)
    (h : (w.caches.get hashedCacheName).matchRequest request = some r) :
    (readCache P cfg request w).1 =
      some (((w.caches.get (unhashedCacheName cfg)).matchRequest request).getD r) ∧
    (readCache P cfg request w).2 =
      { w with caches := (readCache P cfg request w).2.caches } ∧
    (∀ name, (readCache P cfg request w).2.caches.get name = w.caches.get name) ∧
    (w.caches.has (unhashedCacheName cfg) = true → (readCache P cfg request w).2 = w) := by
  have hh := CacheStorage.has_of_get_match _ _ _ _ h
  unfold readCache
  simp only [CacheStorage.get_openCache]
  cases hu : (w.caches.get (unhashedCacheName cfg)).matchRequest request with
  | some r' =>
    simp only [Option.getD_some]
    refine ⟨trivial, trivial, fun name => CacheStorage.get_openCache _ _ _, ?_⟩
    intro hhas
    simp [CacheStorage.openCache_of_has _ _ hhas]
  | none =>
    simp only [h, Option.getD_none]
    refine ⟨trivial, trivial, fun name => ?_, ?_⟩
    · rw [CacheStorage.get_openCache, CacheStorage.get_openCache]
    · intro hhas
      simp [CacheStorage.openCache_of_has _ _ hhas, CacheStorage.openCache_of_has _ _ hh]

/-- A request answered from the cache: the response is the one `readCache` found, nothing is
fetched and nothing logged. -/
theorem handleRequest_of_readCache_some (P : Platform) (cfg : Config) (net : Network)
    (request : Request) (w : World) (r : Response)
    (h : (readCache P cfg (rewriteRequest P cfg request) w).1 = some r) :
    handleRequest P cfg net request w =
      (Except.ok r, (readCache P cfg (rewriteRequest P cfg request) w).2) := by
  unfold handleRequest handleRequestTry
  simp only
  cases hr : readCache P cfg (rewriteRequest P cfg request) w with
  | mk o w1 =>
    rw [hr] at h
    simp only at h
    subst h
    rfl

/-- A request whose lookup request is stored in the hashed cache is answered from the cache. -/
theorem handleRequest_hit (P : Platform) (cfg : Config) (net : Network) (request : Request)
    (w : World) (r : Response)
    (h : (w.caches.get hashedCacheName).matchRequest (rewriteRequest P cfg request) = some r) :
    (handleRequest P cfg net request w).1 =
      Except.ok (((w.caches.get (unhashedCacheName cfg)).matchRequest
        (rewriteRequest P cfg request)).getD r) ∧
    (handleRequest P cfg net request w).2.fetched = w.fetched ∧
    (∀ name, (handleRequest P cfg net request w).2.caches.get name = w.caches.get name) ∧
    (w.caches.has (unhashedCacheName cfg) = true → (handleRequest P cfg net request w).2 = w) := by
  obtain ⟨h1, h2, h3, h4⟩ := readCache_hit P cfg (rewriteRequest P cfg request) w r h
  rw [handleRequest_of_readCache_some P cfg net request w _ h1]
  refine ⟨rfl, ?_, h3, h4⟩
  simp only
  rw [h2]

theorem fetch_caches (net : Network) (request : Request) (init : FetchInit) (w : World) :
    (fetch net request init w).2.caches = w.caches := by
  unfold fetch
  split <;> rfl

/-- After a `handleRequest` that missed the caches, fetched a response of status below 400
for a listed asset and stored it, the lookup request is in the hashed cache, not in the
unhashed cache, and the unhashed cache exists. -/
theorem handleRequest_stores (P : Platform) (cfg : Config) (net : Network) (request : Request)
    (w0 w1 : World) (r0 : Response)
    (hrun : handleRequest P cfg net request w0 = (Except.ok r0, w1))
    (hmiss : (readCache P cfg (rewriteRequest P cfg request) w0).1 = none)
    (hst : r0.status < 400)
    (hnt : isCacheableThumbnail (P.newURL (rewriteRequest P cfg request).url none) = false)
    (hsw : startsWith (rewriteRequest P cfg request).url cfg.scope = true)
    (hin : substr (rewriteRequest P cfg request).url cfg.scope.length ∈
      cfg.HASHED_CACHED_ON_REQUEST_ASSETS) :
    (w1.caches.get hashedCacheName).matchRequest (rewriteRequest P cfg request) = some r0 ∧
    (w1.caches.get (unhashedCacheName cfg)).matchRequest (rewriteRequest P cfg request) = none ∧
    w1.caches.has (unhashedCacheName cfg) = true := by
  -- the state after the cache lookup
  have hread : (readCache P cfg (rewriteRequest P cfg request) w0).2.caches =
        (w0.caches.openCache (unhashedCacheName cfg)).openCache hashedCacheName ∧
      (w0.caches.get (unhashedCacheName cfg)).matchRequest (rewriteRequest P cfg request)
        = none := by
    unfold readCache at hmiss ⊢
    simp only [CacheStorage.get_openCache] at hmiss ⊢
    cases hu : (w0.caches.get (unhashedCacheName cfg)).matchRequest
        (rewriteRequest P cfg request) with
    | some r' => rw [hu] at hmiss; simp at hmiss
    | none =>
      rw [hu] at hmiss
      simp only at hmiss ⊢
      cases hh : (w0.caches.get hashedCacheName).matchRequest
          (rewriteRequest P cfg request) with
      | some r' => rw [hh] at hmiss; simp at hmiss
      | none => simp [hnt]
  -- the run itself
  unfold handleRequest handleRequestTry at hrun
  simp only at hrun
  cases hr : readCache P cfg (rewriteRequest P cfg request) w0 with
  | mk o wr =>
    rw [hr] at hmiss hread hrun
    simp only at hmiss hread
    subst hmiss
    simp only at hrun
    cases hf : fetch net (rewriteRequest P cfg request)
        (fetchInitFor (P.newURL request.url none)) wr with
    | mk res wf =>
      have hwf : wf.caches = wr.caches := by
        have := fetch_caches net (rewriteRequest P cfg request)
          (fetchInitFor (P.newURL request.url none)) wr
        rw [hf] at this; exact this
      rw [hf] at hrun
      cases res with
      | error e =>
        simp only at hrun
        split at hrun <;> simp at hrun
      | ok r =>
        simp only [Prod.mk.injEq, Except.ok.injEq] at hrun
        obtain ⟨hrr, hw1⟩ := hrun
        subst hrr
        have hge : ¬ r.status ≥ 400 := by omega
        have hc : w1.caches = ((wr.caches.openCache hashedCacheName).update hashedCacheName
            (fun c => c.put (rewriteRequest P cfg request) r)) := by
          rw [← hw1]
          simp [updateCache, hge, hnt, hsw, hin, hwf]
        have hs := CacheStorage.put_spec wr.caches hashedCacheName
          (rewriteRequest P cfg request) r
        have hun : w1.caches.lookup (unhashedCacheName cfg) =
            (w0.caches.openCache (unhashedCacheName cfg)).lookup (unhashedCacheName cfg) := by
          rw [hc, hs.2 _ (unhashedCacheName_ne_hashed cfg), hread.1,
            CacheStorage.lookup_openCache_ne _ _ _ (Ne.symm (unhashedCacheName_ne_hashed cfg))]
        refine ⟨?_, ?_, ?_⟩
        · rw [hc, hs.1]; exact Cache.matchRequest_put _ _ _
        · have : w1.caches.get (unhashedCacheName cfg) =
              w0.caches.get (unhashedCacheName cfg) := by
            unfold CacheStorage.get
            rw [hun]
            exact CacheStorage.get_openCache _ _ _
          rw [this]; exact hread.2
        · unfold CacheStorage.has
          rw [hun]
          exact CacheStorage.has_openCache _ _

/-- Remark on the root of the application, which the idempotence of the hashed assets leaves
out: were `./` a path of `HASHED_PRECACHED_ASSETS`, a response stored for its request would
not be found by `handleRequest`, which looks the root URL up as `index.html`. -/
theorem handleRequest_root_asset_refetched :
    "./" ∈ rootConfig.HASHED_PRECACHED_ASSETS ∧
    (samplePlatform.newURL "./" (some rootConfig.scope)).href = rootRequest.url ∧
    (rootWorld.caches.get hashedCacheName).matchRequest rootRequest =
      some { status := 200, body := "precached" } ∧
    (handleRequest samplePlatform rootConfig sampleNetwork rootRequest rootWorld).1 =
      Except.ok { status := 200, body := "from network" } ∧
    (handleRequest samplePlatform rootConfig sampleNetwork rootRequest rootWorld).2.fetched =
      [({ url := "https://app.example/index.html" }, {})] := by
  refine ⟨by decide, by decide, by decide, by rfl, by decide⟩

/-! ## `handleRequest`: the root URL -/

/-- A request to the root URL of the application (origin and pathname equal to the
scope's) is looked up as `index.html` resolved against the scope, like the request for
`index.html` itself; the two calls of `handleRequest` return the same response and leave the
same state whenever the lookup hits or the thumbnail predicate gives the same answer on the
two URLs (so that both fetch with the same options). -/
theorem handleRequest_root_lookup (P : Platform) (cfg : Config) (request : Request)
    (hroot : (P.newURL request.url none).origin = (P.newURL cfg.scope none).origin ∧
      (P.newURL request.url none).pathname = (P.newURL cfg.scope none).pathname) :
    rewriteRequest P cfg request = indexRequest P cfg ∧
    rewriteRequest P cfg (indexRequest P cfg) = indexRequest P cfg ∧
    (∀ w : World, readCache P cfg (rewriteRequest P cfg request) w =
      readCache P cfg (rewriteRequest P cfg (indexRequest P cfg)) w) ∧
    (∀ (net : Network) (w : World),
      ((readCache P cfg (indexRequest P cfg) w).1 ≠ none ∨
        isCacheableThumbnail (P.newURL request.url none) =
          isCacheableThumbnail (P.newURL (indexRequest P cfg).url none)) →
      handleRequest P cfg net request w = handleRequest P cfg net (indexRequest P cfg) w) := by
  have h1 : rewriteRequest P cfg request = indexRequest P cfg := by
    simp [rewriteRequest, hroot]
  have h2 : rewriteRequest P cfg (indexRequest P cfg) = indexRequest P cfg := by
    unfold rewriteRequest
    simp only
    split <;> rfl
  refine ⟨h1, h2, fun w => by rw [h1, h2], ?_⟩
  intro net w h
  unfold handleRequest handleRequestTry
  simp only [h1, h2]
  cases hr : readCache P cfg (indexRequest P cfg) w with
  | mk o wr =>
    cases o with
    | some r => rfl
    | none =>
      rcases h with h | h
      · rw [hr] at h; exact absurd rfl h
      · have hinit : fetchInitFor (P.newURL request.url none) =
            fetchInitFor (P.newURL (indexRequest P cfg).url none) := by
          unfold fetchInitFor; rw [h]
        simp only [hinit]

theorem isCacheableThumbnail_of_pathname (url : URL)
    (h : startsWith url.pathname thumbnailPrefix = false) : isCacheableThumbnail url = false := by
  unfold isCacheableThumbnail
  rw [h]
  rfl

/-- C6: let the application not be served from under the media thumbnail endpoint (neither
the scope nor its `index.html` has a pathname that starts with
`/_matrix/media/r0/thumbnail/`). Then for every state and every network, `handleRequest` for
a request to the root URL of the application (origin and pathname equal to the scope's) and
`handleRequest` for `index.html` resolved against the scope look up the same request with
the same result, return the same response and leave the same state. -/
theorem handleRequest_root_as_index (P : Platform) (cfg : Config) (request : Request)
    (hroot : (P.newURL request.url none).origin = (P.newURL cfg.scope none).origin ∧
      (P.newURL request.url none).pathname = (P.newURL cfg.scope none).pathname)
    (hscope : startsWith (P.newURL cfg.scope none).pathname thumbnailPrefix = false)
    (hindex : startsWith (P.newURL (indexRequest P cfg).url none).pathname thumbnailPrefix =
      false) :
    rewriteRequest P cfg request = indexRequest P cfg ∧
    rewriteRequest P cfg (indexRequest P cfg) = indexRequest P cfg ∧
    (∀ w : World, readCache P cfg (rewriteRequest P cfg request) w =
      readCache P cfg (rewriteRequest P cfg (indexRequest P cfg)) w) ∧
    (∀ (net : Network) (w : World),
      handleRequest P cfg net request w = handleRequest P cfg net (indexRequest P cfg) w) := by
  obtain ⟨h1, h2, h3, h4⟩ := handleRequest_root_lookup P cfg request hroot
  refine ⟨h1, h2, h3, ?_⟩
  intro net w
  apply h4 net w
  right
  rw [isCacheableThumbnail_of_pathname _ (by rw [hroot.2]; exact hscope),
    isCacheableThumbnail_of_pathname _ hindex]

/-- Witness for C6: under `https://app.example/` a request for the root URL is handled as
the request for `index.html`. -/
theorem handleRequest_root_as_index_witness :
    rewriteRequest samplePlatform sampleConfig sampleRoot =
      { url := "https://app.example/index.html" } ∧
    handleRequest samplePlatform sampleConfig sampleNetwork sampleRoot {} =
      handleRequest samplePlatform sampleConfig sampleNetwork
        (indexRequest samplePlatform sampleConfig) {} :=
  have h := handleRequest_root_as_index samplePlatform sampleConfig sampleRoot
    ⟨by decide, by decide⟩ (by decide) (by decide)
  ⟨h.1, h.2.2.2 sampleNetwork {}⟩

/-- Remark on an application served from under the thumbnail endpoint: there a request for
the root URL that carries `width` and `height` is fetched in `cors` mode (the options are
chosen on the URL before the rewrite) and the request for `index.html` in the default mode,
and a network that tells the two apart answers them differently. -/
theorem handleRequest_root_differs_from_index :
    ((samplePlatform.newURL thumbScopeRoot.url none).origin =
        (samplePlatform.newURL thumbScopeConfig.scope none).origin ∧
      (samplePlatform.newURL thumbScopeRoot.url none).pathname =
        (samplePlatform.newURL thumbScopeConfig.scope none).pathname) ∧
    (handleRequest samplePlatform thumbScopeConfig modeNetwork thumbScopeRoot {}).1 =
      Except.ok { status := 200, body := "cors" } ∧
    (handleRequest samplePlatform thumbScopeConfig modeNetwork
      (indexRequest samplePlatform thumbScopeConfig) {}).1 =
      Except.ok { status := 200, body := "default mode" } ∧
    (handleRequest samplePlatform thumbScopeConfig modeNetwork thumbScopeRoot {}).1 ≠
      (handleRequest samplePlatform thumbScopeConfig modeNetwork
        (indexRequest samplePlatform thumbScopeConfig) {}).1 := by
  have h1 : (handleRequest samplePlatform thumbScopeConfig modeNetwork thumbScopeRoot {}).1 =
      Except.ok { status := 200, body := "cors" } := by rfl
  have h2 : (handleRequest samplePlatform thumbScopeConfig modeNetwork
      (indexRequest samplePlatform thumbScopeConfig) {}).1 =
      Except.ok { status := 200, body := "default mode" } := by rfl
  refine ⟨⟨by decide, by decide⟩, h1, h2, ?_⟩
  rw [h1, h2]
  intro h
  have := Except.ok.inj h
  exact absurd (congrArg Response.body this) (by decide)

/-! ## The message protocol: waiting for every reply -/

theorem getTask_updateTask (l : List Task) (i j : Nat) (f : Task → Task) :
    getTask (updateTask l i f) j = if i = j then (getTask l j).map f else getTask l j := by
  induction l generalizing i j with
  | nil => cases i <;> cases j <;> simp [updateTask, getTask]
  | cons t rest ih =>
    cases i with
    | zero =>
      cases j with
      | zero => simp [updateTask, getTask]
      | succ j => simp [updateTask, getTask]
    | succ i =>
      cases j with
      | zero => simp [updateTask, getTask]
      | succ j => simp [updateTask, getTask, ih]

theorem getTask_append (l : List Task) (t : Task) (j : Nat) :
    getTask (l ++ [t]) j =
      if j < l.length then getTask l j else if j = l.length then some t else none := by
  induction l generalizing j with
  | nil => cases j <;> simp [getTask]
  | cons a rest ih =>
    cases j with
    | zero => simp [getTask]
    | succ j => simp [getTask, ih]

theorem getTask_lt (l : List Task) (j : Nat) (task : Task) (h : getTask l j = some task) :
    j < l.length := by
  induction l generalizing j with
  | nil => simp [getTask] at h
  | cons a rest ih =>
    cases j with
    | zero => simp
    | succ j => simp only [getTask] at h; simpa using ih j h

/-- A task that still awaits some reply is left alone by `progress`. -/
theorem progress_keeps (i j : Nat) (w : World) (task : Task) (id : Nat)
    (h : getTask w.tasks j = some task) (hid : id ∈ task.awaiting) :
    getTask (progress i w).tasks j = some task := by
  unfold progress
  cases hi : getTask w.tasks i with
  | none => simpa using h
  | some ti =>
    simp only
    split
    · rename_i hc
      simp only [getTask_updateTask]
      by_cases hij : i = j
      · subst hij
        rw [h] at hi
        cases hi
        rw [hc.1] at hid
        simp at hid
      · simp [hij, h]
    · exact h

theorem sendToAll_tasks (type : String) (payload : Payload) (index : Nat) (cs : List Client) :
    ∀ w : World, (sendToAll type payload index cs w).2.tasks = w.tasks ∧
      (sendToAll type payload index cs w).2.aborted = w.aborted ∧
      (sendToAll type payload index cs w).2.clients = w.clients := by
  induction cs with
  | nil => intro w; simp [sendToAll]
  | cons c rest ih =>
    intro w
    simp only [sendToAll]
    obtain ⟨a, b, d⟩ := ih (sendAndWaitForReply c type payload (Resolver.task index) w).2
    exact ⟨a, b, d⟩

/-- The ids `sendToAll` gives and the messages it posts. -/
theorem sendToAll_spec (type : String) (payload : Payload) (index : Nat) (cs : List Client) :
    ∀ w : World,
      (sendToAll type payload index cs w).1 = List.range' (w.messageIdCounter + 1) cs.length ∧
      (sendToAll type payload index cs w).2.posted = w.posted ++
        List.zipWith (fun (c : Client) id => (c.id, OutMessage.request type id payload)) cs
          (List.range' (w.messageIdCounter + 1) cs.length) ∧
      (sendToAll type payload index cs w).2.messageIdCounter =
        w.messageIdCounter + cs.length := by
  induction cs with
  | nil => intro w; simp [sendToAll]
  | cons c rest ih =>
    intro w
    simp only [sendToAll]
    obtain ⟨a, b, d⟩ := ih (sendAndWaitForReply c type payload (Resolver.task index) w).2
    simp only [sendAndWaitForReply] at a b d ⊢
    refine ⟨?_, ?_, ?_⟩
    · rw [a]; simp [List.range']
    · rw [b]; simp [List.range', List.zipWith]
    · rw [d]; simp; omega

theorem Awaits.not_settled {w : World} {index id : Nat} (h : Awaits w index id) :
    taskSettled w index = false := by
  obtain ⟨task, h1, _, h3⟩ := h
  simp [taskSettled, h1, h3]

theorem progress_awaits (i j id : Nat) (w : World) (h : Awaits w j id) :
    Awaits (progress i w) j id := by
  obtain ⟨task, h1, h2, h3⟩ := h
  exact ⟨task, progress_keeps i j w task id h1 h2, h2, h3⟩

/-- Starting a task that awaits the replies to `ids`: the new task awaits each of them, and
the tasks that were awaiting a reply still do. -/
theorem startTask_awaits (type : String) (payload : Payload) (cs : List Client) (w : World)
    (command : Command) (source : String) (replyId : Option Nat) :
    (∀ id ∈ (sendToAll type payload w.tasks.length cs w).1,
      Awaits (progress w.tasks.length
        { (sendToAll type payload w.tasks.length cs w).2 with
          tasks := (sendToAll type payload w.tasks.length cs w).2.tasks ++
            [⟨command, source, replyId, (sendToAll type payload w.tasks.length cs w).1, false⟩] })
        w.tasks.length id) ∧
    (∀ j id, Awaits w j id →
      Awaits (progress w.tasks.length
        { (sendToAll type payload w.tasks.length cs w).2 with
          tasks := (sendToAll type payload w.tasks.length cs w).2.tasks ++
            [⟨command, source, replyId, (sendToAll type payload w.tasks.length cs w).1, false⟩] })
        j id) := by
  have ht := (sendToAll_tasks type payload w.tasks.length cs w).1
  constructor
  · intro id hid
    apply progress_awaits
    refine ⟨⟨command, source, replyId, (sendToAll type payload w.tasks.length cs w).1, false⟩,
      ?_, hid, rfl⟩
    simp only [ht, getTask_append]
    simp
  · intro j id h
    apply progress_awaits
    obtain ⟨task, h1, h2, h3⟩ := h
    refine ⟨task, ?_, h2, h3⟩
    simp only [ht, getTask_append]
    simp [getTask_lt _ _ _ h1, h1]

theorem haltRequests_awaits (source : String) (replyId : Option Nat) (w : World) :
    (∀ id ∈ List.range' (w.messageIdCounter + 1) w.clients.length,
      Awaits (haltRequests source replyId w) w.tasks.length id) ∧
    (∀ j id, Awaits w j id → Awaits (haltRequests source replyId w) j id) := by
  have h := startTask_awaits "haltRequests" Payload.undefined w.clients w Command.haltRequests
    source replyId
  have hs := (sendToAll_spec "haltRequests" Payload.undefined w.tasks.length w.clients w).1
  exact ⟨fun id hid => h.1 id (hs ▸ hid), h.2⟩

theorem closeSession_awaits (sessionId : Option String) (requestingClientId source : String)
    (replyId : Option Nat) (w : World) :
    (∀ id ∈ List.range' (w.messageIdCounter + 1)
        (w.clients.filter (fun client => decide (client.id ≠ requestingClientId))).length,
      Awaits (closeSession sessionId requestingClientId source replyId w) w.tasks.length id) ∧
    (∀ j id, Awaits w j id →
      Awaits (closeSession sessionId requestingClientId source replyId w) j id) := by
  have h := startTask_awaits "closeSession" (Payload.session sessionId)
    (w.clients.filter (fun client => decide (client.id ≠ requestingClientId))) w
    Command.closeSession source replyId
  have hs := (sendToAll_spec "closeSession" (Payload.session sessionId) w.tasks.length
    (w.clients.filter (fun client => decide (client.id ≠ requestingClientId))) w).1
  exact ⟨fun id hid => h.1 id (hs ▸ hid), h.2⟩

/-- A reply to another message does not end the wait for the reply to `id`. -/
theorem resolveReply_awaits (resolve : Resolver) (k j id : Nat) (w : World) (hk : k ≠ id)
    (h : Awaits w j id) : Awaits (resolveReply resolve k w) j id := by
  cases resolve with
  | caller => exact h
  | task i =>
    unfold resolveReply
    apply progress_awaits
    obtain ⟨task, h1, h2, h3⟩ := h
    by_cases hij : i = j
    · subst hij
      refine ⟨{ task with awaiting := task.awaiting.erase k }, ?_, ?_, h3⟩
      · simp [getTask_updateTask, h1]
      · exact (List.mem_erase_of_ne (Ne.symm hk)).2 h2
    · exact ⟨task, by simp [getTask_updateTask, hij, h1], h2, h3⟩

/-- A message that is not a reply to `id` does not end the wait for the reply to `id`. -/
theorem onMessage_awaits (cfg : Config) (source : String) (data : MessageData) (w : World)
    (j id : Nat) (hne : data.replyTo ≠ some id) (h : Awaits w j id) :
    Awaits (onMessage cfg source data w) j id := by
  unfold onMessage
  split
  · rename_i k hk
    split
    · apply resolveReply_awaits
      · intro hkid; exact hne (by rw [hk, ← hkid])
      · exact h
    · exact h
  · split
    · exact h
    · split
      · exact h
      · split
        · exact (haltRequests_awaits source data.id w).2 j id h
        · split
          · split
            · exact (closeSession_awaits _ source source data.id w).2 j id h
            · exact h
          · exact h

theorem onMessages_awaits (cfg : Config) (events : List (String × MessageData)) :
    ∀ (w : World) (j id : Nat), (∀ ev ∈ events, ev.2.replyTo ≠ some id) → Awaits w j id →
      Awaits (onMessages cfg events w) j id := by
  induction events with
  | nil => intro w j id _ h; exact h
  | cons ev rest ih =>
    intro w j id hne h
    simp only [onMessages, List.foldl_cons]
    exact ih _ j id (fun e he => hne e (List.mem_cons_of_mem _ he))
      (onMessage_awaits cfg ev.1 ev.2 w j id (hne ev (List.mem_cons_self _ _)) h)

theorem getTask_mem (l : List Task) (j : Nat) (task : Task) (h : getTask l j = some task) :
    task ∈ l := by
  induction l generalizing j with
  | nil => simp [getTask] at h
  | cons a rest ih =>
    cases j with
    | zero => simp only [getTask] at h; cases h; simp
    | succ j => simp only [getTask] at h; exact List.mem_cons_of_mem _ (ih j h)

theorem progress_noop (i : Nat) (w : World)
    (h : ∀ task, getTask w.tasks i = some task → task.settled = true ∨ task.awaiting ≠ []) :
    progress i w = w := by
  unfold progress
  cases hi : getTask w.tasks i with
  | none => rfl
  | some task =>
    simp only
    rcases h task hi with h1 | h1
    · simp [h1]
    · simp [h1]

/-- What starting a task posts: one request per target, in order, and at once the reply to
the issuer when there is no target. -/
theorem startTask_posted (type : String) (payload : Payload) (cs : List Client) (w : World)
    (command : Command) (source : String) (replyId : Option Nat) :
    (progress w.tasks.length
      { (sendToAll type payload w.tasks.length cs w).2 with
        tasks := (sendToAll type payload w.tasks.length cs w).2.tasks ++
          [⟨command, source, replyId, (sendToAll type payload w.tasks.length cs w).1,
            false⟩] }).posted =
      w.posted ++
        List.zipWith (fun (c : Client) id => (c.id, OutMessage.request type id payload)) cs
          (List.range' (w.messageIdCounter + 1) cs.length) ++
        (if cs = [] then [(source, OutMessage.reply replyId Payload.undefined)] else []) ∧
    (cs ≠ [] →
      (progress w.tasks.length
        { (sendToAll type payload w.tasks.length cs w).2 with
          tasks := (sendToAll type payload w.tasks.length cs w).2.tasks ++
            [⟨command, source, replyId, (sendToAll type payload w.tasks.length cs w).1,
              false⟩] }) =
        { (sendToAll type payload w.tasks.length cs w).2 with
          tasks := w.tasks ++
            [⟨command, source, replyId, List.range' (w.messageIdCounter + 1) cs.length,
              false⟩] }) := by
  have ht := (sendToAll_tasks type payload w.tasks.length cs w).1
  obtain ⟨hids, hposted, _⟩ := sendToAll_spec type payload w.tasks.length cs w
  cases cs with
  | nil =>
    simp [sendToAll, progress, getTask_append]
  | cons c rest =>
    have hne : ∀ task, getTask ((sendToAll type payload w.tasks.length (c :: rest) w).2.tasks ++
          [⟨command, source, replyId, (sendToAll type payload w.tasks.length (c :: rest) w).1,
            false⟩]) w.tasks.length = some task →
        task.settled = true ∨ task.awaiting ≠ [] := by
      intro task h
      rw [ht, getTask_append] at h
      simp only [lt_self_iff_false, if_false, if_true, Option.some.injEq] at h
      subst h
      right
      simp [hids, List.range']
    constructor
    · rw [progress_noop _ _ hne]
      simp only [hposted]
      simp
    · intro _
      rw [progress_noop _ _ hne, ht, hids]

/-- While the only unsettled task awaits the reply to `id`, replies to other messages
neither abort the fetches nor post anything. -/
theorem onMessages_quiet (cfg : Config) (t id : Nat) (events : List (String × MessageData)) :
    ∀ w : World,
      (∀ ev ∈ events, (∃ k, ev.2.replyTo = some (k + 1)) ∧ ev.2.replyTo ≠ some id) →
      (∀ j task, getTask w.tasks j = some task →
        task.settled = true ∨ (j = t ∧ id ∈ task.awaiting)) →
      (onMessages cfg events w).aborted = w.aborted ∧
      (onMessages cfg events w).posted = w.posted := by
  induction events with
  | nil => intro w _ _; exact ⟨rfl, rfl⟩
  | cons ev rest ih =>
    intro w hev hI
    obtain ⟨⟨k, hk⟩, hne⟩ := hev ev (List.mem_cons_self _ _)
    have hstep : (onMessage cfg ev.1 ev.2 w).aborted = w.aborted ∧
        (onMessage cfg ev.1 ev.2 w).posted = w.posted ∧
        (∀ j task, getTask (onMessage cfg ev.1 ev.2 w).tasks j = some task →
          task.settled = true ∨ (j = t ∧ id ∈ task.awaiting)) := by
      unfold onMessage
      rw [hk]
      simp only
      cases hg : mapGet w.pendingReplies (k + 1) with
      | none => exact ⟨rfl, rfl, hI⟩
      | some resolve =>
        simp only
        cases resolve with
        | caller => exact ⟨rfl, rfl, hI⟩
        | task i =>
          unfold resolveReply
          simp only
          have hI' : ∀ j task, getTask (updateTask w.tasks i
              (fun t => { t with awaiting := t.awaiting.erase (k + 1) })) j = some task →
              task.settled = true ∨ (j = t ∧ id ∈ task.awaiting) := by
            intro j task hj
            rw [getTask_updateTask] at hj
            by_cases hij : i = j
            · subst hij
              simp only [if_true] at hj
              cases hold : getTask w.tasks i with
              | none => rw [hold] at hj; simp at hj
              | some told =>
                rw [hold] at hj
                simp only [Option.map_some', Option.some.injEq] at hj
                subst hj
                rcases hI i told hold with h1 | ⟨h1, h2⟩
                · exact Or.inl h1
                · refine Or.inr ⟨h1, ?_⟩
                  apply (List.mem_erase_of_ne _).2 h2
                  intro hh; exact hne (by rw [hk, hh])
            · simp only [hij, if_false] at hj
              exact hI j task hj
          rw [progress_noop]
          · exact ⟨rfl, rfl, hI'⟩
          · intro task htask
            rcases hI' i task htask with h1 | ⟨_, h2⟩
            · exact Or.inl h1
            · right; intro hnil; rw [hnil] at h2; simp at h2
    obtain ⟨ha, hp, hI2⟩ := hstep
    simp only [onMessages, List.foldl_cons]
    obtain ⟨a, b⟩ := ih (onMessage cfg ev.1 ev.2 w)
      (fun e he => hev e (List.mem_cons_of_mem _ he)) hI2
    exact ⟨by rw [← ha]; exact a, by rw [← hp]; exact b⟩

theorem haltRequests_eq_startTask (source : String) (replyId : Option Nat) (w : World) :
    haltRequests source replyId w =
      startTask Command.haltRequests source replyId "haltRequests" Payload.undefined
        w.clients w := rfl

theorem closeSession_eq_startTask (sessionId : Option String) (requestingClientId source : String)
    (replyId : Option Nat) (w : World) :
    closeSession sessionId requestingClientId source replyId w =
      startTask Command.closeSession source replyId "closeSession" (Payload.session sessionId)
        (w.clients.filter (fun client => decide (client.id ≠ requestingClientId))) w := rfl

/-- A started task: what it posts, and that it resolves only after a reply to each of its
messages has arrived. -/
theorem startTask_spec (cfg : Config) (command : Command) (source : String)
    (replyId : Option Nat) (type : String) (payload : Payload) (cs : List Client) (w : World) :
    (startTask command source replyId type payload cs w).posted =
      w.posted ++
        List.zipWith (fun (c : Client) id => (c.id, OutMessage.request type id payload)) cs
          (List.range' (w.messageIdCounter + 1) cs.length) ++
        (if cs = [] then [(source, OutMessage.reply replyId Payload.undefined)] else []) ∧
    (cs ≠ [] → (startTask command source replyId type payload cs w).aborted = w.aborted) ∧
    (∀ events : List (String × MessageData),
      taskSettled (onMessages cfg events (startTask command source replyId type payload cs w))
        w.tasks.length = true →
      ∀ id ∈ List.range' (w.messageIdCounter + 1) cs.length,
        ∃ ev ∈ events, ev.2.replyTo = some id) ∧
    (∀ (events : List (String × MessageData)) (id : Nat),
      id ∈ List.range' (w.messageIdCounter + 1) cs.length →
      (∀ ev ∈ events, ev.2.replyTo ≠ some id) →
      taskSettled (onMessages cfg events (startTask command source replyId type payload cs w))
        w.tasks.length = false ∧
      (w.aborted = false → (∀ task ∈ w.tasks, task.settled = true) →
        (∀ ev ∈ events, ∃ k, ev.2.replyTo = some (k + 1)) →
        (onMessages cfg events (startTask command source replyId type payload cs w)).aborted
          = false ∧
        (onMessages cfg events (startTask command source replyId type payload cs w)).posted
          = (startTask command source replyId type payload cs w).posted)) := by
  obtain ⟨hposted, hstate⟩ := startTask_posted type payload cs w command source replyId
  have hids := (sendToAll_spec type payload w.tasks.length cs w).1
  have haw : ∀ id ∈ List.range' (w.messageIdCounter + 1) cs.length,
      Awaits (startTask command source replyId type payload cs w) w.tasks.length id := by
    intro id hid
    exact (startTask_awaits type payload cs w command source replyId).1 id (hids ▸ hid)
  have hunreplied : ∀ (events : List (String × MessageData)) (id : Nat),
      id ∈ List.range' (w.messageIdCounter + 1) cs.length →
      (∀ ev ∈ events, ev.2.replyTo ≠ some id) →
      taskSettled (onMessages cfg events (startTask command source replyId type payload cs w))
        w.tasks.length = false := by
    intro events id hid hne
    exact (onMessages_awaits cfg events _ _ id hne (haw id hid)).not_settled
  refine ⟨hposted, ?_, ?_, ?_⟩
  · intro hcs
    show (progress _ _).aborted = _
    rw [hstate hcs]
    exact (sendToAll_tasks type payload w.tasks.length cs w).2.1
  · intro events hs id hid
    by_contra hcon
    have hne : ∀ ev ∈ events, ev.2.replyTo ≠ some id := by
      intro ev hev heq
      exact hcon ⟨ev, hev, heq⟩
    rw [hunreplied events id hid hne] at hs
    exact absurd hs (by decide)
  · intro events id hid hne
    refine ⟨hunreplied events id hid hne, ?_⟩
    intro hab hsettled hreplies
    have hcs : cs ≠ [] := by
      intro h; subst h; simp at hid
    have hq := onMessages_quiet cfg w.tasks.length id events
      (startTask command source replyId type payload cs w)
      (fun ev hev => ⟨hreplies ev hev, hne ev hev⟩) ?_
    · refine ⟨?_, hq.2⟩
      rw [hq.1]
      show (progress _ _).aborted = _
      rw [hstate hcs]
      rw [(sendToAll_tasks type payload w.tasks.length cs w).2.1]
      exact hab
    · intro j task hj
      have hj' : getTask (w.tasks ++ [⟨command, source, replyId,
          List.range' (w.messageIdCounter + 1) cs.length, false⟩]) j = some task := by
        have : (startTask command source replyId type payload cs w).tasks = w.tasks ++
            [⟨command, source, replyId, List.range' (w.messageIdCounter + 1) cs.length,
              false⟩] := by
          show (progress _ _).tasks = _
          rw [hstate hcs]
        rw [this] at hj
        exact hj
      rw [getTask_append] at hj'
      by_cases hlt : j < w.tasks.length
      · simp only [hlt, if_true] at hj'
        exact Or.inl (hsettled task (getTask_mem _ _ _ hj'))
      · simp only [hlt, if_false] at hj'
        by_cases hjeq : j = w.tasks.length
        · simp only [hjeq, if_true, Option.some.injEq] at hj'
          subst hj'
          exact Or.inr ⟨hjeq, hid⟩
        · simp [hjeq] at hj'

/-! ## The message protocol: resolving once every reply is in -/

theorem mapGet_mapDelete (m : List (Nat × Resolver)) (k k2 : Nat) :
    mapGet (mapDelete m k) k2 = if k = k2 then none else mapGet m k2 := by
  induction m with
  | nil => simp [mapDelete, mapGet]
  | cons e rest ih =>
    obtain ⟨a, v⟩ := e
    unfold mapDelete at ih ⊢
    by_cases ha : a = k
    · subst ha
      by_cases hk : a = k2
      · subst hk; simpa [List.filter, mapGet] using ih
      · simpa [List.filter, mapGet, hk] using ih
    · by_cases hk : a = k2
      · subst hk
        have : ¬ k = a := fun h => ha h.symm
        simp [List.filter, mapGet, ha, this]
      · simp only [List.filter, ha, ne_eq, not_false_eq_true, decide_True, mapGet, hk, if_false]
        exact ih

theorem mapGet_append_single (m : List (Nat × Resolver)) (k k2 : Nat) (v : Resolver) :
    mapGet (m ++ [(k, v)]) k2 =
      match mapGet m k2 with
      | some r => some r
      | none => if k = k2 then some v else none := by
  induction m with
  | nil => simp [mapGet]
  | cons e rest ih =>
    obtain ⟨a, x⟩ := e
    by_cases ha : a = k2
    · simp [mapGet, ha]
    · simp only [List.cons_append, mapGet, ha, if_false]
      exact ih

theorem mapGet_mapSet (m : List (Nat × Resolver)) (k k2 : Nat) (v : Resolver) :
    mapGet (mapSet m k v) k2 = if k = k2 then some v else mapGet m k2 := by
  unfold mapSet
  rw [mapGet_append_single, mapGet_mapDelete]
  by_cases hk : k = k2
  · simp [hk]
  · simp only [hk, if_false]
    cases mapGet m k2 <;> rfl

/-- The registrations `sendToAll` makes and keeps. -/
theorem sendToAll_pending (type : String) (payload : Payload) (index : Nat) (cs : List Client) :
    ∀ w : World,
      (∀ k, k ≤ w.messageIdCounter →
        mapGet (sendToAll type payload index cs w).2.pendingReplies k =
          mapGet w.pendingReplies k) ∧
      (∀ k ∈ List.range' (w.messageIdCounter + 1) cs.length,
        mapGet (sendToAll type payload index cs w).2.pendingReplies k =
          some (Resolver.task index)) := by
  induction cs with
  | nil => intro w; simp [sendToAll]
  | cons c rest ih =>
    intro w
    obtain ⟨h1, h2⟩ := ih (sendAndWaitForReply c type payload (Resolver.task index) w).2
    simp only [sendToAll]
    simp only [sendAndWaitForReply] at h1 h2 ⊢
    constructor
    · intro k hk
      rw [h1 k (by omega), mapGet_mapSet]
      have : ¬ w.messageIdCounter + 1 = k := by omega
      simp [this]
    · intro k hk
      simp only [List.length_cons, List.range', List.mem_cons] at hk
      rcases hk with hk | hk
      · subst hk
        rw [h1 _ (le_refl _), mapGet_mapSet]
        simp
      · exact h2 k hk

theorem sendToAll_frame (type : String) (payload : Payload) (index : Nat) (cs : List Client) :
    ∀ w : World,
      (∀ x ∈ w.posted, x ∈ (sendToAll type payload index cs w).2.posted) := by
  induction cs with
  | nil => intro w x hx; exact hx
  | cons c rest ih =>
    intro w x hx
    simp only [sendToAll]
    apply ih
    simp only [sendAndWaitForReply]
    exact List.mem_append_left _ hx

/-- What `progress` leaves as it is. -/
theorem progress_frame (i : Nat) (w : World) :
    (progress i w).pendingReplies = w.pendingReplies ∧
    (progress i w).messageIdCounter = w.messageIdCounter ∧
    (w.aborted = true → (progress i w).aborted = true) ∧
    (∀ x ∈ w.posted, x ∈ (progress i w).posted) ∧
    (∀ j, j ≠ i → getTask (progress i w).tasks j = getTask w.tasks j) := by
  unfold progress
  cases hi : getTask w.tasks i with
  | none => simp
  | some task =>
    simp only
    split
    · refine ⟨rfl, rfl, ?_, ?_, ?_⟩
      · intro h; simp [h]
      · intro x hx; exact List.mem_append_left _ hx
      · intro j hj
        simp only [getTask_updateTask]
        simp [Ne.symm hj]
    · simp

/-- A task in step with the replies stays so when another task is started. -/
theorem startTask_tracks_old (command2 : Command) (source2 : String) (replyId2 : Option Nat)
    (type : String) (payload : Payload) (cs : List Client) (w : World) (t : Nat)
    (command : Command) (source : String) (replyId : Option Nat) (ids replied : List Nat)
    (h : Tracks w t command source replyId ids replied) :
    Tracks (startTask command2 source2 replyId2 type payload cs w) t command source replyId
      ids replied := by
  obtain ⟨awaiting, settled, hget, haw, hset, hdone, hpend, hle⟩ := h
  have hlt := getTask_lt _ _ _ hget
  have htasks := (sendToAll_tasks type payload w.tasks.length cs w)
  obtain ⟨_, _, hcount⟩ := sendToAll_spec type payload w.tasks.length cs w
  obtain ⟨hp1, _⟩ := sendToAll_pending type payload w.tasks.length cs w
  have hposted := sendToAll_frame type payload w.tasks.length cs w
  unfold startTask
  simp only
  obtain ⟨f1, f2, f3, f4, f5⟩ := progress_frame w.tasks.length
    { (sendToAll type payload w.tasks.length cs w).2 with
      tasks := (sendToAll type payload w.tasks.length cs w).2.tasks ++
        [⟨command2, source2, replyId2, (sendToAll type payload w.tasks.length cs w).1, false⟩] }
  refine ⟨awaiting, settled, ?_, haw, hset, ?_, ?_, ?_⟩
  · rw [f5 t (by omega)]
    simp only [htasks.1, getTask_append, hlt, if_true]
    exact hget
  · intro hs
    obtain ⟨a, b⟩ := hdone hs
    refine ⟨fun hc => f3 ?_, f4 _ (hposted _ b)⟩
    simp only [htasks.2.1]
    exact a hc
  · intro id hid hnr
    rw [f1]
    simp only
    rw [hp1 id (hle id hid)]
    exact hpend id hid hnr
  · intro id hid
    rw [f2]
    simp only [hcount]
    have := hle id hid
    omega

/-- A task just started is in step with no reply received. -/
theorem startTask_tracks_new (command : Command) (source : String) (replyId : Option Nat)
    (type : String) (payload : Payload) (cs : List Client) (w : World) :
    Tracks (startTask command source replyId type payload cs w) w.tasks.length command source
      replyId (List.range' (w.messageIdCounter + 1) cs.length) [] := by
  by_cases hcs : cs = []
  · subst hcs
    refine ⟨[], true, ?_, by simp, fun _ => rfl, ?_, by simp, by simp⟩
    · simp [startTask, sendToAll, progress, getTask_append, getTask_updateTask]
    · intro _
      simp only [startTask, sendToAll, progress, getTask_append]
      simp
      exact fun h => Or.inl h
  · have hstate := (startTask_posted type payload cs w command source replyId).2 hcs
    obtain ⟨_, _, hcount⟩ := sendToAll_spec type payload w.tasks.length cs w
    obtain ⟨_, hp2⟩ := sendToAll_pending type payload w.tasks.length cs w
    have hne : List.range' (w.messageIdCounter + 1) cs.length ≠ [] := by
      cases cs with
      | nil => exact absurd rfl hcs
      | cons c rest => simp [List.range']
    unfold startTask
    simp only
    rw [hstate]
    refine ⟨List.range' (w.messageIdCounter + 1) cs.length, false, ?_, ?_, ?_, ?_, ?_, ?_⟩
    · simp [getTask_append]
    · simp
    · intro h; exact absurd h hne
    · intro h; cases h
    · intro id hid _
      exact hp2 id hid
    · intro id hid
      simp only [hcount]
      have := (List.mem_range'_1.1 hid).2
      omega

theorem filter_not_mem_append_single (ids replied : List Nat) (k : Nat) (hnd : ids.Nodup) :
    (ids.filter (fun id => decide (id ∉ replied))).erase k =
      ids.filter (fun id => decide (id ∉ replied ++ [k])) := by
  rw [List.Nodup.erase_eq_filter (hnd.filter _), List.filter_filter]
  apply List.filter_congr
  intro x _
  by_cases h1 : x ∈ replied <;> by_cases h2 : x = k <;> simp [h1, h2]

theorem filter_not_mem_append_of (ids replied : List Nat) (k : Nat)
    (h : k ∈ ids → k ∈ replied) :
    ids.filter (fun id => decide (id ∉ replied ++ [k])) =
      ids.filter (fun id => decide (id ∉ replied)) := by
  apply List.filter_congr
  intro x hx
  by_cases h1 : x ∈ replied
  · simp [h1]
  · have : x ≠ k := by
      intro hxk
      subst hxk
      exact h1 (h hx)
    simp [h1, this]

/-- A state that keeps the task, the registrations of its unanswered requests, an aborted
controller and the posted messages keeps the task in step. -/
theorem Tracks.mono {w w2 : World} {t : Nat} {command : Command} {source : String}
    {replyId : Option Nat} {ids replied replied2 : List Nat}
    (h : Tracks w t command source replyId ids replied)
    (hget : getTask w2.tasks t = getTask w.tasks t)
    (hab : w.aborted = true → w2.aborted = true)
    (hposted : ∀ x ∈ w.posted, x ∈ w2.posted)
    (hfilter : ids.filter (fun id => decide (id ∉ replied2)) =
      ids.filter (fun id => decide (id ∉ replied)))
    (hsub : ∀ id ∈ ids, id ∉ replied2 → id ∉ replied)
    (hpend : ∀ id ∈ ids, id ∉ replied2 → mapGet w2.pendingReplies id = mapGet w.pendingReplies id)
    (hcount : w.messageIdCounter ≤ w2.messageIdCounter) :
    Tracks w2 t command source replyId ids replied2 := by
  obtain ⟨awaiting, settled, hg, haw, hset, hdone, hp, hle⟩ := h
  refine ⟨awaiting, settled, by rw [hget]; exact hg, by rw [hfilter]; exact haw, hset, ?_, ?_, ?_⟩
  · intro hs
    obtain ⟨a, b⟩ := hdone hs
    exact ⟨fun hc => hab (a hc), hposted _ b⟩
  · intro id hid hnr
    rw [hpend id hid hnr]
    exact hp id hid (hsub id hid hnr)
  · intro id hid
    exact le_trans (hle id hid) hcount

theorem not_mem_append_single {replied : List Nat} {k id : Nat} (h : id ∉ replied ++ [k]) :
    id ∉ replied ∧ id ≠ k := by
  simp only [List.mem_append, List.mem_singleton, not_or] at h
  exact h

/-- A received message keeps a task in step, the replies received now counting the one the
message brings. -/
theorem onMessage_tracks (cfg : Config) (src : String) (data : MessageData) (w : World)
    (t : Nat) (command : Command) (source : String) (replyId : Option Nat)
    (ids replied : List Nat) (hnd : ids.Nodup)
    (h : Tracks w t command source replyId ids replied) :
    Tracks (onMessage cfg src data w) t command source replyId ids
      (replied ++ repliedBy data) := by
  unfold onMessage repliedBy
  split
  · -- a reply to the message `k + 1`
    rename_i k hk
    have hne : ∀ id, id ∉ replied ++ [k + 1] →
        mapGet (mapDelete w.pendingReplies (k + 1)) id = mapGet w.pendingReplies id := by
      intro id hid
      rw [mapGet_mapDelete]
      have := (not_mem_append_single hid).2
      simp [Ne.symm this]
    cases hg : mapGet w.pendingReplies (k + 1) with
    | none =>
      simp only
      have himp : k + 1 ∈ ids → k + 1 ∈ replied := by
        intro hin
        by_contra hnot
        obtain ⟨_, _, _, _, _, _, hp, _⟩ := h
        rw [hp _ hin hnot] at hg
        cases hg
      exact h.mono rfl (fun x => x) (fun x hx => hx)
        (filter_not_mem_append_of ids replied (k + 1) himp)
        (fun id _ hid => (not_mem_append_single hid).1) (fun _ _ _ => rfl) (le_refl _)
    | some resolve =>
      simp only
      cases resolve with
      | caller =>
        have himp : k + 1 ∈ ids → k + 1 ∈ replied := by
          intro hin
          by_contra hnot
          obtain ⟨_, _, _, _, _, _, hp, _⟩ := h
          rw [hp _ hin hnot] at hg
          cases hg
        exact h.mono rfl (fun x => x) (fun x hx => hx)
          (filter_not_mem_append_of ids replied (k + 1) himp)
          (fun id _ hid => (not_mem_append_single hid).1) (fun id _ hid => hne id hid)
          (le_refl _)
      | task i =>
        unfold resolveReply
        simp only
        obtain ⟨f1, f2, f3, f4, f5⟩ := progress_frame i
          { w with
            pendingReplies := mapDelete w.pendingReplies (k + 1)
            tasks := updateTask w.tasks i
              (fun t => { t with awaiting := t.awaiting.erase (k + 1) }) }
        by_cases hit : i = t
        · subst hit
          obtain ⟨awaiting, settled, hget, haw, hset, hdone, hp, hle⟩ := h
          have hget1 : getTask (updateTask w.tasks i
              (fun t => { t with awaiting := t.awaiting.erase (k + 1) })) i =
              some ⟨command, source, replyId, awaiting.erase (k + 1), settled⟩ := by
            simp [getTask_updateTask, hget]
          have haw1 : awaiting.erase (k + 1) =
              ids.filter (fun id => decide (id ∉ replied ++ [k + 1])) := by
            rw [haw]; exact filter_not_mem_append_single ids replied (k + 1) hnd
          by_cases hcond : awaiting.erase (k + 1) = [] ∧ settled = false
          · -- the last awaited reply: the task resolves
            refine ⟨[], true, ?_, ?_, fun _ => rfl, ?_, ?_, ?_⟩
            · simp [progress, hget1, hcond.1, hcond.2, getTask_updateTask]
            · rw [← haw1]; exact hcond.1.symm
            · intro _
              simp [progress, hget1, hcond.1, hcond.2]
              exact fun hc => Or.inl hc
            · intro id hid hnr
              have : id ∈ ids.filter (fun id => decide (id ∉ replied ++ [k + 1])) :=
                List.mem_filter.2 ⟨hid, by simpa using hnr⟩
              rw [← haw1, hcond.1] at this
              simp at this
            · intro id hid
              rw [f2]; exact hle id hid
          · -- replies are still missing, or the task had resolved before
            have hno : progress i { w with
                pendingReplies := mapDelete w.pendingReplies (k + 1)
                tasks := updateTask w.tasks i
                  (fun t => { t with awaiting := t.awaiting.erase (k + 1) }) } =
                { w with
                  pendingReplies := mapDelete w.pendingReplies (k + 1)
                  tasks := updateTask w.tasks i
                    (fun t => { t with awaiting := t.awaiting.erase (k + 1) }) } := by
              apply progress_noop
              intro task htask
              simp only at htask
              rw [hget1] at htask
              cases htask
              simp only
              by_cases hs : settled = true
              · exact Or.inl hs
              · right
                intro hnil
                exact hcond ⟨hnil, by simpa using hs⟩
            rw [hno]
            refine ⟨awaiting.erase (k + 1), settled, hget1, haw1, ?_, hdone, ?_, hle⟩
            · intro hnil
              by_contra hs
              exact hcond ⟨hnil, by simpa using hs⟩
            · intro id hid hnr
              simp only
              rw [hne id hnr]
              exact hp id hid (not_mem_append_single hnr).1
        · -- the reply belongs to another task
          have himp : k + 1 ∈ ids → k + 1 ∈ replied := by
            intro hin
            by_contra hnot
            obtain ⟨_, _, _, _, _, _, hp, _⟩ := h
            rw [hp _ hin hnot] at hg
            simp only [Option.some.injEq, Resolver.task.injEq] at hg
            exact hit hg.symm
          refine h.mono ?_ f3 f4
            (filter_not_mem_append_of ids replied (k + 1) himp)
            (fun id _ hid => (not_mem_append_single hid).1) ?_ (by rw [f2])
          · rw [f5 t (Ne.symm hit)]
            simp only [getTask_updateTask, hit, if_false]
          · intro id _ hid
            rw [f1]
            exact hne id hid
  · -- a command
    simp only [List.append_nil]
    split
    · exact h.mono rfl (fun x => x) (fun x hx => List.mem_append_left _ hx) rfl
        (fun _ _ hid => hid) (fun _ _ _ => rfl) (le_refl _)
    · split
      · exact h.mono rfl (fun x => x) (fun x hx => hx) rfl
          (fun _ _ hid => hid) (fun _ _ _ => rfl) (le_refl _)
      · split
        · rw [haltRequests_eq_startTask]
          exact startTask_tracks_old _ _ _ _ _ _ _ _ _ _ _ _ _ h
        · split
          · split
            · rw [closeSession_eq_startTask]
              exact startTask_tracks_old _ _ _ _ _ _ _ _ _ _ _ _ _ h
            · exact h
          · exact h

theorem onMessages_tracks (cfg : Config) (events : List (String × MessageData)) :
    ∀ (w : World) (t : Nat) (command : Command) (source : String) (replyId : Option Nat)
      (ids replied : List Nat), ids.Nodup →
      Tracks w t command source replyId ids replied →
      Tracks (onMessages cfg events w) t command source replyId ids
        (events.foldl (fun acc ev => acc ++ repliedBy ev.2) replied) := by
  induction events with
  | nil => intro w t command source replyId ids replied _ h; exact h
  | cons ev rest ih =>
    intro w t command source replyId ids replied hnd h
    simp only [onMessages, List.foldl_cons]
    exact ih _ t command source replyId ids _ hnd
      (onMessage_tracks cfg ev.1 ev.2 w t command source replyId ids replied hnd h)

/-- A started task resolves once a reply to each of its requests has arrived: then, for
`haltRequests`, the fetches are aborted, and the issuer has been replied to. -/
theorem startTask_resolves (cfg : Config) (command : Command) (source : String)
    (replyId : Option Nat) (type : String) (payload : Payload) (cs : List Client) (w : World)
    (events : List (String × MessageData))
    (hall : ∀ id ∈ List.range' (w.messageIdCounter + 1) cs.length, id ∈ repliedIds events) :
    taskSettled (onMessages cfg events (startTask command source replyId type payload cs w))
      w.tasks.length = true ∧
    (command = Command.haltRequests →
      (onMessages cfg events (startTask command source replyId type payload cs w)).aborted
        = true) ∧
    (source, OutMessage.reply replyId Payload.undefined) ∈
      (onMessages cfg events (startTask command source replyId type payload cs w)).posted := by
  have h := onMessages_tracks cfg events _ _ _ _ _ _ [] (List.nodup_range' _ _)
    (startTask_tracks_new command source replyId type payload cs w)
  obtain ⟨awaiting, settled, hget, haw, hset, hdone, _, _⟩ := h
  have hnil : awaiting = [] := by
    rw [haw]
    apply List.filter_eq_nil_iff.2
    intro id hid
    have := hall id hid
    simpa [repliedIds] using this
  have hs := hset hnil
  obtain ⟨a, b⟩ := hdone hs
  exact ⟨by simp [taskSettled, hget, hs], a, b⟩

theorem isReply_iff (data : MessageData) :
    isReply data = true ↔ ∃ k, data.replyTo = some (k + 1) := by
  unfold isReply
  split
  · rename_i k h; simp [h]
  · rename_i h
    constructor
    · intro hf; cases hf
    · rintro ⟨k, hk⟩; exact absurd hk (h k)

/-- Each target gets a request, and every request goes to a target. -/
theorem zipWith_requests (type : String) (payload : Payload) (cs : List Client) :
    ∀ n : Nat,
      (∀ c ∈ cs, ∃ id ∈ List.range' n cs.length,
        (c.id, OutMessage.request type id payload) ∈
          List.zipWith (fun (c : Client) id => (c.id, OutMessage.request type id payload)) cs
            (List.range' n cs.length)) ∧
      (∀ x ∈ List.zipWith (fun (c : Client) id => (c.id, OutMessage.request type id payload)) cs
          (List.range' n cs.length),
        ∃ c ∈ cs, ∃ id ∈ List.range' n cs.length,
          x = (c.id, OutMessage.request type id payload)) := by
  induction cs with
  | nil => intro n; simp
  | cons a rest ih =>
    intro n
    obtain ⟨h1, h2⟩ := ih (n + 1)
    constructor
    · intro c hc
      rcases List.mem_cons.1 hc with h | h
      · subst h
        exact ⟨n, by simp [List.range'], by simp [List.range', List.zipWith]⟩
      · obtain ⟨id, hid, hmem⟩ := h1 c h
        refine ⟨id, ?_, ?_⟩
        · simp only [List.length_cons, List.range', List.mem_cons]; exact Or.inr hid
        · simp only [List.length_cons, List.range', List.zipWith, List.mem_cons]
          exact Or.inr hmem
    · intro x hx
      simp only [List.length_cons, List.range', List.zipWith, List.mem_cons] at hx
      rcases hx with h | h
      · exact ⟨a, by simp, n, by simp [List.range'], h⟩
      · obtain ⟨c, hc, id, hid, hxe⟩ := h2 x h
        refine ⟨c, List.mem_cons_of_mem _ hc, id, ?_, hxe⟩
        simp only [List.length_cons, List.range', List.mem_cons]; exact Or.inr hid

/-- C7: `haltRequests`, started by the message listener, posts a `haltRequests` request to
every window client; in whatever order later messages arrive, it has resolved (which is when
it has aborted `pendingFetchAbortController` and the listener has replied to the issuer) only
if a reply to each of those requests has arrived; and while the reply to one of them is
missing it has not resolved, so that, no other `haltRequests` or `closeSession` being under
way and only replies arriving, the controller is not aborted and nothing is posted to the
issuer; once a reply to each request has arrived it has resolved, the controller is aborted
and the issuer has been replied to. -/
theorem haltRequests_two_phase (cfg : Config) (w : World) (source : String)
    (replyId : Option Nat) :
    onMessage cfg source { type := some "haltRequests", id := replyId } w =
      haltRequests source replyId w ∧
    (haltRequests source replyId w).posted =
      w.posted ++
        List.zipWith (fun (c : Client) id =>
          (c.id, OutMessage.request "haltRequests" id Payload.undefined)) w.clients
          (List.range' (w.messageIdCounter + 1) w.clients.length) ++
        (if w.clients = [] then [(source, OutMessage.reply replyId Payload.undefined)]
          else []) ∧
    (∀ c ∈ w.clients, ∃ id ∈ List.range' (w.messageIdCounter + 1) w.clients.length,
      (c.id, OutMessage.request "haltRequests" id Payload.undefined) ∈
        (haltRequests source replyId w).posted) ∧
    (w.clients ≠ [] → (haltRequests source replyId w).aborted = w.aborted) ∧
    (∀ events : List (String × MessageData),
      taskSettled (onMessages cfg events (haltRequests source replyId w)) w.tasks.length = true →
      ∀ id ∈ List.range' (w.messageIdCounter + 1) w.clients.length,
        ∃ ev ∈ events, ev.2.replyTo = some id) ∧
    (∀ (events : List (String × MessageData)) (id : Nat),
      id ∈ List.range' (w.messageIdCounter + 1) w.clients.length →
      (∀ ev ∈ events, ev.2.replyTo ≠ some id) →
      taskSettled (onMessages cfg events (haltRequests source replyId w)) w.tasks.length
        = false ∧
      (w.aborted = false → (∀ task ∈ w.tasks, task.settled = true) →
        (∀ ev ∈ events, isReply ev.2 = true) →
        (onMessages cfg events (haltRequests source replyId w)).aborted = false ∧
        (onMessages cfg events (haltRequests source replyId w)).posted =
          (haltRequests source replyId w).posted)) ∧
    (∀ events : List (String × MessageData),
      (∀ id ∈ List.range' (w.messageIdCounter + 1) w.clients.length, id ∈ repliedIds events) →
      taskSettled (onMessages cfg events (haltRequests source replyId w)) w.tasks.length
        = true ∧
      (onMessages cfg events (haltRequests source replyId w)).aborted = true ∧
      (source, OutMessage.reply replyId Payload.undefined) ∈
        (onMessages cfg events (haltRequests source replyId w)).posted) := by
  obtain ⟨h1, h2, h3, h4⟩ := startTask_spec cfg Command.haltRequests source replyId
    "haltRequests" Payload.undefined w.clients w
  have h5 := startTask_resolves cfg Command.haltRequests source replyId
    "haltRequests" Payload.undefined w.clients w
  rw [← haltRequests_eq_startTask] at h1 h2 h3 h4 h5
  refine ⟨rfl, h1, ?_, h2, h3, ?_, fun events hall =>
    ⟨(h5 events hall).1, (h5 events hall).2.1 rfl, (h5 events hall).2.2⟩⟩
  · intro c hc
    obtain ⟨id, hid, hmem⟩ := (zipWith_requests "haltRequests" Payload.undefined w.clients
      (w.messageIdCounter + 1)).1 c hc
    refine ⟨id, hid, ?_⟩
    rw [h1]
    exact List.mem_append_left _ (List.mem_append_right _ hmem)
  · intro events id hid hne
    obtain ⟨a, b⟩ := h4 events id hid hne
    exact ⟨a, fun hab hs hr => b hab hs (fun ev hev => (isReply_iff ev.2).1 (hr ev hev))⟩

/-- Witness for C7: with three windows open the requests 1, 2 and 3 are posted; while the
reply to request 1 is missing the controller is not aborted and the issuer has no reply; once
all three replies are in, the controller is aborted and the issuer is replied to. -/
theorem haltRequests_two_phase_witness :
    (haltRequests "C1" (some 7) threeClients).posted =
      [("C1", OutMessage.request "haltRequests" 1 Payload.undefined),
       ("C2", OutMessage.request "haltRequests" 2 Payload.undefined),
       ("C3", OutMessage.request "haltRequests" 3 Payload.undefined)] ∧
    (onMessages sampleConfig [("C2", { replyTo := some 2 }), ("C3", { replyTo := some 3 })]
      (haltRequests "C1" (some 7) threeClients)).aborted = false ∧
    (onMessages sampleConfig [("C2", { replyTo := some 2 }), ("C3", { replyTo := some 3 })]
      (haltRequests "C1" (some 7) threeClients)).posted =
      (haltRequests "C1" (some 7) threeClients).posted ∧
    (onMessages sampleConfig [("C2", { replyTo := some 2 }), ("C3", { replyTo := some 3 }),
        ("C1", { replyTo := some 1 })]
      (onMessage sampleConfig "C1" haltCommand threeClients)).aborted = true ∧
    ("C1", OutMessage.reply (some 7) Payload.undefined) ∈
      (onMessages sampleConfig [("C2", { replyTo := some 2 }), ("C3", { replyTo := some 3 }),
          ("C1", { replyTo := some 1 })]
        (onMessage sampleConfig "C1" haltCommand threeClients)).posted :=
  have h := haltRequests_two_phase sampleConfig threeClients "C1" (some 7)
  have h6 := (h.2.2.2.2.2.1 [("C2", { replyTo := some 2 }), ("C3", { replyTo := some 3 })] 1
    (by decide) (by decide)).2 rfl (by decide) (by decide)
  have h7 := h.2.2.2.2.2.2 [("C2", { replyTo := some 2 }), ("C3", { replyTo := some 3 }),
    ("C1", { replyTo := some 1 })] (by decide)
  ⟨h.2.1, h6.1, h6.2, h7.2.1, h7.2.2⟩

/-- C8: `closeSession(sessionId, requestingClientId)`, started by the message listener for a
command of the client `requestingClientId`, posts a `closeSession` request carrying
`{sessionId}` to every client whose id differs from `requestingClientId` and no request to a
client whose id equals it; in whatever order later messages arrive, it has resolved (which is
when the listener replies to the issuer) only if a reply to each of those requests has
arrived, and while the reply to one of them is missing it has not resolved, so that, no other
command being under way and only replies arriving, nothing is posted to the issuer; once a
reply to each request has arrived it has resolved and the issuer has been replied to. -/
theorem closeSession_broadcast (cfg : Config) (w : World) (sessionId : Option String)
    (requestingClientId : String) (replyId : Option Nat) :
    onMessage cfg requestingClientId
      { type := some "closeSession", id := replyId, payload := Payload.session sessionId } w =
      closeSession sessionId requestingClientId requestingClientId replyId w ∧
    (closeSession sessionId requestingClientId requestingClientId replyId w).posted =
      w.posted ++
        List.zipWith (fun (c : Client) id =>
          (c.id, OutMessage.request "closeSession" id (Payload.session sessionId)))
          (w.clients.filter (fun client => decide (client.id ≠ requestingClientId)))
          (List.range' (w.messageIdCounter + 1)
            (w.clients.filter (fun client => decide (client.id ≠ requestingClientId))).length) ++
        (if w.clients.filter (fun client => decide (client.id ≠ requestingClientId)) = [] then
          [(requestingClientId, OutMessage.reply replyId Payload.undefined)] else []) ∧
    (∀ c ∈ w.clients, c.id ≠ requestingClientId →
      ∃ id, (c.id, OutMessage.request "closeSession" id (Payload.session sessionId)) ∈
        List.zipWith (fun (c : Client) id =>
          (c.id, OutMessage.request "closeSession" id (Payload.session sessionId)))
          (w.clients.filter (fun client => decide (client.id ≠ requestingClientId)))
          (List.range' (w.messageIdCounter + 1)
            (w.clients.filter (fun client => decide (client.id ≠ requestingClientId))).length)) ∧
    (∀ x ∈ List.zipWith (fun (c : Client) id =>
          (c.id, OutMessage.request "closeSession" id (Payload.session sessionId)))
          (w.clients.filter (fun client => decide (client.id ≠ requestingClientId)))
          (List.range' (w.messageIdCounter + 1)
            (w.clients.filter (fun client => decide (client.id ≠ requestingClientId))).length),
      x.1 ≠ requestingClientId) ∧
    (∀ events : List (String × MessageData),
      taskSettled (onMessages cfg events
        (closeSession sessionId requestingClientId requestingClientId replyId w))
        w.tasks.length = true →
      ∀ id ∈ List.range' (w.messageIdCounter + 1)
          (w.clients.filter (fun client => decide (client.id ≠ requestingClientId))).length,
        ∃ ev ∈ events, ev.2.replyTo = some id) ∧
    (∀ (events : List (String × MessageData)) (id : Nat),
      id ∈ List.range' (w.messageIdCounter + 1)
        (w.clients.filter (fun client => decide (client.id ≠ requestingClientId))).length →
      (∀ ev ∈ events, ev.2.replyTo ≠ some id) →
      taskSettled (onMessages cfg events
        (closeSession sessionId requestingClientId requestingClientId replyId w))
        w.tasks.length = false ∧
      ((∀ task ∈ w.tasks, task.settled = true) → (∀ ev ∈ events, isReply ev.2 = true) →
        (onMessages cfg events
          (closeSession sessionId requestingClientId requestingClientId replyId w)).posted =
          (closeSession sessionId requestingClientId requestingClientId replyId w).posted)) ∧
    (∀ events : List (String × MessageData),
      (∀ id ∈ List.range' (w.messageIdCounter + 1)
          (w.clients.filter (fun client => decide (client.id ≠ requestingClientId))).length,
        id ∈ repliedIds events) →
      taskSettled (onMessages cfg events
        (closeSession sessionId requestingClientId requestingClientId replyId w))
        w.tasks.length = true ∧
      (requestingClientId, OutMessage.reply replyId Payload.undefined) ∈
        (onMessages cfg events
          (closeSession sessionId requestingClientId requestingClientId replyId w)).posted) := by
  obtain ⟨h1, _, h3, _⟩ := startTask_spec cfg Command.closeSession requestingClientId replyId
    "closeSession" (Payload.session sessionId)
    (w.clients.filter (fun client => decide (client.id ≠ requestingClientId))) w
  have h5 := startTask_resolves cfg Command.closeSession requestingClientId replyId
    "closeSession" (Payload.session sessionId)
    (w.clients.filter (fun client => decide (client.id ≠ requestingClientId))) w
  rw [← closeSession_eq_startTask] at h5
  obtain ⟨z1, z2⟩ := zipWith_requests "closeSession" (Payload.session sessionId)
    (w.clients.filter (fun client => decide (client.id ≠ requestingClientId)))
    (w.messageIdCounter + 1)
  rw [← closeSession_eq_startTask] at h1 h3
  refine ⟨rfl, h1, ?_, ?_, h3, ?_, fun events hall =>
    ⟨(h5 events hall).1, (h5 events hall).2.2⟩⟩
  · intro c hc hne
    obtain ⟨id, _, hmem⟩ := z1 c (List.mem_filter.2 ⟨hc, by simpa using hne⟩)
    exact ⟨id, hmem⟩
  · intro x hx
    obtain ⟨c, hc, id, _, hxe⟩ := z2 x hx
    subst hxe
    simpa using (List.mem_filter.1 hc).2
  · intro events id hid hne
    -- the quiet run is independent of the abort flag: replay the generic argument on a
    -- state whose flag is cleared
    have hgen := (startTask_spec cfg Command.closeSession requestingClientId replyId
      "closeSession" (Payload.session sessionId)
      (w.clients.filter (fun client => decide (client.id ≠ requestingClientId))) w).2.2.2
      events id hid hne
    rw [← closeSession_eq_startTask] at hgen
    refine ⟨hgen.1, ?_⟩
    intro hs hr
    have hcs : (w.clients.filter (fun client => decide (client.id ≠ requestingClientId))) ≠ [] := by
      intro h; rw [h] at hid; simp at hid
    have hstate := (startTask_posted "closeSession" (Payload.session sessionId)
      (w.clients.filter (fun client => decide (client.id ≠ requestingClientId))) w
      Command.closeSession requestingClientId replyId).2 hcs
    refine (onMessages_quiet cfg w.tasks.length id events
      (closeSession sessionId requestingClientId requestingClientId replyId w)
      (fun ev hev => ⟨(isReply_iff ev.2).1 (hr ev hev), hne ev hev⟩) ?_).2
    intro j task hj
    have htasks : (closeSession sessionId requestingClientId requestingClientId replyId w).tasks
        = w.tasks ++ [⟨Command.closeSession, requestingClientId, replyId,
          List.range' (w.messageIdCounter + 1)
            (w.clients.filter (fun client => decide (client.id ≠ requestingClientId))).length,
          false⟩] := by
      rw [closeSession_eq_startTask]
      show (progress _ _).tasks = _
      rw [hstate]
    rw [htasks, getTask_append] at hj
    by_cases hlt : j < w.tasks.length
    · simp only [hlt, if_true] at hj
      exact Or.inl (hs task (getTask_mem _ _ _ hj))
    · simp only [hlt, if_false] at hj
      by_cases hjeq : j = w.tasks.length
      · simp only [hjeq, if_true, Option.some.injEq] at hj
        subst hj
        exact Or.inr ⟨hjeq, hid⟩
      · simp [hjeq] at hj

/-- Witness for C8: with the windows C1, C2 and C3 open and C1 the issuer, exactly C2 and C3
are sent the request; after the reply of C2 alone the issuer has no reply; after both replies
the issuer is replied to. -/
theorem closeSession_broadcast_witness :
    (onMessage sampleConfig "C1" closeCommand threeClients).posted =
      [("C2", OutMessage.request "closeSession" 1 (Payload.session (some "s1"))),
       ("C3", OutMessage.request "closeSession" 2 (Payload.session (some "s1")))] ∧
    (onMessages sampleConfig [("C2", { replyTo := some 1 })]
      (closeSession (some "s1") "C1" "C1" (some 7) threeClients)).posted =
      (closeSession (some "s1") "C1" "C1" (some 7) threeClients).posted ∧
    (onMessages sampleConfig [("C2", { replyTo := some 1 }), ("C3", { replyTo := some 2 })]
      (onMessage sampleConfig "C1" closeCommand threeClients)).posted =
      [("C2", OutMessage.request "closeSession" 1 (Payload.session (some "s1"))),
       ("C3", OutMessage.request "closeSession" 2 (Payload.session (some "s1"))),
       ("C1", OutMessage.reply (some 7) Payload.undefined)] :=
  have h := closeSession_broadcast sampleConfig threeClients (some "s1") "C1" (some 7)
  ⟨h.1 ▸ h.2.1,
   (h.2.2.2.2.2.1 [("C2", { replyTo := some 1 })] 2 (by decide) (by decide)).2 (by decide)
     (by decide),
   by decide⟩

/-! ## Push notifications -/

theorem foldl_erase_cons_of_not_mem {α : Type} [DecidableEq α] (xs : List α) :
    ∀ (l : List α) (a : α), a ∉ xs →
      xs.foldl (fun l x => l.erase x) (a :: l) = a :: xs.foldl (fun l x => l.erase x) l := by
  induction xs with
  | nil => intro l a _; rfl
  | cons x rest ih =>
    intro l a ha
    have hxa : x ≠ a := fun h => ha (by simp [h])
    have hrest : a ∉ rest := fun h => ha (List.mem_cons_of_mem _ h)
    simp only [List.foldl_cons]
    rw [List.erase_cons_tail (by simpa using Ne.symm hxa)]
    exact ih _ a hrest

/-- Closing, one by one, the displayed notifications that satisfy `p` leaves those that do
not. -/
theorem foldl_erase_filter {α : Type} [DecidableEq α] (p : α → Bool) (l : List α) :
    (l.filter p).foldl (fun l x => l.erase x) l = l.filter (fun x => !p x) := by
  induction l with
  | nil => rfl
  | cons a rest ih =>
    by_cases hp : p a = true
    · simp only [List.filter_cons, hp, if_true, List.foldl_cons, List.erase_cons_head,
        Bool.not_true, Bool.false_eq_true, if_false]
      exact ih
    · have hpf : p a = false := by simpa using hp
      have hnot : a ∉ rest.filter p := by
        intro h
        exact hp (List.mem_filter.1 h).2
      simp only [List.filter_cons, hpf, Bool.false_eq_true, if_false, Bool.not_false, if_true]
      rw [foldl_erase_cons_of_not_mem _ _ _ hnot, ih]

theorem foldl_close (xs : List Notification) : ∀ w : World,
    xs.foldl (fun w notif => closeNotification notif w) w =
      { w with notifications := xs.foldl (fun l x => l.erase x) w.notifications } := by
  induction xs with
  | nil => intro w; rfl
  | cons x rest ih => intro w; simp only [List.foldl_cons]; rw [ih]; rfl

theorem foldl_close_if (p : Notification → Bool) (xs : List Notification) : ∀ w : World,
    xs.foldl (fun w notif => if p notif = true then closeNotification notif w else w) w =
      { w with notifications := (xs.filter p).foldl (fun l x => l.erase x) w.notifications } := by
  induction xs with
  | nil => intro w; rfl
  | cons x rest ih =>
    intro w
    simp only [List.foldl_cons]
    rw [ih]
    by_cases hp : p x = true
    · simp [hp, List.filter_cons, closeNotification]
    · simp [hp, List.filter_cons]

theorem awaitReply_frame (answers : Nat → Option Payload) (client : Client) (type : String)
    (payload : Payload) (w w1 : World) (reply : Payload)
    (h : awaitReply answers client type payload w = some (reply, w1)) :
    w1.notifications = w.notifications ∧ w1.clients = w.clients := by
  unfold awaitReply sendAndWaitForReply at h
  simp only at h
  split at h
  · cases h
  · simp only [Option.some.injEq, Prod.mk.injEq] at h
    obtain ⟨_, rfl⟩ := h
    exact ⟨rfl, rfl⟩

theorem findClientIn_hasRoomOpen_frame (answers : Nat → Option Payload)
    (sessionId roomId : Option String) (cs : List Client) :
    ∀ (w w1 : World) (found : Option Client),
      findClientIn (hasRoomOpenPredicate answers sessionId roomId) cs w = some (found, w1) →
      w1.notifications = w.notifications ∧ w1.clients = w.clients := by
  induction cs with
  | nil =>
    intro w w1 found h
    simp only [findClientIn, Option.some.injEq, Prod.mk.injEq] at h
    obtain ⟨_, rfl⟩ := h
    exact ⟨rfl, rfl⟩
  | cons c rest ih =>
    intro w w1 found h
    simp only [findClientIn] at h
    cases hp : hasRoomOpenPredicate answers sessionId roomId c w with
    | none => rw [hp] at h; cases h
    | some r =>
      obtain ⟨b, w2⟩ := r
      have hframe : w2.notifications = w.notifications ∧ w2.clients = w.clients := by
        unfold hasRoomOpenPredicate at hp
        split at hp
        · cases ha : awaitReply answers c "hasRoomOpen" (Payload.room sessionId roomId) w with
          | none => rw [ha] at hp; cases hp
          | some r2 =>
            obtain ⟨reply, w3⟩ := r2
            rw [ha] at hp
            simp only [Option.some.injEq, Prod.mk.injEq] at hp
            obtain ⟨_, rfl⟩ := hp
            exact awaitReply_frame _ _ _ _ _ _ _ ha
        · simp only [Option.some.injEq, Prod.mk.injEq] at hp
          obtain ⟨_, rfl⟩ := hp
          exact ⟨rfl, rfl⟩
      rw [hp] at h
      cases b with
      | true =>
        simp only [Option.some.injEq, Prod.mk.injEq] at h
        obtain ⟨_, rfl⟩ := h
        exact hframe
      | false =>
        simp only at h
        obtain ⟨a1, a2⟩ := ih w2 w1 found h
        exact ⟨a1.trans hframe.1, a2.trans hframe.2⟩

theorem roomOpenLoop_frame (answers : Nat → Option Payload)
    (sessionId roomId : Option String) (cs : List Client) :
    ∀ (w w1 : World) (b : Bool),
      roomOpenLoop answers sessionId roomId cs w = some (b, w1) →
      w1.notifications = w.notifications ∧ w1.clients = w.clients := by
  induction cs with
  | nil =>
    intro w w1 b h
    simp only [roomOpenLoop, Option.some.injEq, Prod.mk.injEq] at h
    obtain ⟨_, rfl⟩ := h
    exact ⟨rfl, rfl⟩
  | cons c rest ih =>
    intro w w1 b h
    simp only [roomOpenLoop] at h
    split at h
    · cases ha : awaitReply answers c "hasRoomOpen" (Payload.room sessionId roomId) w with
      | none => rw [ha] at h; cases h
      | some r2 =>
        obtain ⟨reply, w3⟩ := r2
        have hframe := awaitReply_frame _ _ _ _ _ _ _ ha
        rw [ha] at h
        simp only at h
        split at h
        · simp only [Option.some.injEq, Prod.mk.injEq] at h
          obtain ⟨_, rfl⟩ := h
          exact hframe
        · obtain ⟨a1, a2⟩ := ih w3 w1 b h
          exact ⟨a1.trans hframe.1, a2.trans hframe.2⟩
    · exact ih w w1 b h

theorem awaitReply_negative (answers : Nat → Option Payload)
    (hneg : ∀ id, ∃ p, answers id = some p ∧ p.truthy = false) (client : Client)
    (type : String) (payload : Payload) (w : World) :
    ∃ reply w1, awaitReply answers client type payload w = some (reply, w1) ∧
      reply.truthy = false := by
  unfold awaitReply
  obtain ⟨p, hp, hf⟩ := hneg (sendAndWaitForReply client type payload Resolver.caller w).1
  simp only [hp]
  exact ⟨p, _, rfl, hf⟩

theorem findClientIn_negative (answers : Nat → Option Payload)
    (hneg : ∀ id, ∃ p, answers id = some p ∧ p.truthy = false)
    (sessionId roomId : Option String) (cs : List Client) :
    ∀ w : World, ∃ w1,
      findClientIn (hasRoomOpenPredicate answers sessionId roomId) cs w = some (none, w1) := by
  induction cs with
  | nil => intro w; exact ⟨w, rfl⟩
  | cons c rest ih =>
    intro w
    have hp : ∃ w1, hasRoomOpenPredicate answers sessionId roomId c w = some (false, w1) := by
      unfold hasRoomOpenPredicate
      split
      · obtain ⟨reply, w1, h1, h2⟩ := awaitReply_negative answers hneg c "hasRoomOpen"
          (Payload.room sessionId roomId) w
        exact ⟨w1, by simp only [h1, h2]⟩
      · exact ⟨w, rfl⟩
    obtain ⟨w1, hw1⟩ := hp
    simp only [findClientIn, hw1]
    exact ih w1

theorem roomOpenLoop_negative (answers : Nat → Option Payload)
    (hneg : ∀ id, ∃ p, answers id = some p ∧ p.truthy = false)
    (sessionId roomId : Option String) (cs : List Client) :
    ∀ w : World, ∃ w1, roomOpenLoop answers sessionId roomId cs w = some (false, w1) := by
  induction cs with
  | nil => intro w; exact ⟨w, rfl⟩
  | cons c rest ih =>
    intro w
    simp only [roomOpenLoop]
    split
    · obtain ⟨reply, w1, h1, h2⟩ := awaitReply_negative answers hneg c "hasRoomOpen"
        (Payload.room sessionId roomId) w
      simp only [h1, h2]
      exact ih w1
    · exact ih w

/-- The displayed notifications after a new-message push that was not suppressed. -/
theorem handlePushNotification_newMessage_notifications (answers : Nat → Option Payload)
    (n : PushPayload) (w w' : World)
    (hrun : handlePushNotification answers n w = some (PushOutcome.newMessage, w')) :
    (truthyString (jsOr n.sender_display_name n.sender) = true ∧
      truthyString n.event_id = true) ∧
    w'.notifications =
      w.notifications.filter (fun x => decide (x.tag ≠ NOTIF_TAG_NEW_MESSAGE)) ++
        [newMessageNotification n] := by
  unfold handlePushNotification at hrun
  simp only at hrun
  split at hrun
  · rename_i hcond
    refine ⟨hcond, ?_⟩
    cases hf : findClient (hasRoomOpenPredicate answers n.session_id n.room_id) w with
    | none => rw [hf] at hrun; cases hrun
    | some r =>
      obtain ⟨found, w1⟩ := r
      rw [hf] at hrun
      have hframe1 := findClientIn_hasRoomOpen_frame _ _ _ _ _ _ _ hf
      cases found with
      | some c => simp at hrun
      | none =>
        simp only at hrun
        cases hl : roomOpenLoop answers n.session_id n.room_id w.clients w1 with
        | none => rw [hl] at hrun; cases hrun
        | some r2 =>
          obtain ⟨b, w2⟩ := r2
          rw [hl] at hrun
          have hframe2 := roomOpenLoop_frame _ _ _ _ _ _ _ hl
          cases b with
          | true => simp at hrun
          | false =>
            simp only [Option.some.injEq, Prod.mk.injEq, true_and] at hrun
            rw [← hrun]
            have htag : ¬ (NOTIF_TAG_NEW_MESSAGE = "") := by decide
            have htag2 : (newMessageNotification n).tag = NOTIF_TAG_NEW_MESSAGE := rfl
            simp only [showNotification, foldl_close, getNotifications, List.filter_filter,
              htag2, if_neg htag]
            rw [foldl_erase_filter]
            rw [hframe2.1, hframe1.1, List.filter_filter]
            congr 1
            apply List.filter_congr
            intro x _
            by_cases h1 : x.tag = NOTIF_TAG_NEW_MESSAGE <;>
              by_cases h2 : x.data.roomId = n.room_id <;>
              simp [h1, h2, newMessageNotification]
  · split at hrun
    · cases hf : findClient
          (fun client w => some (decide (client.visibilityState = "visible"), w))
          (List.foldl (fun w notif =>
            if notif.tag ≠ NOTIF_TAG_MESSAGES_READ then closeNotification notif w else w) w
            (getNotifications none w)) with
      | none => rw [hf] at hrun; cases hrun
      | some r =>
        obtain ⟨found, w2⟩ := r
        rw [hf] at hrun
        simp only at hrun
        split at hrun
        · split at hrun <;> simp at hrun
        · simp at hrun
    · simp at hrun

/-- C9 (as amended): after a new-message push for room `r` that is not suppressed, exactly
one notification tagged `new_message` is displayed, the new one, which carries
`{sessionId, roomId: r}`; so it is the only displayed `new_message` notification for `r`,
and no `new_message` notification displayed before is still displayed, whether for `r` (the
handler closed those) or for another room (the new notification has their tag and takes
their place). The notifications with other tags are as before. Hence after two consecutive
pushes for the same room exactly one `new_message` notification for it is displayed. A push
with a sender and an event id whose `hasRoomOpen` queries are all answered negatively is
not suppressed. -/
theorem handlePushNotification_new_message (answers : Nat → Option Payload) (n : PushPayload)
    (w : World) :
    (∀ w' : World, handlePushNotification answers n w = some (PushOutcome.newMessage, w') →
      (truthyString (jsOr n.sender_display_name n.sender) = true ∧
        truthyString n.event_id = true) ∧
      w'.notifications.filter (fun x => decide (x.tag = NOTIF_TAG_NEW_MESSAGE)) =
        [newMessageNotification n] ∧
      w'.notifications.filter (fun x =>
          decide (x.tag = NOTIF_TAG_NEW_MESSAGE) && decide (x.data.roomId = n.room_id)) =
        [newMessageNotification n] ∧
      (newMessageNotification n).tag = NOTIF_TAG_NEW_MESSAGE ∧
      (newMessageNotification n).data = { sessionId := n.session_id, roomId := n.room_id } ∧
      w'.notifications.filter (fun x => decide (x.tag ≠ NOTIF_TAG_NEW_MESSAGE)) =
        w.notifications.filter (fun x => decide (x.tag ≠ NOTIF_TAG_NEW_MESSAGE)) ∧
      (∀ (answers2 : Nat → Option Payload) (n2 : PushPayload) (w'' : World),
        n2.room_id = n.room_id →
        handlePushNotification answers2 n2 w' = some (PushOutcome.newMessage, w'') →
        w''.notifications.filter (fun x =>
            decide (x.tag = NOTIF_TAG_NEW_MESSAGE) && decide (x.data.roomId = n.room_id)) =
          [newMessageNotification n2])) ∧
    (truthyString (jsOr n.sender_display_name n.sender) = true →
      truthyString n.event_id = true →
      (∀ id, ∃ p, answers id = some p ∧ p.truthy = false) →
      ∃ w', handlePushNotification answers n w = some (PushOutcome.newMessage, w')) := by
  have hnone : ∀ (v : World) (q : Notification → Bool),
      (v.notifications.filter (fun x => decide (x.tag ≠ NOTIF_TAG_NEW_MESSAGE))).filter
        (fun x => decide (x.tag = NOTIF_TAG_NEW_MESSAGE) && q x) = [] := by
    intro v q
    rw [List.filter_filter]
    apply List.filter_eq_nil_iff.2
    intro x _
    by_cases h1 : x.tag = NOTIF_TAG_NEW_MESSAGE <;> simp [h1]
  have honly : ∀ (a : Nat → Option Payload) (m : PushPayload) (v v' : World),
      handlePushNotification a m v = some (PushOutcome.newMessage, v') →
      v'.notifications.filter (fun x =>
          decide (x.tag = NOTIF_TAG_NEW_MESSAGE) && decide (x.data.roomId = m.room_id)) =
        [newMessageNotification m] := by
    intro a m v v' h
    rw [(handlePushNotification_newMessage_notifications a m v v' h).2]
    rw [List.filter_append, hnone v (fun x => decide (x.data.roomId = m.room_id))]
    simp [newMessageNotification, List.filter]
  constructor
  · intro w' hrun
    obtain ⟨hc, heq⟩ := handlePushNotification_newMessage_notifications answers n w w' hrun
    refine ⟨hc, ?_, honly answers n w w' hrun, rfl, rfl, ?_, ?_⟩
    · rw [heq, List.filter_append]
      have := hnone w (fun _ => true)
      simp only [Bool.and_true] at this
      rw [this]
      simp [newMessageNotification, List.filter]
    · rw [heq, List.filter_append, List.filter_filter]
      have h2 : [newMessageNotification n].filter
          (fun x => decide (x.tag ≠ NOTIF_TAG_NEW_MESSAGE)) = [] := by
        simp [newMessageNotification, List.filter]
      rw [h2, List.append_nil]
      apply List.filter_congr
      intro x _
      simp
    · intro answers2 n2 w'' hroom hrun2
      rw [← hroom]
      exact honly answers2 n2 w' w'' hrun2
  · intro hs he hneg
    unfold handlePushNotification
    simp only [hs, he, and_self, if_true]
    obtain ⟨w1, h1⟩ := findClientIn_negative answers hneg n.session_id n.room_id w.clients w
    unfold findClient
    rw [h1]
    simp only
    obtain ⟨w2, h2⟩ := roomOpenLoop_negative answers hneg n.session_id n.room_id w.clients w1
    rw [h2]
    exact ⟨_, rfl⟩

/-- Witness for C9 (as amended): with a notification of room `!r2` and a notification tagged
`messages_read` on display, push A for room `!r1` leaves its own notification as the only
one tagged `new_message` and the `messages_read` notification where it was; push B for
`!r1` then leaves exactly one notification for `!r1`. -/
theorem handlePushNotification_new_message_witness :
    afterPushA.notifications.filter (fun x => decide (x.tag = NOTIF_TAG_NEW_MESSAGE)) =
      [newMessageNotification pushA] ∧
    afterPushA.notifications.filter (fun x => decide (x.tag ≠ NOTIF_TAG_NEW_MESSAGE)) =
      [notifRead] ∧
    afterPushB.notifications.filter (fun x =>
        decide (x.tag = NOTIF_TAG_NEW_MESSAGE) && decide (x.data.roomId = some "!r1")) =
      [newMessageNotification pushB] :=
  ⟨((handlePushNotification_new_message noRoomOpen pushA hiddenWithNotifs).1 afterPushA
      (by decide)).2.1,
   ((handlePushNotification_new_message noRoomOpen pushA hiddenWithNotifs).1 afterPushA
      (by decide)).2.2.2.2.2.1,
   ((handlePushNotification_new_message noRoomOpen pushA hiddenWithNotifs).1 afterPushA
      (by decide)).2.2.2.2.2.2 noRoomOpen pushB afterPushB rfl (by decide)⟩

/-- Counterexample to C9 as stated: the notification of room `!r2` is displayed, no window is
visible, and push A for room `!r1` arrives. The handler closes nothing, since no displayed
notification is for `!r1`, and shows the notification of push A under the tag
`new_message`, which the notification of `!r2` has too: afterwards the notification of the
other room is no longer displayed. -/
theorem handlePushNotification_other_room_replaced :
    notifBob ∈ hiddenClients.notifications ∧
    notifBob.tag = NOTIF_TAG_NEW_MESSAGE ∧
    notifBob.data.roomId = some "!r2" ∧ pushA.room_id = some "!r1" ∧
    handlePushNotification noRoomOpen pushA hiddenClients =
      some (PushOutcome.newMessage,
        { hiddenClients with notifications := [newMessageNotification pushA] }) ∧
    notifBob ∉ [newMessageNotification pushA] := by
  refine ⟨by decide, by decide, by decide, by decide, by decide, by decide⟩

theorem findClientIn_none_visible (cs : List Client) (w : World)
    (h : ∀ c ∈ cs, c.visibilityState ≠ "visible") :
    findClientIn (fun client w => some (decide (client.visibilityState = "visible"), w)) cs w =
      some (none, w) := by
  induction cs with
  | nil => rfl
  | cons c rest ih =>
    have hc : decide (c.visibilityState = "visible") = false := by
      simpa using h c (List.mem_cons_self _ _)
    simp only [findClientIn, hc]
    exact ih (fun c' hc' => h c' (List.mem_cons_of_mem _ hc'))

/-- C10: a read-sync push (no sender or no event id, `unread` 0) handled while no window
client is visible and no notification tagged `messages_read` is displayed closes every
displayed notification and shows exactly one notification, tagged `messages_read` with data
`{sessionId}`; handling the same push again in the resulting state changes nothing. -/
theorem handlePushNotification_read_sync (answers : Nat → Option Payload) (n : PushPayload)
    (w : World)
    (hnew : ¬ (truthyString (jsOr n.sender_display_name n.sender) = true ∧
      truthyString n.event_id = true))
    (hunread : n.unread = some 0)
    (hhidden : ∀ c ∈ w.clients, c.visibilityState ≠ "visible")
    (hnone : ∀ x ∈ w.notifications, x.tag ≠ NOTIF_TAG_MESSAGES_READ) :
    handlePushNotification answers n w =
      some (PushOutcome.readSync, { w with notifications :=
        [{ title := "New messages that have since been read", body := none,
           tag := NOTIF_TAG_MESSAGES_READ, data := { sessionId := n.session_id } }] }) ∧
    (∀ answers2 : Nat → Option Payload,
      handlePushNotification answers2 n { w with notifications :=
        [{ title := "New messages that have since been read", body := none,
           tag := NOTIF_TAG_MESSAGES_READ, data := { sessionId := n.session_id } }] } =
      some (PushOutcome.readSync, { w with notifications :=
        [{ title := "New messages that have since been read", body := none,
           tag := NOTIF_TAG_MESSAGES_READ, data := { sessionId := n.session_id } }] })) := by
  have hfilter1 : w.notifications.filter
      (fun notif => decide (notif.tag ≠ NOTIF_TAG_MESSAGES_READ)) = w.notifications := by
    apply List.filter_eq_self.2
    intro x hx
    simpa using hnone x hx
  have hfilter2 : w.notifications.filter
      (fun x => !decide (x.tag ≠ NOTIF_TAG_MESSAGES_READ)) = [] := by
    apply List.filter_eq_nil_iff.2
    intro x hx
    simpa using hnone x hx
  constructor
  · unfold handlePushNotification
    simp only [hnew, if_false, hunread, if_true]
    have hfold := foldl_close_if (fun notif => decide (notif.tag ≠ NOTIF_TAG_MESSAGES_READ))
      (getNotifications none w) w
    simp only [decide_eq_true_eq] at hfold
    rw [hfold]
    simp only [getNotifications, foldl_erase_filter, hfilter2]
    unfold findClient
    rw [findClientIn_none_visible _ _ hhidden]
    simp [showNotification]
  · intro answers2
    unfold handlePushNotification
    simp only [hnew, if_false, hunread, if_true]
    have hfold := foldl_close_if (fun notif => decide (notif.tag ≠ NOTIF_TAG_MESSAGES_READ))
      (getNotifications none { w with notifications :=
        [{ title := "New messages that have since been read", body := none,
           tag := NOTIF_TAG_MESSAGES_READ, data := { sessionId := n.session_id } }] })
      { w with notifications :=
        [{ title := "New messages that have since been read", body := none,
           tag := NOTIF_TAG_MESSAGES_READ, data := { sessionId := n.session_id } }] }
    simp only [decide_eq_true_eq] at hfold
    rw [hfold]
    simp only [getNotifications, foldl_erase_filter]
    unfold findClient
    rw [findClientIn_none_visible _ _ hhidden]
    simp [List.filter]

/-- Witness for C10: with two hidden windows and no "messages read" notification on display,
the read-sync push leaves exactly the "messages read" notification, and so does a second
one. -/
theorem handlePushNotification_read_sync_witness :
    handlePushNotification noRoomOpen pushRead hiddenClients =
      some (PushOutcome.readSync, { hiddenClients with notifications := [notifRead] }) ∧
    handlePushNotification noRoomOpen pushRead
        { hiddenClients with notifications := [notifRead] } =
      some (PushOutcome.readSync, { hiddenClients with notifications := [notifRead] }) :=
  have h := handlePushNotification_read_sync noRoomOpen pushRead hiddenClients (by decide) rfl
    (by decide) (by decide)
  ⟨h.1, h.2 noRoomOpen⟩

/-! ## Push notifications: asking the focused windows -/

theorem awaitReply_spec (answers : Nat → Option Payload) (client : Client) (type : String)
    (payload : Payload) (w w1 : World) (reply : Payload)
    (h : awaitReply answers client type payload w = some (reply, w1)) :
    answers (w.messageIdCounter + 1) = some reply ∧
    w1.posted = w.posted ++
      [(client.id, OutMessage.request type (w.messageIdCounter + 1) payload)] ∧
    w1.messageIdCounter = w.messageIdCounter + 1 ∧
    w1.notifications = w.notifications ∧ w1.clients = w.clients ∧
    w1.aborted = w.aborted ∧ w1.caches = w.caches := by
  unfold awaitReply sendAndWaitForReply at h
  simp only at h
  split at h
  · cases h
  · rename_i r hr
    simp only [Option.some.injEq, Prod.mk.injEq] at h
    obtain ⟨rfl, rfl⟩ := h
    exact ⟨hr, rfl, rfl, rfl, rfl, rfl, rfl⟩

theorem RoomQueries.cons {answers : Nat → Option Payload} {sessionId roomId : Option String}
    {c : Client} {cs : List Client} {extra : List (String × OutMessage)}
    (h : RoomQueries answers sessionId roomId cs extra) :
    RoomQueries answers sessionId roomId (c :: cs) extra := by
  intro x hx
  obtain ⟨d, hd, rest⟩ := h x hx
  exact ⟨d, List.mem_cons_of_mem _ hd, rest⟩

/-- The first scan: what it posts and when it finds a client. -/
theorem findClientIn_hasRoomOpen_spec (answers : Nat → Option Payload)
    (sessionId roomId : Option String) (cs : List Client) :
    ∀ (w w1 : World) (found : Option Client),
      findClientIn (hasRoomOpenPredicate answers sessionId roomId) cs w = some (found, w1) →
      ∃ extra, w1.posted = w.posted ++ extra ∧
        RoomQueries answers sessionId roomId cs extra ∧
        found.isSome = extra.any (affirmed answers) ∧
        w1.messageIdCounter = w.messageIdCounter + extra.length := by
  induction cs with
  | nil =>
    intro w w1 found h
    simp only [findClientIn, Option.some.injEq, Prod.mk.injEq] at h
    obtain ⟨rfl, rfl⟩ := h
    refine ⟨[], by simp, ?_, rfl, rfl⟩
    intro x hx
    simp at hx
  | cons c rest ih =>
    intro w w1 found h
    simp only [findClientIn, hasRoomOpenPredicate] at h
    by_cases hvf : c.visibilityState = "visible" ∧ c.focused = true
    · simp only [hvf, and_self, if_true] at h
      cases ha : awaitReply answers c "hasRoomOpen" (Payload.room sessionId roomId) w with
      | none => rw [ha] at h; cases h
      | some r =>
        obtain ⟨reply, w2⟩ := r
        obtain ⟨hans, hposted, hcount, _⟩ := awaitReply_spec _ _ _ _ _ _ _ ha
        rw [ha] at h
        simp only at h
        have hq : RoomQueries answers sessionId roomId (c :: rest)
            [(c.id, OutMessage.request "hasRoomOpen" (w.messageIdCounter + 1)
              (Payload.room sessionId roomId))] := by
          intro x hx
          simp only [List.mem_singleton] at hx
          exact ⟨c, List.mem_cons_self _ _, hvf, _, reply, hx, hans⟩
        cases ht : reply.truthy with
        | true =>
          rw [ht] at h
          simp only [Option.some.injEq, Prod.mk.injEq] at h
          obtain ⟨rfl, rfl⟩ := h
          refine ⟨_, hposted, hq, ?_, by simp [hcount]⟩
          simp [affirmed, hans, ht]
        | false =>
          rw [ht] at h
          simp only at h
          obtain ⟨extra, e1, e2, e3, e4⟩ := ih w2 w1 found h
          refine ⟨(c.id, OutMessage.request "hasRoomOpen" (w.messageIdCounter + 1)
            (Payload.room sessionId roomId)) :: extra, ?_, ?_, ?_, ?_⟩
          · rw [e1, hposted]; simp
          · intro x hx
            rcases List.mem_cons.1 hx with hx | hx
            · exact hq x (by simp [hx])
            · exact e2.cons x hx
          · rw [e3]; simp [affirmed, hans, ht]
          · rw [e4, hcount]; simp; omega
    · simp only [hvf, if_false] at h
      obtain ⟨extra, e1, e2, e3, e4⟩ := ih w w1 found h
      exact ⟨extra, e1, e2.cons, e3, e4⟩

/-- The `for` loop asks as `findClient` does. -/
theorem roomOpenLoop_eq_findClientIn (answers : Nat → Option Payload)
    (sessionId roomId : Option String) (cs : List Client) :
    ∀ w : World, roomOpenLoop answers sessionId roomId cs w =
      (findClientIn (hasRoomOpenPredicate answers sessionId roomId) cs w).map
        (fun r => (r.1.isSome, r.2)) := by
  induction cs with
  | nil => intro w; rfl
  | cons c rest ih =>
    intro w
    simp only [roomOpenLoop, findClientIn, hasRoomOpenPredicate]
    by_cases hvf : c.visibilityState = "visible" ∧ c.focused = true
    · simp only [hvf, and_self, if_true]
      cases ha : awaitReply answers c "hasRoomOpen" (Payload.room sessionId roomId) w with
      | none => rfl
      | some r =>
        obtain ⟨reply, w2⟩ := r
        simp only
        cases ht : reply.truthy with
        | true => simp
        | false => simp [ih]
    · simp only [hvf, if_false]
      exact ih w

theorem roomOpenLoop_spec (answers : Nat → Option Payload)
    (sessionId roomId : Option String) (cs : List Client) (w w1 : World) (b : Bool)
    (h : roomOpenLoop answers sessionId roomId cs w = some (b, w1)) :
    ∃ extra, w1.posted = w.posted ++ extra ∧
      RoomQueries answers sessionId roomId cs extra ∧
      b = extra.any (affirmed answers) ∧
      w1.messageIdCounter = w.messageIdCounter + extra.length := by
  rw [roomOpenLoop_eq_findClientIn] at h
  cases hf : findClientIn (hasRoomOpenPredicate answers sessionId roomId) cs w with
  | none => rw [hf] at h; cases h
  | some r =>
    obtain ⟨found, w2⟩ := r
    rw [hf] at h
    simp only [Option.map_some', Option.some.injEq, Prod.mk.injEq] at h
    obtain ⟨rfl, rfl⟩ := h
    exact findClientIn_hasRoomOpen_spec _ _ _ _ _ _ _ hf

theorem findClientIn_answered (answers : Nat → Option Payload) (hall : ∀ id, answers id ≠ none)
    (sessionId roomId : Option String) (cs : List Client) :
    ∀ w : World, ∃ r,
      findClientIn (hasRoomOpenPredicate answers sessionId roomId) cs w = some r := by
  induction cs with
  | nil => intro w; exact ⟨_, rfl⟩
  | cons c rest ih =>
    intro w
    have hp : ∃ b w1, hasRoomOpenPredicate answers sessionId roomId c w = some (b, w1) := by
      unfold hasRoomOpenPredicate
      split
      · have ha : ∃ reply w1, awaitReply answers c "hasRoomOpen"
            (Payload.room sessionId roomId) w = some (reply, w1) := by
          unfold awaitReply
          simp only
          cases ha : answers (sendAndWaitForReply c "hasRoomOpen"
              (Payload.room sessionId roomId) Resolver.caller w).1 with
          | none => exact absurd ha (hall _)
          | some reply => exact ⟨_, _, rfl⟩
        obtain ⟨reply, w1, ha⟩ := ha
        rw [ha]
        exact ⟨_, _, rfl⟩
      · exact ⟨_, _, rfl⟩
    obtain ⟨b, w1, hb⟩ := hp
    simp only [findClientIn, hb]
    cases b with
    | true => exact ⟨_, rfl⟩
    | false => exact ih w1

theorem findClientIn_none_focused (answers : Nat → Option Payload)
    (sessionId roomId : Option String) (cs : List Client) (w : World)
    (h : ∀ c ∈ cs, ¬ (c.visibilityState = "visible" ∧ c.focused = true)) :
    findClientIn (hasRoomOpenPredicate answers sessionId roomId) cs w = some (none, w) := by
  induction cs with
  | nil => rfl
  | cons c rest ih =>
    have hc := h c (List.mem_cons_self _ _)
    simp only [findClientIn, hasRoomOpenPredicate, hc, if_false]
    exact ih (fun d hd => h d (List.mem_cons_of_mem _ hd))

/-- A silent client: the scan never ends when the first visible and focused client does not
reply. -/
theorem findClientIn_silent (answers : Nat → Option Payload)
    (sessionId roomId : Option String) (cs : List Client) (w : World)
    (hvf : ∃ c ∈ cs, c.visibilityState = "visible" ∧ c.focused = true)
    (hsilent : answers (w.messageIdCounter + 1) = none) :
    findClientIn (hasRoomOpenPredicate answers sessionId roomId) cs w = none := by
  induction cs with
  | nil => obtain ⟨c, hc, _⟩ := hvf; cases hc
  | cons c rest ih =>
    by_cases hc : c.visibilityState = "visible" ∧ c.focused = true
    · simp only [findClientIn, hasRoomOpenPredicate, hc, and_self, if_true, awaitReply,
        sendAndWaitForReply, hsilent]
    · simp only [findClientIn, hasRoomOpenPredicate, hc, if_false]
      apply ih
      obtain ⟨d, hd, hdv⟩ := hvf
      rcases List.mem_cons.1 hd with h | h
      · subst h; exact absurd hdv hc
      · exact ⟨d, h, hdv⟩

/-- C11: in a run of `handlePushNotification` for a new message, every message posted is a
`hasRoomOpen` query `{sessionId, roomId}` to a client that is visible and focused; when one
of the replies is affirmative the run ends without showing or closing a notification (the
displayed notifications are as before), and when all the replies are negative the new-message
notification is shown. The run ends whenever every query is replied to; with no visible and
focused client it shows the notification without posting anything; and while the first
visible and focused client has not replied it does not end. -/
theorem handlePushNotification_asks_focused (answers : Nat → Option Payload)
    (n : PushPayload) (w : World)
    (hsender : truthyString (jsOr n.sender_display_name n.sender) = true)
    (hevent : truthyString n.event_id = true) :
    (∀ (o : PushOutcome) (w' : World), handlePushNotification answers n w = some (o, w') →
      ∃ extra, w'.posted = w.posted ++ extra ∧
        RoomQueries answers n.session_id n.room_id w.clients extra ∧
        (extra.any (affirmed answers) = true →
          o = PushOutcome.suppressed ∧ w'.notifications = w.notifications) ∧
        (extra.any (affirmed answers) = false →
          o = PushOutcome.newMessage ∧ newMessageNotification n ∈ w'.notifications)) ∧
    ((∀ id, answers id ≠ none) → ∃ o w', handlePushNotification answers n w = some (o, w')) ∧
    ((∀ c ∈ w.clients, ¬ (c.visibilityState = "visible" ∧ c.focused = true)) →
      ∃ w', handlePushNotification answers n w = some (PushOutcome.newMessage, w') ∧
        w'.posted = w.posted ∧ newMessageNotification n ∈ w'.notifications) ∧
    ((∃ c ∈ w.clients, c.visibilityState = "visible" ∧ c.focused = true) →
      answers (w.messageIdCounter + 1) = none →
      handlePushNotification answers n w = none) := by
  refine ⟨?_, ?_, ?_, ?_⟩
  · intro o w' hrun
    unfold handlePushNotification at hrun
    simp only [hsender, hevent, and_self, if_true] at hrun
    cases hf : findClient (hasRoomOpenPredicate answers n.session_id n.room_id) w with
    | none => rw [hf] at hrun; cases hrun
    | some r =>
      obtain ⟨found, w1⟩ := r
      rw [hf] at hrun
      obtain ⟨extra1, p1, q1, a1, _⟩ := findClientIn_hasRoomOpen_spec _ _ _ _ _ _ _ hf
      have hframe1 := findClientIn_hasRoomOpen_frame _ _ _ _ _ _ _ hf
      cases found with
      | some c =>
        simp only [Option.some.injEq, Prod.mk.injEq] at hrun
        obtain ⟨rfl, rfl⟩ := hrun
        refine ⟨extra1, p1, q1, fun _ => ⟨rfl, hframe1.1⟩, ?_⟩
        intro hfalse
        rw [← a1] at hfalse
        cases hfalse
      | none =>
        simp only at hrun
        cases hl : roomOpenLoop answers n.session_id n.room_id w.clients w1 with
        | none => rw [hl] at hrun; cases hrun
        | some r2 =>
          obtain ⟨b, w2⟩ := r2
          rw [hl] at hrun
          obtain ⟨extra2, p2, q2, a2, _⟩ := roomOpenLoop_spec _ _ _ _ _ _ _ hl
          have hframe2 := roomOpenLoop_frame _ _ _ _ _ _ _ hl
          have hq : RoomQueries answers n.session_id n.room_id w.clients (extra1 ++ extra2) := by
            intro x hx
            rcases List.mem_append.1 hx with hx | hx
            · exact q1 x hx
            · exact q2 x hx
          have hany : (extra1 ++ extra2).any (affirmed answers) = b := by
            rw [List.any_append, ← a1, ← a2]; rfl
          cases b with
          | true =>
            simp only [Option.some.injEq, Prod.mk.injEq] at hrun
            obtain ⟨rfl, rfl⟩ := hrun
            refine ⟨extra1 ++ extra2, by rw [p2, p1, List.append_assoc], hq,
              fun _ => ⟨rfl, hframe2.1.trans hframe1.1⟩, ?_⟩
            intro hfalse
            rw [hany] at hfalse
            cases hfalse
          | false =>
            simp only [Option.some.injEq, Prod.mk.injEq] at hrun
            obtain ⟨rfl, rfl⟩ := hrun
            refine ⟨extra1 ++ extra2, ?_, hq, ?_, ?_⟩
            · simp only [showNotification, foldl_close]
              rw [p2, p1, List.append_assoc]
            · intro htrue
              rw [hany] at htrue
              cases htrue
            · intro _
              refine ⟨rfl, ?_⟩
              simp [showNotification, newMessageNotification]
  · intro hall
    unfold handlePushNotification
    simp only [hsender, hevent, and_self, if_true]
    obtain ⟨r, hr⟩ := findClientIn_answered answers hall n.session_id n.room_id w.clients w
    unfold findClient
    rw [hr]
    obtain ⟨found, w1⟩ := r
    cases found with
    | some c => exact ⟨_, _, rfl⟩
    | none =>
      simp only
      obtain ⟨r2, hr2⟩ := findClientIn_answered answers hall n.session_id n.room_id w.clients w1
      rw [roomOpenLoop_eq_findClientIn, hr2]
      obtain ⟨found2, w2⟩ := r2
      cases found2 with
      | some c => exact ⟨_, _, rfl⟩
      | none => exact ⟨_, _, rfl⟩
  · intro hnone
    unfold handlePushNotification
    simp only [hsender, hevent, and_self, if_true]
    unfold findClient
    rw [findClientIn_none_focused _ _ _ _ _ hnone]
    simp only
    rw [roomOpenLoop_eq_findClientIn, findClientIn_none_focused _ _ _ _ _ hnone]
    refine ⟨_, rfl, ?_, ?_⟩
    · simp only [showNotification, foldl_close]
    · simp [showNotification, newMessageNotification]
  · intro hvf hsilent
    unfold handlePushNotification
    simp only [hsender, hevent, and_self, if_true]
    unfold findClient
    rw [findClientIn_silent _ _ _ _ _ hvf hsilent]

/-- Witness for C11: with the window C1 visible and focused, an affirmative reply leaves the
displayed notifications as they were, and a reply that never comes leaves the handler
pending. -/
theorem handlePushNotification_asks_focused_witness :
    afterAffirmed.notifications = threeClients.notifications ∧
    afterAffirmed.posted =
      [("C1", OutMessage.request "hasRoomOpen" 1 (Payload.room (some "s1") (some "!r1")))] ∧
    handlePushNotification noAnswer pushA threeClients = none := by
  have h := handlePushNotification_asks_focused roomOpen pushA threeClients (by decide)
    (by decide)
  have h2 := handlePushNotification_asks_focused noAnswer pushA threeClients (by decide)
    (by decide)
  obtain ⟨extra, hp, _, ha, _⟩ := h.1 PushOutcome.suppressed afterAffirmed (by decide)
  have hex : extra = afterAffirmed.posted := by
    rw [hp]; rfl
  subst hex
  exact ⟨(ha (by decide)).2, rfl, h2.2.2.2 ⟨clientC1, by decide, by decide⟩ rfl⟩

/-! ## `readCache`: cached thumbnails -/

theorem Cache.matchRequest_delete (c : Cache) (request : Request) :
    (c.delete request).matchRequest request = none := by
  unfold Cache.delete
  induction c with
  | nil => rfl
  | cons e t ih =>
    obtain ⟨k, r⟩ := e
    by_cases hk : k.url = request.url
    · simpa [List.filter, hk] using ih
    · simpa [List.filter, hk, Cache.matchRequest] using ih

theorem updateCache_frame (P : Platform) (cfg : Config) (request : Request)
    (response : Response) (w : World) :
    (updateCache P cfg request response w).fetched = w.fetched ∧
    (updateCache P cfg request response w).aborted = w.aborted ∧
    (updateCache P cfg request response w).consoleErrors = w.consoleErrors := by
  unfold updateCache
  simp only
  split
  · exact ⟨rfl, rfl, rfl⟩
  · split
    · exact ⟨rfl, rfl, rfl⟩
    · split
      · split <;> exact ⟨rfl, rfl, rfl⟩
      · exact ⟨rfl, rfl, rfl⟩

theorem readCache_frame (P : Platform) (cfg : Config) (request : Request) (w : World) :
    (readCache P cfg request w).2.fetched = w.fetched ∧
    (readCache P cfg request w).2.aborted = w.aborted ∧
    (readCache P cfg request w).2.consoleErrors = w.consoleErrors := by
  unfold readCache
  simp only
  split
  · exact ⟨rfl, rfl, rfl⟩
  · split
    · exact ⟨rfl, rfl, rfl⟩
    · split
      · split
        · split <;> exact ⟨rfl, rfl, rfl⟩
        · exact ⟨rfl, rfl, rfl⟩
      · exact ⟨rfl, rfl, rfl⟩

/-- A `handleRequest` whose cache lookup misses, the controller not being aborted, fetches the
looked-up request once, with the options chosen on the incoming URL. -/
theorem handleRequest_miss_fetches (P : Platform) (cfg : Config) (net : Network)
    (request : Request) (w : World)
    (hmiss : (readCache P cfg (rewriteRequest P cfg request) w).1 = none)
    (hab : w.aborted = false) :
    (handleRequest P cfg net request w).2.fetched =
      w.fetched ++ [(rewriteRequest P cfg request, fetchInitFor (P.newURL request.url none))] := by
  have hf := readCache_frame P cfg (rewriteRequest P cfg request) w
  unfold handleRequest handleRequestTry
  simp only
  cases hr : readCache P cfg (rewriteRequest P cfg request) w with
  | mk o wr =>
    rw [hr] at hmiss hf
    simp only at hmiss hf
    subst hmiss
    simp only [fetch, hf.2.1, hab, Bool.false_eq_true, if_false]
    cases hn : net (rewriteRequest P cfg request) (fetchInitFor (P.newURL request.url none)) with
    | error e =>
      simp only
      split <;> simp only [hf.1]
    | ok r =>
      simp only
      rw [(updateCache_frame P cfg _ r _).1, hf.1]

/-- C12: for a request that is in neither the unhashed nor the hashed cache and whose URL is
a cacheable thumbnail, `readCache` finds the entry of the media-thumbnail cache: when its
status is 400 or more the entry is deleted from that cache, the other caches keep their
entries, `readCache` returns nothing and `handleRequest` (the controller not being aborted)
fetches the request from the network; when its status is below 400 it is returned and every
cache keeps its entries. -/
theorem readCache_thumbnail (P : Platform) (cfg : Config) (request : Request) (w : World)
    (response : Response)
    (hun : (w.caches.get (unhashedCacheName cfg)).matchRequest request = none)
    (hh : (w.caches.get hashedCacheName).matchRequest request = none)
    (ht : isCacheableThumbnail (P.newURL request.url none) = true)
    (hm : (w.caches.get mediaThumbnailCacheName).matchRequest request = some response) :
    (400 ≤ response.status →
      (readCache P cfg request w).1 = none ∧
      (readCache P cfg request w).2.caches.get mediaThumbnailCacheName =
        (w.caches.get mediaThumbnailCacheName).delete request ∧
      ((readCache P cfg request w).2.caches.get mediaThumbnailCacheName).matchRequest request
        = none ∧
      (∀ name, name ≠ mediaThumbnailCacheName →
        (readCache P cfg request w).2.caches.get name = w.caches.get name) ∧
      (∀ net : Network, w.aborted = false → rewriteRequest P cfg request = request →
        (handleRequest P cfg net request w).2.fetched =
          w.fetched ++ [(request, { mode := some "cors", credentials := some "omit" })])) ∧
    (response.status < 400 →
      (readCache P cfg request w).1 = some response ∧
      (∀ name, (readCache P cfg request w).2.caches.get name = w.caches.get name)) := by
  constructor
  · intro hge
    have h1 : (readCache P cfg request w).1 = none := by
      unfold readCache
      simp only [CacheStorage.get_openCache, hun, hh, ht, if_true, hm]
      simp [hge]
    have hget : ∀ name, (readCache P cfg request w).2.caches.get name =
        if name = mediaThumbnailCacheName then (w.caches.get name).delete request
        else w.caches.get name := by
      intro name
      unfold readCache
      simp only [CacheStorage.get_openCache, hun, hh, ht, if_true, hm]
      simp only [ge_iff_le, hge, if_true]
      rw [CacheStorage.get_update _ _ _ _ (CacheStorage.has_openCache _ _)]
      simp only [CacheStorage.get_openCache]
    refine ⟨h1, ?_, ?_, ?_, ?_⟩
    · rw [hget]; simp
    · rw [hget]; simp only [if_true]
      exact Cache.matchRequest_delete _ _
    · intro name hne
      rw [hget]; simp [hne]
    · intro net hab hrw
      have h := handleRequest_miss_fetches P cfg net request w (by rw [hrw]; exact h1) hab
      rw [h, hrw]
      simp [fetchInitFor, ht]
  · intro hlt
    have hge : ¬ response.status ≥ 400 := by omega
    refine ⟨?_, ?_⟩
    · unfold readCache
      simp only [CacheStorage.get_openCache, hun, hh, ht, if_true, hm]
      simp [hge]
    · intro name
      unfold readCache
      simp only [CacheStorage.get_openCache, hun, hh, ht, if_true, hm]
      simp only [hge, if_false]
      simp only [CacheStorage.get_openCache]
theorem readCache_thumbnail_witness :
    ((readCache samplePlatform sampleConfig thumbRequest staleThumbWorld).1 = none ∧
      (readCache samplePlatform sampleConfig thumbRequest staleThumbWorld).2.caches.get
        mediaThumbnailCacheName = []) ∧
    (readCache samplePlatform sampleConfig thumbRequest freshThumbWorld).1 = some pngResponse :=
  ⟨⟨((readCache_thumbnail samplePlatform sampleConfig thumbRequest staleThumbWorld goneResponse
        (by decide) (by decide) (by decide) (by decide)).1 (by decide)).1,
     ((readCache_thumbnail samplePlatform sampleConfig thumbRequest staleThumbWorld goneResponse
        (by decide) (by decide) (by decide) (by decide)).1 (by decide)).2.1⟩,
   ((readCache_thumbnail samplePlatform sampleConfig thumbRequest freshThumbWorld pngResponse
        (by decide) (by decide) (by decide) (by decide)).2 (by decide)).1⟩

/-! ## Installation -/

theorem Cache.matchRequest_append (c d : Cache) (r : Request) :
    Cache.matchRequest (c ++ d) r =
      match c.matchRequest r with
      | some x => some x
      | none => d.matchRequest r := by
  induction c with
  | nil => rfl
  | cons e t ih =>
    obtain ⟨k, v⟩ := e
    by_cases hk : k.url = r.url
    · simp [Cache.matchRequest, hk]
    · simpa [Cache.matchRequest, hk] using ih

theorem Cache.matchRequest_delete_ne (c : Cache) (request r : Request)
    (h : request.url ≠ r.url) : (c.delete request).matchRequest r = c.matchRequest r := by
  unfold Cache.delete
  induction c with
  | nil => rfl
  | cons e t ih =>
    obtain ⟨k, v⟩ := e
    by_cases hk : k.url = request.url
    · have hkr : ¬ k.url = r.url := fun hh => h (hk ▸ hh)
      rw [List.filter_cons_of_neg (by simp [hk])]
      rw [ih]
      simp only [Cache.matchRequest, if_neg hkr]
    · rw [List.filter_cons_of_pos (by simp [hk])]
      by_cases hkr : k.url = r.url
      · simp only [Cache.matchRequest, if_pos hkr]
      · simp only [Cache.matchRequest, if_neg hkr]
        exact ih

theorem Cache.matchRequest_put_ne (c : Cache) (request r : Request) (response : Response)
    (h : request.url ≠ r.url) : (c.put request response).matchRequest r = c.matchRequest r := by
  unfold Cache.put
  rw [Cache.matchRequest_append, Cache.matchRequest_delete_ne c request r h]
  cases c.matchRequest r with
  | some x => rfl
  | none => simp [Cache.matchRequest, h]

theorem Request.eq_of_url (a b : Request) (h : a.url = b.url) : a = b := by
  cases a; cases b; simp only at h; subst h; rfl

/-- What `addAllResponses` returns when every fetch succeeds: one entry per request, in
order, each holding what the network answered, an `ok` response that is not partial. -/
theorem addAllResponses_ok (net : Network) (requests : List Request)
    (entries : List (Request × Response))
    (h : addAllResponses net requests = Except.ok entries) :
    entries.map Prod.fst = requests ∧
    ∀ e ∈ entries, net e.1 {} = Except.ok e.2 ∧ e.2.ok = true ∧ e.2.status ≠ 206 := by
  induction requests generalizing entries with
  | nil =>
    simp only [addAllResponses, Except.ok.injEq] at h
    subst h
    simp
  | cons r rest ih =>
    unfold addAllResponses at h
    cases hn : net r {} with
    | error e => rw [hn] at h; simp at h
    | ok resp =>
      rw [hn] at h
      simp only at h
      by_cases hok : resp.ok = true ∧ resp.status ≠ 206
      · rw [if_pos hok] at h
        cases hr : addAllResponses net rest with
        | error e => rw [hr] at h; simp at h
        | ok es =>
          rw [hr] at h
          simp only [Except.ok.injEq] at h
          subst h
          obtain ⟨h1, h2⟩ := ih es hr
          refine ⟨by simp [h1], ?_⟩
          intro e he
          rcases List.mem_cons.1 he with he | he
          · subst he; exact ⟨hn, hok.1, hok.2⟩
          · exact h2 e he
      · rw [if_neg hok] at h; simp at h

/-- When every request gets an `ok`, non-partial response, `addAllResponses` succeeds. -/
theorem addAllResponses_of_ok (net : Network) (requests : List Request)
    (h : ∀ r ∈ requests, ∃ resp, net r {} = Except.ok resp ∧ resp.ok = true ∧
      resp.status ≠ 206) :
    ∃ entries, addAllResponses net requests = Except.ok entries := by
  induction requests with
  | nil => exact ⟨[], rfl⟩
  | cons r rest ih =>
    obtain ⟨resp, hn, hok, h206⟩ := h r (List.mem_cons_self _ _)
    obtain ⟨es, hes⟩ := ih (fun x hx => h x (List.mem_cons_of_mem _ hx))
    refine ⟨(r, resp) :: es, ?_⟩
    unfold addAllResponses
    rw [hn]
    simp only
    rw [if_pos ⟨hok, h206⟩, hes]

/-- Looking up a request after a series of `put`s. -/
theorem Cache.matchRequest_foldl_put (entries : List (Request × Response)) (c : Cache)
    (r : Request) :
    (∀ e ∈ entries, e.1 ≠ r) →
      (entries.foldl (fun c e => c.put e.1 e.2) c).matchRequest r = c.matchRequest r := by
  induction entries generalizing c with
  | nil => intro _; rfl
  | cons e t ih =>
    intro h
    simp only [List.foldl_cons]
    rw [ih _ (fun x hx => h x (List.mem_cons_of_mem _ hx))]
    apply Cache.matchRequest_put_ne
    intro hu
    exact h e (List.mem_cons_self _ _) (Request.eq_of_url _ _ hu)

theorem Cache.matchRequest_foldl_put_mem (net : Network) (entries : List (Request × Response))
    (c : Cache) (r : Request) (resp : Response) (hnet : net r {} = Except.ok resp)
    (hall : ∀ e ∈ entries, net e.1 {} = Except.ok e.2)
    (hmem : r ∈ entries.map Prod.fst ∨ c.matchRequest r = some resp) :
    (entries.foldl (fun c e => c.put e.1 e.2) c).matchRequest r = some resp := by
  induction entries generalizing c with
  | nil =>
    rcases hmem with h | h
    · simp at h
    · exact h
  | cons e t ih =>
    simp only [List.foldl_cons]
    apply ih _ (fun x hx => hall x (List.mem_cons_of_mem _ hx))
    by_cases he : e.1 = r
    · right
      have h1 := hall e (List.mem_cons_self _ _)
      rw [he, hnet] at h1
      have h2 : e.2 = resp := (Except.ok.inj h1).symm
      rw [he, h2]
      exact Cache.matchRequest_put _ _ _
    · rcases hmem with h | h
      · left
        simp only [List.map_cons, List.mem_cons] at h
        rcases h with h | h
        · exact absurd h.symm he
        · exact h
      · right
        rw [Cache.matchRequest_put_ne _ _ _ _ (fun hu => he (Request.eq_of_url _ _ hu))]
        exact h

/-- What `cache.addAll` does: every request is fetched; only the cache it is called on
changes, and there only the entries of the requests; after a successful call each request
has the response the network gave; the call succeeds when every response is `ok` and not
partial and no URL occurs twice. -/
theorem cacheAddAll_spec (net : Network) (name : String) (requests : List Request) (w : World)
    (hhas : w.caches.has name = true) :
    (cacheAddAll net name requests w).2.fetched =
      w.fetched ++ requests.map (fun r => (r, ({} : FetchInit))) ∧
    (∀ other, other ≠ name →
      (cacheAddAll net name requests w).2.caches.get other = w.caches.get other) ∧
    (∀ n, (cacheAddAll net name requests w).2.caches.has n = w.caches.has n) ∧
    (∀ r, r ∉ requests →
      ((cacheAddAll net name requests w).2.caches.get name).matchRequest r =
        (w.caches.get name).matchRequest r) ∧
    ((cacheAddAll net name requests w).1 = Except.ok () →
      ∀ r ∈ requests, ∃ resp, net r {} = Except.ok resp ∧
        ((cacheAddAll net name requests w).2.caches.get name).matchRequest r = some resp) ∧
    ((∀ r ∈ requests, ∃ resp, net r {} = Except.ok resp ∧ resp.ok = true ∧
        resp.status ≠ 206) →
      (requests.map (fun r => r.url)).Nodup →
      (cacheAddAll net name requests w).1 = Except.ok ()) := by
  unfold cacheAddAll
  simp only
  cases hr : addAllResponses net requests with
  | error e =>
    refine ⟨rfl, fun _ _ => rfl, fun _ => rfl, fun _ _ => rfl, ?_, ?_⟩
    · intro h; simp at h
    · intro hall _
      obtain ⟨es, hes⟩ := addAllResponses_of_ok net requests hall
      rw [hes] at hr
      simp at hr
  | ok entries =>
    obtain ⟨hfst, hent⟩ := addAllResponses_ok net requests entries hr
    simp only
    by_cases hnd : (requests.map (fun r => r.url)).Nodup
    · rw [if_pos hnd]
      refine ⟨rfl, ?_, ?_, ?_, ?_, ?_⟩
      · intro other hne
        rw [CacheStorage.get_update _ _ _ _ hhas, if_neg hne]
      · intro n
        exact CacheStorage.has_update _ _ _ _
      · intro r hr
        rw [CacheStorage.get_update _ _ _ _ hhas, if_pos rfl]
        apply Cache.matchRequest_foldl_put
        intro e he habs
        apply hr
        rw [← hfst, ← habs]
        exact List.mem_map_of_mem _ he
      · intro _ r hr
        rw [← hfst] at hr
        obtain ⟨e, he, rfl⟩ := List.mem_map.1 hr
        refine ⟨e.2, (hent e he).1, ?_⟩
        rw [CacheStorage.get_update _ _ _ _ hhas, if_pos rfl]
        exact Cache.matchRequest_foldl_put_mem net entries _ e.1 e.2 (hent e he).1
          (fun x hx => (hent x hx).1) (Or.inl (List.mem_map_of_mem _ he))
      · intro _ _; rfl
    · rw [if_neg hnd]
      refine ⟨rfl, fun _ _ => rfl, fun _ => rfl, fun _ _ => rfl, ?_, ?_⟩
      · intro h; simp at h
      · intro _ h; exact absurd h hnd

/-- An entry a cache has is still there after `cache.addAll`. -/
theorem cacheAddAll_keeps (net : Network) (name : String) (requests : List Request) (w : World)
    (hhas : w.caches.has name = true) (r : Request)
    (h : ((w.caches.get name).matchRequest r).isSome = true) :
    (((cacheAddAll net name requests w).2.caches.get name).matchRequest r).isSome = true := by
  by_cases hmem : r ∈ requests
  · by_cases hok : (cacheAddAll net name requests w).1 = Except.ok ()
    · obtain ⟨resp, _, hresp⟩ := (cacheAddAll_spec net name requests w hhas).2.2.2.2.1 hok r hmem
      rw [hresp]; rfl
    · have hsame : (cacheAddAll net name requests w).2.caches = w.caches := by
        revert hok
        unfold cacheAddAll
        simp only
        cases addAllResponses net requests with
        | error e => intro _; rfl
        | ok entries =>
          simp only
          split
          · intro hok; exact absurd rfl hok
          · intro _; rfl
      rw [hsame]; exact h
  · rw [(cacheAddAll_spec net name requests w hhas).2.2.2.1 r hmem]; exact h

/-- The adds of the missing assets, started from any earlier outcome `res`. -/
theorem addMissing_foldl (net : Network) (missing : List Request)
    (res : Except JsError Unit) (w : World) (hhas : w.caches.has hashedCacheName = true) :
    (missing.foldl (addMissingStep net) (res, w)).2.fetched =
      w.fetched ++ missing.map (fun r => (r, ({} : FetchInit))) ∧
    (∀ other, other ≠ hashedCacheName →
      (missing.foldl (addMissingStep net) (res, w)).2.caches.get other = w.caches.get other) ∧
    (∀ r, r ∉ missing →
      ((missing.foldl (addMissingStep net) (res, w)).2.caches.get hashedCacheName).matchRequest r
        = (w.caches.get hashedCacheName).matchRequest r) ∧
    (∀ r, ((w.caches.get hashedCacheName).matchRequest r).isSome = true →
      (((missing.foldl (addMissingStep net) (res, w)).2.caches.get
        hashedCacheName).matchRequest r).isSome = true) ∧
    ((missing.foldl (addMissingStep net) (res, w)).1 = Except.ok () →
      res = Except.ok () ∧ ∀ r ∈ missing,
        (((missing.foldl (addMissingStep net) (res, w)).2.caches.get
          hashedCacheName).matchRequest r).isSome = true) ∧
    ((∀ r ∈ missing, ∃ resp, net r {} = Except.ok resp ∧ resp.ok = true ∧
        resp.status ≠ 206) →
      (missing.foldl (addMissingStep net) (res, w)).1 = res) := by
  induction missing generalizing res w with
  | nil =>
    refine ⟨by simp, fun _ _ => rfl, fun _ _ => rfl, fun _ h => h, ?_, fun _ => rfl⟩
    intro h
    exact ⟨h, fun r hr => absurd hr (List.not_mem_nil r)⟩
  | cons a rest ih =>
    have hspec := cacheAddAll_spec net hashedCacheName [a] w hhas
    have hkeep := cacheAddAll_keeps net hashedCacheName [a] w hhas
    obtain ⟨hf, hother, hhas1, hnot, hok, hsucc⟩ := hspec
    simp only [List.foldl_cons]
    -- the state after the first add
    have hstep : ∃ res1, addMissingStep net (res, w) a =
        (res1, (cacheAddAll net hashedCacheName [a] w).2) ∧
        (res1 = Except.ok () →
          res = Except.ok () ∧ (cacheAddAll net hashedCacheName [a] w).1 = Except.ok ()) ∧
        ((cacheAddAll net hashedCacheName [a] w).1 = Except.ok () → res1 = res) := by
      unfold addMissingStep cacheAdd
      simp only
      cases hc : cacheAddAll net hashedCacheName [a] w with
      | mk o w1 =>
        cases o with
        | ok u =>
          cases u
          exact ⟨res, rfl, fun h => ⟨h, rfl⟩, fun _ => rfl⟩
        | error e =>
          cases res with
          | ok u => exact ⟨Except.error e, rfl, fun h => by simp at h, fun h => by simp at h⟩
          | error first =>
            exact ⟨Except.error first, rfl, fun h => by simp at h, fun h => by simp at h⟩
    obtain ⟨res1, hs, hres1, hres2⟩ := hstep
    rw [hs]
    have hhas2 : (cacheAddAll net hashedCacheName [a] w).2.caches.has hashedCacheName = true := by
      rw [hhas1]; exact hhas
    obtain ⟨i1, i2, i3, i4, i5, i6⟩ := ih res1 _ hhas2
    refine ⟨?_, ?_, ?_, ?_, ?_, ?_⟩
    · rw [i1, hf]; simp
    · intro other hne
      rw [i2 other hne, hother other hne]
    · intro r hr
      rw [i3 r (fun h => hr (List.mem_cons_of_mem _ h))]
      exact hnot r (fun h => hr (List.mem_cons.2 (Or.inl (List.mem_singleton.1 h))))
    · intro r hr
      exact i4 r (hkeep r hr)
    · intro hfin
      obtain ⟨h1, h2⟩ := i5 hfin
      obtain ⟨h3, h4⟩ := hres1 h1
      refine ⟨h3, ?_⟩
      intro r hr
      rcases List.mem_cons.1 hr with hr | hr
      · subst hr
        apply i4
        obtain ⟨resp, _, hresp⟩ := hok h4 r (List.mem_singleton_self r)
        rw [hresp]; rfl
      · exact h2 r hr
    · intro hall
      rw [i6 (fun r hr => hall r (List.mem_cons_of_mem _ hr))]
      apply hres2
      apply hsucc
      · intro r hr
        rw [List.mem_singleton] at hr
        subst hr
        exact hall r (List.mem_cons_self _ _)
      · simp

/-- The shape of an `install` run: either `addAll` fails and nothing else happens, or the
assets missing from the hashed cache are added to the state `addAll` left. -/
theorem install_eq (P : Platform) (cfg : Config) (scriptURL : String) (net : Network)
    (w : World) :
    ((cacheAddAll net (unhashedCacheName cfg)
        (precacheRequests P scriptURL cfg.UNHASHED_PRECACHED_ASSETS)
        { w with caches := w.caches.openCache (unhashedCacheName cfg) }).1 ≠ Except.ok () ∧
      (install P cfg scriptURL net w).1 ≠ Except.ok () ∧
      (install P cfg scriptURL net w).2 =
        (cacheAddAll net (unhashedCacheName cfg)
          (precacheRequests P scriptURL cfg.UNHASHED_PRECACHED_ASSETS)
          { w with caches := w.caches.openCache (unhashedCacheName cfg) }).2) ∨
    ((cacheAddAll net (unhashedCacheName cfg)
        (precacheRequests P scriptURL cfg.UNHASHED_PRECACHED_ASSETS)
        { w with caches := w.caches.openCache (unhashedCacheName cfg) }).1 = Except.ok () ∧
      ∃ w3 : World,
        w3.fetched = (cacheAddAll net (unhashedCacheName cfg)
          (precacheRequests P scriptURL cfg.UNHASHED_PRECACHED_ASSETS)
          { w with caches := w.caches.openCache (unhashedCacheName cfg) }).2.fetched ∧
        (∀ name, w3.caches.get name = (cacheAddAll net (unhashedCacheName cfg)
          (precacheRequests P scriptURL cfg.UNHASHED_PRECACHED_ASSETS)
          { w with caches := w.caches.openCache (unhashedCacheName cfg) }).2.caches.get name) ∧
        w3.caches.has hashedCacheName = true ∧
        install P cfg scriptURL net w =
          addMissing net ((precacheRequests P scriptURL cfg.HASHED_PRECACHED_ASSETS).filter
            (fun request => ((w3.caches.get hashedCacheName).matchRequest request).isNone))
            w3) := by
  unfold install
  simp only
  cases hc : cacheAddAll net (unhashedCacheName cfg)
      (precacheRequests P scriptURL cfg.UNHASHED_PRECACHED_ASSETS)
      { w with caches := w.caches.openCache (unhashedCacheName cfg) } with
  | mk o w2 =>
    cases o with
    | error e =>
      left
      exact ⟨by simp, by simp, rfl⟩
    | ok u =>
      cases u
      right
      refine ⟨rfl, { w2 with caches := w2.caches.openCache hashedCacheName }, rfl, ?_, ?_, rfl⟩
      · intro name
        exact CacheStorage.get_openCache _ _ _
      · exact CacheStorage.has_openCache _ _

/-- An `install` in a state where every hashed-precached asset has an entry fetches the
unhashed assets only and leaves the hashed cache as it is, whatever the network answers. -/
theorem install_again (P : Platform) (cfg : Config) (scriptURL : String) (net : Network)
    (w : World)
    (hall : ∀ a ∈ cfg.HASHED_PRECACHED_ASSETS,
      ((w.caches.get hashedCacheName).matchRequest (assetRequest P scriptURL a)).isSome = true) :
    (install P cfg scriptURL net w).2.fetched =
      w.fetched ++ (precacheRequests P scriptURL cfg.UNHASHED_PRECACHED_ASSETS).map
        (fun r => (r, ({} : FetchInit))) ∧
    (install P cfg scriptURL net w).2.caches.get hashedCacheName =
      w.caches.get hashedCacheName := by
  have hspec := cacheAddAll_spec net (unhashedCacheName cfg)
    (precacheRequests P scriptURL cfg.UNHASHED_PRECACHED_ASSETS)
    { w with caches := w.caches.openCache (unhashedCacheName cfg) }
    (CacheStorage.has_openCache _ _)
  obtain ⟨hf, hother, -, -, -, -⟩ := hspec
  have hh := hother hashedCacheName (fun h => unhashedCacheName_ne_hashed cfg h.symm)
  simp only [CacheStorage.get_openCache] at hh
  rcases install_eq P cfg scriptURL net w with ⟨-, -, h2⟩ | ⟨-, w3, hw3f, hw3c, -, hrun⟩
  · rw [h2]
    exact ⟨hf, hh⟩
  · have hnil : (precacheRequests P scriptURL cfg.HASHED_PRECACHED_ASSETS).filter
        (fun request => ((w3.caches.get hashedCacheName).matchRequest request).isNone) = [] := by
      rw [List.filter_eq_nil_iff]
      intro r hr
      obtain ⟨a, ha, rfl⟩ := List.mem_map.1 hr
      have := hall a ha
      rw [hw3c, hh]
      cases hm : (w.caches.get hashedCacheName).matchRequest (assetRequest P scriptURL a) with
      | none => rw [hm] at this; simp at this
      | some x => simp
    rw [hrun, hnil]
    simp only [addMissing, List.foldl_nil]
    exact ⟨by rw [hw3f, hf], by rw [hw3c, hh]⟩

/-- C13: the `install` step, from any state. It fetches the unhashed-precached requests, then
the requests `added`; each of these is a hashed-precached request with no entry in the hashed
cache before, and the hashed cache changes at these requests only, so an entry that was there
is neither fetched again nor overwritten. When `install` succeeds, `added` is the list of the
hashed-precached requests that had no entry, every hashed-precached path has an entry, every
unhashed-precached path holds the response just fetched, and a second `install` (with any
network) fetches the unhashed-precached requests only and leaves the hashed cache unchanged.
It succeeds when the network answers every precached request with an `ok`, non-partial
response and no unhashed-precached URL occurs twice. -/
theorem install_precaches (P : Platform) (cfg : Config) (scriptURL : String) (net : Network)
    (w : World) :
    ∃ added : List Request,
      (install P cfg scriptURL net w).2.fetched =
        w.fetched ++ (precacheRequests P scriptURL cfg.UNHASHED_PRECACHED_ASSETS).map
          (fun r => (r, ({} : FetchInit))) ++ added.map (fun r => (r, ({} : FetchInit))) ∧
      (∀ r ∈ added, r ∈ precacheRequests P scriptURL cfg.HASHED_PRECACHED_ASSETS ∧
        (w.caches.get hashedCacheName).matchRequest r = none) ∧
      (∀ r, r ∉ added →
        ((install P cfg scriptURL net w).2.caches.get hashedCacheName).matchRequest r =
          (w.caches.get hashedCacheName).matchRequest r) ∧
      (∀ r resp, (w.caches.get hashedCacheName).matchRequest r = some resp →
        r ∉ added ∧
        ((install P cfg scriptURL net w).2.caches.get hashedCacheName).matchRequest r =
          some resp) ∧
      ((install P cfg scriptURL net w).1 = Except.ok () →
        added = (precacheRequests P scriptURL cfg.HASHED_PRECACHED_ASSETS).filter
          (fun r => ((w.caches.get hashedCacheName).matchRequest r).isNone) ∧
        (∀ a ∈ cfg.HASHED_PRECACHED_ASSETS,
          (((install P cfg scriptURL net w).2.caches.get hashedCacheName).matchRequest
            (assetRequest P scriptURL a)).isSome = true) ∧
        (∀ a ∈ cfg.UNHASHED_PRECACHED_ASSETS, ∃ resp,
          net (assetRequest P scriptURL a) {} = Except.ok resp ∧
          ((install P cfg scriptURL net w).2.caches.get (unhashedCacheName cfg)).matchRequest
            (assetRequest P scriptURL a) = some resp) ∧
        (∀ net2 : Network,
          (install P cfg scriptURL net2 (install P cfg scriptURL net w).2).2.fetched =
            (install P cfg scriptURL net w).2.fetched ++
              (precacheRequests P scriptURL cfg.UNHASHED_PRECACHED_ASSETS).map
                (fun r => (r, ({} : FetchInit))) ∧
          (install P cfg scriptURL net2 (install P cfg scriptURL net w).2).2.caches.get
              hashedCacheName =
            (install P cfg scriptURL net w).2.caches.get hashedCacheName)) ∧
      ((∀ r ∈ precacheRequests P scriptURL cfg.UNHASHED_PRECACHED_ASSETS ++
            precacheRequests P scriptURL cfg.HASHED_PRECACHED_ASSETS,
          ∃ resp, net r {} = Except.ok resp ∧ resp.ok = true ∧ resp.status ≠ 206) →
        ((precacheRequests P scriptURL cfg.UNHASHED_PRECACHED_ASSETS).map
          (fun r => r.url)).Nodup →
        (install P cfg scriptURL net w).1 = Except.ok ()) := by
  have hspec := cacheAddAll_spec net (unhashedCacheName cfg)
    (precacheRequests P scriptURL cfg.UNHASHED_PRECACHED_ASSETS)
    { w with caches := w.caches.openCache (unhashedCacheName cfg) }
    (CacheStorage.has_openCache _ _)
  obtain ⟨hf, hother, -, -, hfresh, hsucc⟩ := hspec
  have hh := hother hashedCacheName (fun h => unhashedCacheName_ne_hashed cfg h.symm)
  simp only [CacheStorage.get_openCache] at hh
  simp only at hf
  rcases install_eq P cfg scriptURL net w with
    ⟨hfail, hfail2, h2⟩ | ⟨hok1, w3, hw3f, hw3c, hw3h, hrun⟩
  · -- `addAll` failed
    refine ⟨[], ?_, ?_, ?_, ?_, ?_, ?_⟩
    · rw [h2, hf]; simp
    · intro r hr; exact absurd hr (List.not_mem_nil r)
    · intro r _; rw [h2, hh]
    · intro r resp hr
      refine ⟨List.not_mem_nil r, ?_⟩
      rw [h2, hh]; exact hr
    · intro h; exact absurd h hfail2
    · intro hall hnd
      exact absurd (hsucc (fun r hr => hall r (List.mem_append_left _ hr)) hnd) hfail
  · -- `addAll` succeeded
    have hbefore : w3.caches.get hashedCacheName = w.caches.get hashedCacheName := by
      rw [hw3c, hh]
    rw [hbefore] at hrun
    obtain ⟨a1, a2, a3, a4, a5, a6⟩ := addMissing_foldl net
      ((precacheRequests P scriptURL cfg.HASHED_PRECACHED_ASSETS).filter
        (fun request => ((w.caches.get hashedCacheName).matchRequest request).isNone))
      (Except.ok ()) w3 hw3h
    have hrun2 : install P cfg scriptURL net w =
        List.foldl (addMissingStep net) (Except.ok (), w3)
          ((precacheRequests P scriptURL cfg.HASHED_PRECACHED_ASSETS).filter
            (fun request => ((w.caches.get hashedCacheName).matchRequest request).isNone)) := by
      rw [hrun]; rfl
    rw [← hrun2] at a1 a2 a3 a4 a5 a6
    rw [hbefore] at a3 a4
    have hadded : ∀ r ∈ (precacheRequests P scriptURL cfg.HASHED_PRECACHED_ASSETS).filter
        (fun request => ((w.caches.get hashedCacheName).matchRequest request).isNone),
        r ∈ precacheRequests P scriptURL cfg.HASHED_PRECACHED_ASSETS ∧
        (w.caches.get hashedCacheName).matchRequest r = none := by
      intro r hr
      obtain ⟨h1, h2⟩ := List.mem_filter.1 hr
      refine ⟨h1, ?_⟩
      cases hm : (w.caches.get hashedCacheName).matchRequest r with
      | none => rfl
      | some x => rw [hm] at h2; simp at h2
    have hpresent : ∀ r resp, (w.caches.get hashedCacheName).matchRequest r = some resp →
        r ∉ (precacheRequests P scriptURL cfg.HASHED_PRECACHED_ASSETS).filter
          (fun request => ((w.caches.get hashedCacheName).matchRequest request).isNone) := by
      intro r resp hr hmem
      rw [(hadded r hmem).2] at hr
      simp at hr
    refine ⟨_, ?_, hadded, a3, ?_, ?_, ?_⟩
    · rw [a1, hw3f, hf]
    · intro r resp hr
      refine ⟨hpresent r resp hr, ?_⟩
      rw [a3 r (hpresent r resp hr)]; exact hr
    · intro hok
      obtain ⟨-, hsome⟩ := a5 hok
      have hallsome : ∀ a ∈ cfg.HASHED_PRECACHED_ASSETS,
          (((install P cfg scriptURL net w).2.caches.get hashedCacheName).matchRequest
            (assetRequest P scriptURL a)).isSome = true := by
        intro a ha
        by_cases hm : assetRequest P scriptURL a ∈
            (precacheRequests P scriptURL cfg.HASHED_PRECACHED_ASSETS).filter
              (fun request => ((w.caches.get hashedCacheName).matchRequest request).isNone)
        · exact hsome _ hm
        · apply a4
          cases hc : (w.caches.get hashedCacheName).matchRequest (assetRequest P scriptURL a) with
          | some x => rfl
          | none =>
            exfalso
            apply hm
            apply List.mem_filter.2
            refine ⟨List.mem_map_of_mem _ ha, ?_⟩
            simp [hc]
      refine ⟨rfl, hallsome, ?_, ?_⟩
      · intro a ha
        obtain ⟨resp, hn, hresp⟩ := hfresh hok1 (assetRequest P scriptURL a)
          (List.mem_map_of_mem _ ha)
        refine ⟨resp, hn, ?_⟩
        rw [a2 _ (unhashedCacheName_ne_hashed cfg), hw3c]
        exact hresp
      · intro net2
        exact install_again P cfg scriptURL net2 _ hallsome
    · intro hall hnd
      rw [a6 (fun r hr => hall r (List.mem_append_right _ (List.mem_filter.1 hr).1))]

theorem install_precaches_witness :
    (install samplePlatform sampleConfig sampleScript sampleNetwork precachedWorld).1 =
      Except.ok () ∧
    ((install samplePlatform sampleConfig sampleScript sampleNetwork
      precachedWorld).2.caches.get hashedCacheName).matchRequest
        { url := "https://app.example/hydrogen-5678.js" } =
      some { status := 200, body := "old" } :=
  (install_precaches samplePlatform sampleConfig sampleScript sampleNetwork precachedWorld).elim
    (fun _ h => ⟨h.2.2.2.2.2 (fun _ _ => ⟨_, rfl, rfl, by decide⟩) (by decide),
      (h.2.2.2.1 { url := "https://app.example/hydrogen-5678.js" }
        { status := 200, body := "old" } (by decide)).2⟩)

/-! ## The reply table -/

theorem requestIds_append (a b : List (String × OutMessage)) :
    requestIds (a ++ b) = requestIds a ++ requestIds b := by
  unfold requestIds
  exact List.filterMap_append _ _ _

theorem mem_mapDelete (m : List (Nat × Resolver)) (k : Nat) (e : Nat × Resolver) :
    e ∈ mapDelete m k ↔ e ∈ m ∧ e.1 ≠ k := by
  unfold mapDelete
  simp [List.mem_filter]

theorem mem_mapSet (m : List (Nat × Resolver)) (k : Nat) (v : Resolver) (e : Nat × Resolver) :
    e ∈ mapSet m k v ↔ (e ∈ m ∧ e.1 ≠ k) ∨ e = (k, v) := by
  unfold mapSet
  rw [List.mem_append, mem_mapDelete, List.mem_singleton]

theorem idsAssigned_of_eq (w w1 : World) (h : IdsAssigned w)
    (hp : requestIds w1.posted = requestIds w.posted)
    (hc : w1.messageIdCounter = w.messageIdCounter)
    (hr : ∀ e ∈ w1.pendingReplies, e ∈ w.pendingReplies) : IdsAssigned w1 := by
  refine ⟨?_, ?_⟩
  · intro id hid
    rw [hp] at hid
    rw [hc]
    exact h.1 id hid
  · intro e he
    rw [hc]
    exact h.2 e (hr e he)

theorem idsAssigned_send (client : Client) (type : String) (payload : Payload)
    (resolve : Resolver) (w : World) (h : IdsAssigned w) :
    IdsAssigned (sendAndWaitForReply client type payload resolve w).2 := by
  unfold sendAndWaitForReply
  refine ⟨?_, ?_⟩
  · intro id hid
    simp only [requestIds_append, List.mem_append] at hid
    rcases hid with hid | hid
    · have := h.1 id hid
      exact ⟨this.1, Nat.le_succ_of_le this.2⟩
    · simp [requestIds] at hid
      subst hid
      exact ⟨Nat.succ_pos _, Nat.le_refl _⟩
  · intro e he
    simp only at he
    rcases (mem_mapSet _ _ _ _).1 he with ⟨he, _⟩ | he
    · have := h.2 e he
      exact ⟨this.1, Nat.le_succ_of_le this.2⟩
    · subst he
      exact ⟨Nat.succ_pos _, Nat.le_refl _⟩

theorem idsAssigned_sendToAll (type : String) (payload : Payload) (index : Nat)
    (cs : List Client) : ∀ w : World, IdsAssigned w →
      IdsAssigned (sendToAll type payload index cs w).2 := by
  induction cs with
  | nil => intro w h; exact h
  | cons c rest ih =>
    intro w h
    simp only [sendToAll]
    exact ih _ (idsAssigned_send c type payload (Resolver.task index) w h)

theorem idsAssigned_progress (i : Nat) (w : World) (h : IdsAssigned w) :
    IdsAssigned (progress i w) := by
  unfold progress
  cases getTask w.tasks i with
  | none => exact h
  | some task =>
    simp only
    split
    · apply idsAssigned_of_eq w _ h
      · simp [requestIds_append, requestIds]
      · rfl
      · intro e he; exact he
    · exact h

theorem idsAssigned_startTask (command : Command) (source : String) (replyId : Option Nat)
    (type : String) (payload : Payload) (cs : List Client) (w : World) (h : IdsAssigned w) :
    IdsAssigned (startTask command source replyId type payload cs w) := by
  unfold startTask
  apply idsAssigned_progress
  exact idsAssigned_of_eq _ _ (idsAssigned_sendToAll type payload w.tasks.length cs w h) rfl rfl
    (fun e he => he)

theorem idsAssigned_onMessage (cfg : Config) (source : String) (data : MessageData) (w : World)
    (h : IdsAssigned w) : IdsAssigned (onMessage cfg source data w) := by
  have hcmd : IdsAssigned
      (if data.type = some "version" then
        { w with posted := w.posted ++ [(source,
            OutMessage.reply data.id (Payload.version cfg.VERSION cfg.GLOBAL_HASH))] }
      else if data.type = some "skipWaiting" then { w with skipWaitingCalled := true }
      else if data.type = some "haltRequests" then haltRequests source data.id w
      else if data.type = some "closeSession" then
        match data.payload.sessionId with
        | some sessionId => closeSession sessionId source source data.id w
        | none => w
      else w) := by
    split
    · apply idsAssigned_of_eq w _ h
      · simp [requestIds_append, requestIds]
      · rfl
      · intro e he; exact he
    · split
      · exact idsAssigned_of_eq w _ h rfl rfl (fun e he => he)
      · split
        · exact idsAssigned_startTask Command.haltRequests source data.id "haltRequests"
            Payload.undefined w.clients w h
        · split
          · split
            · rename_i sessionId _
              exact idsAssigned_startTask Command.closeSession source data.id "closeSession"
                (Payload.session sessionId)
                (w.clients.filter (fun client => decide (client.id ≠ source))) w h
            · exact h
          · exact h
  unfold onMessage
  split
  · rename_i replyTo _
    split
    · rename_i resolve _
      unfold resolveReply
      cases resolve with
      | caller =>
        exact idsAssigned_of_eq w _ h rfl rfl (fun e he => ((mem_mapDelete _ _ _).1 he).1)
      | task index =>
        apply idsAssigned_progress
        exact idsAssigned_of_eq w _ h rfl rfl (fun e he => ((mem_mapDelete _ _ _).1 he).1)
    · exact h
  · exact hcmd

theorem mapSet_count (m : List (Nat × Resolver)) (k : Nat) (v : Resolver) :
    ((mapSet m k v).filter (fun e => decide (e.1 = k))).length = 1 := by
  unfold mapSet mapDelete
  rw [List.filter_append, List.filter_filter]
  have h : m.filter (fun a => decide (a.1 = k) && decide (a.1 ≠ k)) = [] := by
    rw [List.filter_eq_nil_iff]
    intro a _
    simp
  rw [h]
  simp

theorem onMessage_pending_of_reply (cfg : Config) (source : String) (data : MessageData)
    (w : World) (id : Nat) (resolve : Resolver)
    (hid : data.replyTo = some (id + 1))
    (hget : mapGet w.pendingReplies (id + 1) = some resolve) :
    onMessage cfg source data w =
      resolveReply resolve (id + 1)
        { w with pendingReplies := mapDelete w.pendingReplies (id + 1) } ∧
    (onMessage cfg source data w).pendingReplies = mapDelete w.pendingReplies (id + 1) := by
  have h1 : onMessage cfg source data w =
      resolveReply resolve (id + 1)
        { w with pendingReplies := mapDelete w.pendingReplies (id + 1) } := by
    unfold onMessage
    rw [hid]
    simp only [hget]
  refine ⟨h1, ?_⟩
  rw [h1]
  unfold resolveReply
  cases resolve with
  | caller => rfl
  | task index => exact (progress_frame index _).1

theorem onMessage_of_unmatched (cfg : Config) (source : String) (data : MessageData)
    (w : World) (id : Nat)
    (hid : data.replyTo = some (id + 1))
    (hget : mapGet w.pendingReplies (id + 1) = none) :
    onMessage cfg source data w = w := by
  unfold onMessage
  rw [hid]
  simp only [hget]

theorem startTask_counter (command : Command) (source : String) (replyId : Option Nat)
    (type : String) (payload : Payload) (cs : List Client) (w : World) :
    (startTask command source replyId type payload cs w).messageIdCounter =
      w.messageIdCounter + cs.length := by
  unfold startTask
  rw [(progress_frame _ _).2.1]
  exact (sendToAll_spec type payload w.tasks.length cs w).2.2

theorem onMessage_counter (cfg : Config) (source : String) (data : MessageData) (w : World) :
    w.messageIdCounter ≤ (onMessage cfg source data w).messageIdCounter := by
  have hcmd : w.messageIdCounter ≤
      (if data.type = some "version" then
        { w with posted := w.posted ++ [(source,
            OutMessage.reply data.id (Payload.version cfg.VERSION cfg.GLOBAL_HASH))] }
      else if data.type = some "skipWaiting" then { w with skipWaitingCalled := true }
      else if data.type = some "haltRequests" then haltRequests source data.id w
      else if data.type = some "closeSession" then
        match data.payload.sessionId with
        | some sessionId => closeSession sessionId source source data.id w
        | none => w
      else w).messageIdCounter := by
    split
    · exact Nat.le_refl _
    · split
      · exact Nat.le_refl _
      · split
        · have := startTask_counter Command.haltRequests source data.id "haltRequests"
            Payload.undefined w.clients w
          exact this ▸ Nat.le_add_right _ _
        · split
          · split
            · rename_i sessionId _
              have := startTask_counter Command.closeSession source data.id "closeSession"
                (Payload.session sessionId)
                (w.clients.filter (fun client => decide (client.id ≠ source))) w
              exact this ▸ Nat.le_add_right _ _
            · exact Nat.le_refl _
          · exact Nat.le_refl _
  unfold onMessage
  split
  · split
    · rename_i resolve _
      unfold resolveReply
      cases resolve with
      | caller => exact Nat.le_refl _
      | task index =>
        rw [(progress_frame _ _).2.1]
    · exact Nat.le_refl _
  · exact hcmd

/-- C14: the reply table. (1) `sendAndWaitForReply` gives the message the id
`messageIdCounter + 1`, which becomes the counter, registers the function under that id and
under no other, exactly once, and posts `{type, id, payload}` to the client. (2) In a state
where the ids assigned so far are between 1 and the counter, the new id is non-zero and
greater than every id assigned or pending, and the state after the call is again such a
state; the initial state is one, and the message listener keeps states so and never
lowers the counter. (3) A message whose `replyTo` is a non-zero id with a registered
function makes the listener call that function with the payload of the message and removes
from the table the entries of that id and no other. (4) A message whose non-zero `replyTo`
has no registered function changes nothing and calls no function; so does the same reply
arriving a second time. (5) A `replyTo` of 0 is not taken for a reply. -/
theorem sendAndWaitForReply_reply_table (cfg : Config) :
    (∀ (client : Client) (type : String) (payload : Payload) (resolve : Resolver) (w : World),
      (sendAndWaitForReply client type payload resolve w).1 = w.messageIdCounter + 1 ∧
      (sendAndWaitForReply client type payload resolve w).2.messageIdCounter =
        (sendAndWaitForReply client type payload resolve w).1 ∧
      mapGet (sendAndWaitForReply client type payload resolve w).2.pendingReplies
        (sendAndWaitForReply client type payload resolve w).1 = some resolve ∧
      ((sendAndWaitForReply client type payload resolve w).2.pendingReplies.filter
        (fun e => decide (e.1 = (sendAndWaitForReply client type payload resolve w).1))).length
          = 1 ∧
      (∀ e, e.1 ≠ (sendAndWaitForReply client type payload resolve w).1 →
        (e ∈ (sendAndWaitForReply client type payload resolve w).2.pendingReplies ↔
          e ∈ w.pendingReplies)) ∧
      (sendAndWaitForReply client type payload resolve w).2.posted =
        w.posted ++ [(client.id, OutMessage.request type
          (sendAndWaitForReply client type payload resolve w).1 payload)]) ∧
    (∀ (client : Client) (type : String) (payload : Payload) (resolve : Resolver) (w : World),
      IdsAssigned w →
        0 < (sendAndWaitForReply client type payload resolve w).1 ∧
        (∀ id ∈ requestIds w.posted,
          id < (sendAndWaitForReply client type payload resolve w).1) ∧
        (∀ e ∈ w.pendingReplies, e.1 < (sendAndWaitForReply client type payload resolve w).1) ∧
        IdsAssigned (sendAndWaitForReply client type payload resolve w).2) ∧
    (IdsAssigned {} ∧
      ∀ (source : String) (data : MessageData) (w : World),
        (IdsAssigned w → IdsAssigned (onMessage cfg source data w)) ∧
        w.messageIdCounter ≤ (onMessage cfg source data w).messageIdCounter) ∧
    (∀ (source : String) (data : MessageData) (w : World) (id : Nat) (resolve : Resolver),
      data.replyTo = some id → id ≠ 0 → mapGet w.pendingReplies id = some resolve →
        replyResolution data w = some (id, resolve, data.payload) ∧
        onMessage cfg source data w =
          resolveReply resolve id { w with pendingReplies := mapDelete w.pendingReplies id } ∧
        (∀ e, e ∈ (onMessage cfg source data w).pendingReplies ↔
          e ∈ w.pendingReplies ∧ e.1 ≠ id)) ∧
    (∀ (source : String) (data : MessageData) (w : World) (id : Nat),
      data.replyTo = some id → id ≠ 0 →
        (mapGet w.pendingReplies id = none →
          replyResolution data w = none ∧ onMessage cfg source data w = w) ∧
        replyResolution data (onMessage cfg source data w) = none ∧
        onMessage cfg source data (onMessage cfg source data w) =
          onMessage cfg source data w) ∧
    (∀ (source : String) (data : MessageData) (w : World),
      data.replyTo = some 0 →
        replyResolution data w = none ∧
        onMessage cfg source data w = onMessage cfg source { data with replyTo := none } w) := by
  refine ⟨?_, ?_, ⟨?_, ?_⟩, ?_, ?_, ?_⟩
  · intro client type payload resolve w
    refine ⟨rfl, rfl, ?_, ?_, ?_, rfl⟩
    · simp only [sendAndWaitForReply]
      rw [mapGet_mapSet]; simp
    · simp only [sendAndWaitForReply]
      exact mapSet_count _ _ _
    · intro e he
      simp only [sendAndWaitForReply] at he ⊢
      rw [mem_mapSet]
      constructor
      · rintro (⟨h1, _⟩ | h1)
        · exact h1
        · subst h1; exact absurd rfl he
      · intro h1; exact Or.inl ⟨h1, he⟩
  · intro client type payload resolve w h
    refine ⟨Nat.succ_pos _, ?_, ?_, idsAssigned_send client type payload resolve w h⟩
    · intro id hid
      exact Nat.lt_succ_of_le (h.1 id hid).2
    · intro e he
      exact Nat.lt_succ_of_le (h.2 e he).2
  · exact ⟨fun id hid => by simp [requestIds] at hid, fun e he => by simp at he⟩
  · intro source data w
    refine ⟨idsAssigned_onMessage cfg source data w, ?_⟩
    exact onMessage_counter cfg source data w
  · intro source data w id resolve hid hne hget
    obtain ⟨k, rfl⟩ := Nat.exists_eq_succ_of_ne_zero hne
    obtain ⟨h1, h2⟩ := onMessage_pending_of_reply cfg source data w k resolve hid hget
    refine ⟨?_, h1, ?_⟩
    · unfold replyResolution
      rw [hid]
      simp only [hget]
    · intro e
      rw [h2]
      exact mem_mapDelete _ _ _
  · intro source data w id hid hne
    obtain ⟨k, rfl⟩ := Nat.exists_eq_succ_of_ne_zero hne
    have hnone : ∀ w1 : World, mapGet w1.pendingReplies (k + 1) = none →
        replyResolution data w1 = none ∧ onMessage cfg source data w1 = w1 := by
      intro w1 hget
      refine ⟨?_, onMessage_of_unmatched cfg source data w1 k hid hget⟩
      unfold replyResolution
      rw [hid]
      simp only [hget]
    have hafter : mapGet (onMessage cfg source data w).pendingReplies (k + 1) = none := by
      cases hget : mapGet w.pendingReplies (k + 1) with
      | none => rw [(hnone w hget).2]; exact hget
      | some resolve =>
        rw [(onMessage_pending_of_reply cfg source data w k resolve hid hget).2,
          mapGet_mapDelete]
        simp
    exact ⟨hnone w, (hnone _ hafter).1, (hnone _ hafter).2⟩
  · intro source data w h0
    refine ⟨?_, ?_⟩
    · unfold replyResolution
      rw [h0]
    · unfold onMessage
      rw [h0]

theorem sendAndWaitForReply_reply_table_witness :
    (sendAndWaitForReply clientC1 "haltRequests" Payload.undefined Resolver.caller {}).1 = 1 ∧
    onMessage sampleConfig "C1" { replyTo := some 7 } {} = {} :=
  ⟨((sendAndWaitForReply_reply_table sampleConfig).1 clientC1 "haltRequests" Payload.undefined
      Resolver.caller {}).1,
   (((sendAndWaitForReply_reply_table sampleConfig).2.2.2.2.1 "C1" { replyTo := some 7 } {} 7
      rfl (by decide)).1 rfl).2⟩

/-! ## `handleRequest`: failures -/

/-- The failures of the `try` block: the lookup missed and the fetch failed, with an
`AbortError` when the controller was aborted and with the error of the network otherwise;
nothing was logged. -/
theorem handleRequestTry_error (P : Platform) (cfg : Config) (net : Network)
    (request : Request) (w w1 : World) (err : JsError)
    (h : handleRequestTry P cfg net request w = (Except.error err, w1)) :
    (readCache P cfg (rewriteRequest P cfg request) w).1 = none ∧
    w1.consoleErrors = w.consoleErrors ∧
    ((w.aborted = true ∧ err.name = "AbortError") ∨
      (w.aborted = false ∧
        net (rewriteRequest P cfg request) (fetchInitFor (P.newURL request.url none)) =
          Except.error err)) := by
  have hf := readCache_frame P cfg (rewriteRequest P cfg request) w
  unfold handleRequestTry at h
  simp only at h
  cases hr : readCache P cfg (rewriteRequest P cfg request) w with
  | mk o wr =>
    rw [hr] at h hf
    simp only at hf
    cases o with
    | some r => simp at h
    | none =>
      simp only [fetch, hf.2.1] at h
      refine ⟨rfl, ?_⟩
      cases hab : w.aborted with
      | true =>
        rw [hab] at h
        simp only [if_true, Prod.mk.injEq, Except.error.injEq] at h
        obtain ⟨h1, h2⟩ := h
        subst h1 h2
        exact ⟨hf.2.2, Or.inl ⟨rfl, rfl⟩⟩
      | false =>
        rw [hab] at h
        simp only [Bool.false_eq_true, if_false] at h
        cases hn : net (rewriteRequest P cfg request)
            (fetchInitFor (P.newURL request.url none)) with
        | ok r => rw [hn] at h; simp at h
        | error e =>
          rw [hn] at h
          simp only [Prod.mk.injEq, Except.error.injEq] at h
          obtain ⟨h1, h2⟩ := h
          subst h1 h2
          exact ⟨hf.2.2, Or.inr ⟨rfl, rfl⟩⟩

/-- C15, as the code has it: a failure raised in the `try` block of `handleRequest` is thrown
again unchanged, and it is logged exactly when its name is neither `TypeError` nor
`AbortError`. So the abort of the controller is never logged, a fetch that fails for any of
the reasons of `FetchFailure`, cancellation or not, is never logged, and a failure with
another name is always logged. -/
theorem handleRequest_failure (P : Platform) (cfg : Config) (net : Network)
    (request : Request) (w w1 : World) (err : JsError)
    (h : handleRequestTry P cfg net request w = (Except.error err, w1)) :
    (handleRequest P cfg net request w).1 = Except.error err ∧
    ((err.name ≠ "TypeError" ∧ err.name ≠ "AbortError") →
      (handleRequest P cfg net request w).2.consoleErrors = w.consoleErrors ++ [err]) ∧
    ((err.name = "TypeError" ∨ err.name = "AbortError") →
      (handleRequest P cfg net request w).2.consoleErrors = w.consoleErrors) ∧
    (w.aborted = true → (handleRequest P cfg net request w).2.consoleErrors = w.consoleErrors) ∧
    (∀ cause : FetchFailure, err = cause.error →
      (handleRequest P cfg net request w).2.consoleErrors = w.consoleErrors) := by
  obtain ⟨-, hlog, hcause⟩ := handleRequestTry_error P cfg net request w w1 err h
  have hyes : (err.name ≠ "TypeError" ∧ err.name ≠ "AbortError") →
      handleRequest P cfg net request w =
        (Except.error err, { w1 with consoleErrors := w1.consoleErrors ++ [err] }) := by
    intro hn
    unfold handleRequest
    rw [h]
    simp only [if_pos hn]
  have hno : (err.name = "TypeError" ∨ err.name = "AbortError") →
      handleRequest P cfg net request w = (Except.error err, w1) := by
    intro hn
    have hn2 : ¬ (err.name ≠ "TypeError" ∧ err.name ≠ "AbortError") := by
      rintro ⟨h1, h2⟩
      rcases hn with hn | hn
      · exact h1 hn
      · exact h2 hn
    unfold handleRequest
    rw [h]
    simp only [if_neg hn2]
  refine ⟨?_, ?_, ?_, ?_, ?_⟩
  · by_cases hn : err.name ≠ "TypeError" ∧ err.name ≠ "AbortError"
    · rw [hyes hn]
    · have : err.name = "TypeError" ∨ err.name = "AbortError" := by
        by_cases h1 : err.name = "TypeError"
        · exact Or.inl h1
        · by_cases h2 : err.name = "AbortError"
          · exact Or.inr h2
          · exact absurd ⟨h1, h2⟩ hn
      rw [hno this]
  · intro hn
    rw [hyes hn, ← hlog]
  · intro hn
    rw [hno hn, ← hlog]
  · intro hab
    rcases hcause with ⟨_, hname⟩ | ⟨hf, _⟩
    · rw [hno (Or.inr hname), ← hlog]
    · rw [hab] at hf; cases hf
  · intro cause hc
    have : err.name = "TypeError" ∨ err.name = "AbortError" := by
      subst hc
      cases cause
      · exact Or.inr rfl
      · exact Or.inl rfl
      · exact Or.inl rfl
    rw [hno this, ← hlog]

theorem handleRequest_failure_witness :
    (handleRequest samplePlatform sampleConfig brokenNetwork syncRequest {}).2.consoleErrors =
      [{ name := "SecurityError", message := "blocked" }] ∧
    (handleRequest samplePlatform sampleConfig (failingNetwork FetchFailure.superseded)
      syncRequest {}).2.consoleErrors = [] :=
  ⟨(handleRequest_failure samplePlatform sampleConfig brokenNetwork syncRequest {} _ _
      rfl).2.1 (by decide),
   (handleRequest_failure samplePlatform sampleConfig (failingNetwork FetchFailure.superseded)
      syncRequest {} _ _ rfl).2.2.1 (by decide)⟩

/-- A fetch that fails because the network cannot be reached, with the controller not
aborted, is no cancellation; `handleRequest` throws its error and logs nothing. -/
theorem handleRequest_unreachable_not_logged :
    FetchFailure.unreachable.isCancellation = false ∧
    ({} : World).aborted = false ∧
    (handleRequest samplePlatform sampleConfig (failingNetwork FetchFailure.unreachable)
      syncRequest {}).1 = Except.error { name := "TypeError", message := "Failed to fetch" } ∧
    (handleRequest samplePlatform sampleConfig (failingNetwork FetchFailure.unreachable)
      syncRequest {}).2.consoleErrors = [] := by
  refine ⟨rfl, rfl, ?_, ?_⟩
  · rfl
  · rfl

/-! ## The abort of `pendingFetchAbortController` is final -/

theorem cacheAddAll_aborted (net : Network) (name : String) (requests : List Request)
    (w : World) : (cacheAddAll net name requests w).2.aborted = w.aborted := by
  unfold cacheAddAll
  simp only
  cases addAllResponses net requests with
  | error e => rfl
  | ok entries =>
    simp only
    split <;> rfl

theorem addMissing_aborted (net : Network) (missing : List Request) :
    ∀ (res : Except JsError Unit) (w : World),
      (missing.foldl (addMissingStep net) (res, w)).2.aborted = w.aborted := by
  induction missing with
  | nil => intro res w; rfl
  | cons a rest ih =>
    intro res w
    simp only [List.foldl_cons]
    have hstep : (addMissingStep net (res, w) a).2.aborted = w.aborted := by
      have h := cacheAddAll_aborted net hashedCacheName [a] w
      unfold addMissingStep cacheAdd
      simp only
      cases hc : cacheAddAll net hashedCacheName [a] w with
      | mk o w1 =>
        rw [hc] at h
        cases o with
        | ok u => exact h
        | error e =>
          cases res with
          | ok u => exact h
          | error first => exact h
    have := ih (addMissingStep net (res, w) a).1 (addMissingStep net (res, w) a).2
    rw [hstep] at this
    exact this

theorem install_aborted (P : Platform) (cfg : Config) (scriptURL : String) (net : Network)
    (w : World) : (install P cfg scriptURL net w).2.aborted = w.aborted := by
  have h := cacheAddAll_aborted net (unhashedCacheName cfg)
    (precacheRequests P scriptURL cfg.UNHASHED_PRECACHED_ASSETS)
    { w with caches := w.caches.openCache (unhashedCacheName cfg) }
  unfold install
  simp only
  cases hc : cacheAddAll net (unhashedCacheName cfg)
      (precacheRequests P scriptURL cfg.UNHASHED_PRECACHED_ASSETS)
      { w with caches := w.caches.openCache (unhashedCacheName cfg) } with
  | mk o w2 =>
    rw [hc] at h
    cases o with
    | error e => exact h
    | ok u =>
      simp only [addMissing]
      rw [addMissing_aborted]
      exact h

theorem handleRequest_aborted (P : Platform) (cfg : Config) (net : Network)
    (request : Request) (w : World) :
    (handleRequest P cfg net request w).2.aborted = w.aborted := by
  have hf := readCache_frame P cfg (rewriteRequest P cfg request) w
  unfold handleRequest handleRequestTry
  simp only
  cases hr : readCache P cfg (rewriteRequest P cfg request) w with
  | mk o wr =>
    rw [hr] at hf
    simp only at hf
    cases o with
    | some r => exact hf.2.1
    | none =>
      simp only [fetch]
      by_cases hab : wr.aborted = true
      · rw [if_pos hab]
        simp only
        split <;> exact hf.2.1
      · rw [if_neg hab]
        cases hn : net (rewriteRequest P cfg request)
            (fetchInitFor (P.newURL request.url none)) with
        | error e =>
          simp only
          split <;> exact hf.2.1
        | ok r =>
          simp only
          rw [(updateCache_frame P cfg _ r _).2.1]
          exact hf.2.1

theorem sendToAll_aborted (type : String) (payload : Payload) (index : Nat)
    (cs : List Client) : ∀ w : World,
      (sendToAll type payload index cs w).2.aborted = w.aborted := by
  induction cs with
  | nil => intro w; rfl
  | cons c rest ih =>
    intro w
    simp only [sendToAll]
    rw [ih]
    rfl

theorem startTask_aborted (command : Command) (source : String) (replyId : Option Nat)
    (type : String) (payload : Payload) (cs : List Client) (w : World)
    (h : w.aborted = true) :
    (startTask command source replyId type payload cs w).aborted = true := by
  unfold startTask
  apply (progress_frame _ _).2.2.1
  simp only
  rw [sendToAll_aborted]
  exact h

theorem onMessage_aborted (cfg : Config) (source : String) (data : MessageData) (w : World)
    (h : w.aborted = true) : (onMessage cfg source data w).aborted = true := by
  have hcmd :
      (if data.type = some "version" then
        { w with posted := w.posted ++ [(source,
            OutMessage.reply data.id (Payload.version cfg.VERSION cfg.GLOBAL_HASH))] }
      else if data.type = some "skipWaiting" then { w with skipWaitingCalled := true }
      else if data.type = some "haltRequests" then haltRequests source data.id w
      else if data.type = some "closeSession" then
        match data.payload.sessionId with
        | some sessionId => closeSession sessionId source source data.id w
        | none => w
      else w).aborted = true := by
    split
    · exact h
    · split
      · exact h
      · split
        · exact startTask_aborted Command.haltRequests source data.id "haltRequests"
            Payload.undefined w.clients w h
        · split
          · split
            · rename_i sessionId _
              exact startTask_aborted Command.closeSession source data.id "closeSession"
                (Payload.session sessionId)
                (w.clients.filter (fun client => decide (client.id ≠ source))) w h
            · exact h
          · exact h
  unfold onMessage
  split
  · split
    · rename_i resolve _
      unfold resolveReply
      cases resolve with
      | caller => exact h
      | task index => exact (progress_frame _ _).2.2.1 h
    · exact h
  · exact hcmd

/-- JavaScript `findClient` with a predicate that asks nothing of the clients. -/
theorem findClientIn_pure (p : Client → Bool) (cs : List Client) (w : World) :
    findClientIn (fun client w => some (p client, w)) cs w = some (cs.find? p, w) := by
  induction cs with
  | nil => rfl
  | cons c rest ih =>
    simp only [findClientIn, List.find?]
    cases p c with
    | true => rfl
    | false => exact ih

theorem awaitReply_aborted (answers : Nat → Option Payload) (client : Client) (type : String)
    (payload : Payload) (w w1 : World) (reply : Payload)
    (h : awaitReply answers client type payload w = some (reply, w1)) :
    w1.aborted = w.aborted := by
  unfold awaitReply sendAndWaitForReply at h
  simp only at h
  split at h
  · cases h
  · simp only [Option.some.injEq, Prod.mk.injEq] at h
    obtain ⟨_, rfl⟩ := h
    rfl

theorem roomOpenLoop_aborted (answers : Nat → Option Payload)
    (sessionId roomId : Option String) (cs : List Client) :
    ∀ (w w1 : World) (b : Bool),
      roomOpenLoop answers sessionId roomId cs w = some (b, w1) → w1.aborted = w.aborted := by
  induction cs with
  | nil =>
    intro w w1 b h
    simp only [roomOpenLoop, Option.some.injEq, Prod.mk.injEq] at h
    obtain ⟨_, rfl⟩ := h
    rfl
  | cons c rest ih =>
    intro w w1 b h
    simp only [roomOpenLoop] at h
    split at h
    · cases ha : awaitReply answers c "hasRoomOpen" (Payload.room sessionId roomId) w with
      | none => rw [ha] at h; cases h
      | some r2 =>
        obtain ⟨reply, w3⟩ := r2
        have hframe := awaitReply_aborted _ _ _ _ _ _ _ ha
        rw [ha] at h
        simp only at h
        split at h
        · simp only [Option.some.injEq, Prod.mk.injEq] at h
          obtain ⟨_, rfl⟩ := h
          exact hframe
        · exact (ih w3 w1 b h).trans hframe
    · exact ih w w1 b h

theorem findClientIn_hasRoomOpen_aborted (answers : Nat → Option Payload)
    (sessionId roomId : Option String) (cs : List Client) :
    ∀ (w w1 : World) (found : Option Client),
      findClientIn (hasRoomOpenPredicate answers sessionId roomId) cs w = some (found, w1) →
      w1.aborted = w.aborted := by
  induction cs with
  | nil =>
    intro w w1 found h
    simp only [findClientIn, Option.some.injEq, Prod.mk.injEq] at h
    obtain ⟨_, rfl⟩ := h
    rfl
  | cons c rest ih =>
    intro w w1 found h
    simp only [findClientIn] at h
    cases hp : hasRoomOpenPredicate answers sessionId roomId c w with
    | none => rw [hp] at h; cases h
    | some r =>
      obtain ⟨b, w2⟩ := r
      have hframe : w2.aborted = w.aborted := by
        unfold hasRoomOpenPredicate at hp
        split at hp
        · cases ha : awaitReply answers c "hasRoomOpen" (Payload.room sessionId roomId) w with
          | none => rw [ha] at hp; cases hp
          | some r2 =>
            obtain ⟨reply, w3⟩ := r2
            rw [ha] at hp
            simp only [Option.some.injEq, Prod.mk.injEq] at hp
            obtain ⟨_, rfl⟩ := hp
            exact awaitReply_aborted _ _ _ _ _ _ _ ha
        · simp only [Option.some.injEq, Prod.mk.injEq] at hp
          obtain ⟨_, rfl⟩ := hp
          rfl
      rw [hp] at h
      cases b with
      | true =>
        simp only [Option.some.injEq, Prod.mk.injEq] at h
        obtain ⟨_, rfl⟩ := h
        exact hframe
      | false =>
        simp only at h
        exact (ih w2 w1 found h).trans hframe


/-- The `unread === 0` branch of `handlePushNotification` in one equation: the notifications
that are not tagged `messages_read` are closed, and one notification with that tag is shown
when no client is visible and none with that tag is displayed. -/
theorem handlePushNotification_readSync_eq (answers : Nat → Option Payload) (n : PushPayload)
    (w : World)
    (hnew : ¬ (truthyString (jsOr n.sender_display_name n.sender) = true ∧
      truthyString n.event_id = true))
    (hunread : n.unread = some 0) :
    handlePushNotification answers n w =
      some (PushOutcome.readSync,
        if (w.clients.find? (fun c => decide (c.visibilityState = "visible"))).isNone = true ∧
            ((w.notifications.filter
              (fun x => !decide (x.tag ≠ NOTIF_TAG_MESSAGES_READ))).filter
                (fun notif => decide (notif.tag = NOTIF_TAG_MESSAGES_READ))).length = 0 then
          showNotification "New messages that have since been read" none
            { sessionId := n.session_id } NOTIF_TAG_MESSAGES_READ
            { w with notifications :=
              (w.notifications.filter (fun x => !decide (x.tag ≠ NOTIF_TAG_MESSAGES_READ))) }
        else
          { w with notifications :=
            (w.notifications.filter (fun x => !decide (x.tag ≠ NOTIF_TAG_MESSAGES_READ))) }) := by
  unfold handlePushNotification
  simp only [hnew, if_false, hunread, if_true]
  have hfold := foldl_close_if (fun notif => decide (notif.tag ≠ NOTIF_TAG_MESSAGES_READ))
    (getNotifications none w) w
  simp only [decide_eq_true_eq] at hfold
  rw [hfold]
  simp only [getNotifications, foldl_erase_filter]
  unfold findClient
  rw [findClientIn_pure]
  simp only
  by_cases h1 : (w.clients.find? (fun c => decide (c.visibilityState = "visible"))).isNone = true
  · rw [if_pos h1]
    by_cases h2 : ((w.notifications.filter
        (fun x => !decide (x.tag ≠ NOTIF_TAG_MESSAGES_READ))).filter
          (fun notif => decide (notif.tag = NOTIF_TAG_MESSAGES_READ))).length = 0
    · rw [if_pos h2, if_pos ⟨h1, h2⟩]
    · rw [if_neg h2, if_neg (fun h => h2 h.2)]
  · rw [if_neg h1, if_neg (fun h => h1 h.1)]

theorem handlePushNotification_aborted (answers : Nat → Option Payload) (n : PushPayload)
    (w w1 : World) (outcome : PushOutcome)
    (h : handlePushNotification answers n w = some (outcome, w1)) :
    w1.aborted = w.aborted := by
  by_cases hnew : truthyString (jsOr n.sender_display_name n.sender) = true ∧
      truthyString n.event_id = true
  swap
  · by_cases hunread : n.unread = some 0
    · rw [handlePushNotification_readSync_eq answers n w hnew hunread] at h
      simp only [Option.some.injEq, Prod.mk.injEq] at h
      obtain ⟨_, rfl⟩ := h
      split <;> rfl
    · unfold handlePushNotification at h
      simp only [hnew, if_false, hunread] at h
      simp only [Option.some.injEq, Prod.mk.injEq] at h
      obtain ⟨_, rfl⟩ := h
      rfl
  unfold handlePushNotification at h
  simp only [hnew, if_true] at h
  · cases hf : findClient (hasRoomOpenPredicate answers n.session_id n.room_id) w with
    | none => rw [hf] at h; cases h
    | some r =>
      obtain ⟨found, wf⟩ := r
      have h1 : wf.aborted = w.aborted :=
        findClientIn_hasRoomOpen_aborted answers n.session_id n.room_id w.clients w wf found hf
      rw [hf] at h
      cases found with
      | some c =>
        simp only [Option.some.injEq, Prod.mk.injEq] at h
        obtain ⟨_, rfl⟩ := h
        exact h1
      | none =>
        simp only at h
        cases hl : roomOpenLoop answers n.session_id n.room_id w.clients wf with
        | none => rw [hl] at h; cases h
        | some r2 =>
          obtain ⟨b, wl⟩ := r2
          have h2 : wl.aborted = wf.aborted :=
            roomOpenLoop_aborted answers n.session_id n.room_id w.clients wf wl b hl
          rw [hl] at h
          cases b with
          | true =>
            simp only [Option.some.injEq, Prod.mk.injEq] at h
            obtain ⟨_, rfl⟩ := h
            exact h2.trans h1
          | false =>
            simp only [Option.some.injEq, Prod.mk.injEq] at h
            obtain ⟨_, rfl⟩ := h
            rw [foldl_close]
            exact h2.trans h1

theorem readCache_unhashed (P : Platform) (cfg : Config) (request : Request) (w : World)
    (r : Response)
    (h : (w.caches.get (unhashedCacheName cfg)).matchRequest request = some r) :
    (readCache P cfg request w).1 = some r := by
  unfold readCache
  simp only [CacheStorage.get_openCache, h]

/-- The entries the caches hold after `readCache` were there before. -/
theorem readCache_entries (P : Platform) (cfg : Config) (request : Request) (w : World)
    (name : String) (r : Request) (x : Response)
    (h : ((readCache P cfg request w).2.caches.get name).matchRequest r = some x) :
    (w.caches.get name).matchRequest r = some x := by
  unfold readCache at h
  simp only [CacheStorage.get_openCache] at h
  split at h
  · simpa only [CacheStorage.get_openCache] using h
  · split at h
    · simpa only [CacheStorage.get_openCache] using h
    · split at h
      · split at h
        · split at h
          · simp only at h
            rw [CacheStorage.get_update _ _ _ _ (CacheStorage.has_openCache _ _)] at h
            simp only [CacheStorage.get_openCache] at h
            split at h
            · rename_i hname
              subst hname
              by_cases hu : request.url = r.url
              · rw [Request.eq_of_url _ _ hu, Cache.matchRequest_delete] at h
                cases h
              · rw [Cache.matchRequest_delete_ne _ _ _ hu] at h
                exact h
            · exact h
          · simpa only [CacheStorage.get_openCache] using h
        · simpa only [CacheStorage.get_openCache] using h
      · simpa only [CacheStorage.get_openCache] using h

/-- With the controller aborted, a `handleRequest` whose lookup misses ends in the
`AbortError` of `fetch`, in the state the lookup left. -/
theorem handleRequest_miss_aborted (P : Platform) (cfg : Config) (net : Network)
    (request : Request) (w : World) (hab : w.aborted = true)
    (hmiss : (readCache P cfg (rewriteRequest P cfg request) w).1 = none) :
    handleRequest P cfg net request w =
      (Except.error { name := "AbortError", message := "The operation was aborted." },
        (readCache P cfg (rewriteRequest P cfg request) w).2) := by
  have hf := readCache_frame P cfg (rewriteRequest P cfg request) w
  unfold handleRequest handleRequestTry
  simp only
  cases hr : readCache P cfg (rewriteRequest P cfg request) w with
  | mk o wr =>
    rw [hr] at hmiss hf
    simp only at hmiss hf
    subst hmiss
    have hwr : wr.aborted = true := by rw [hf.2.1]; exact hab
    simp only [fetch, hwr, if_true]
    simp

theorem step_aborted (P : Platform) (cfg : Config) (w w1 : World) (h : Step P cfg w w1)
    (hab : w.aborted = true) : w1.aborted = true := by
  cases h with
  | install scriptURL net => rw [install_aborted]; exact hab
  | activate => exact hab
  | request net request => rw [handleRequest_aborted]; exact hab
  | message source data => exact onMessage_aborted cfg source data w hab
  | push answers n _ _ outcome h =>
    rw [handlePushNotification_aborted answers n w w1 outcome h]; exact hab
  | send client type payload resolve => exact hab
  | click canOpenWindow notification => exact hab
  | browser clients notifications => exact hab

/-- C16: nothing makes a new `pendingFetchAbortController`. From a state in which it has
been aborted, in every state a run of the worker reaches by any sequence of steps it is
still aborted; there a `handleRequest` whose lookup misses the caches ends in an
`AbortError`, fetches nothing, logs nothing and leaves no entry in any cache that was not
there, while a request found in the unhashed or in the hashed cache is answered with the
cached response. -/
theorem abort_is_final (P : Platform) (cfg : Config) (w w1 : World)
    (hreach : Reachable P cfg w w1) (hab : w.aborted = true) :
    w1.aborted = true ∧
    (∀ (net : Network) (request : Request),
      (readCache P cfg (rewriteRequest P cfg request) w1).1 = none →
        (handleRequest P cfg net request w1).1 =
          Except.error { name := "AbortError", message := "The operation was aborted." } ∧
        (handleRequest P cfg net request w1).2.fetched = w1.fetched ∧
        (handleRequest P cfg net request w1).2.consoleErrors = w1.consoleErrors ∧
        (∀ name r x,
          ((handleRequest P cfg net request w1).2.caches.get name).matchRequest r = some x →
            (w1.caches.get name).matchRequest r = some x)) ∧
    (∀ (net : Network) (request : Request) (resp : Response),
      ((w1.caches.get (unhashedCacheName cfg)).matchRequest (rewriteRequest P cfg request) =
          some resp ∨
        ((w1.caches.get (unhashedCacheName cfg)).matchRequest (rewriteRequest P cfg request) =
            none ∧
          (w1.caches.get hashedCacheName).matchRequest (rewriteRequest P cfg request) =
            some resp)) →
        (handleRequest P cfg net request w1).1 = Except.ok resp ∧
        (handleRequest P cfg net request w1).2.fetched = w1.fetched) := by
  have hab1 : w1.aborted = true := by
    unfold Reachable at hreach
    induction hreach with
    | refl => exact hab
    | tail _ hstep ih => exact step_aborted P cfg _ _ hstep ih
  refine ⟨hab1, ?_, ?_⟩
  · intro net request hmiss
    rw [handleRequest_miss_aborted P cfg net request w1 hab1 hmiss]
    have hf := readCache_frame P cfg (rewriteRequest P cfg request) w1
    refine ⟨rfl, hf.1, hf.2.2, ?_⟩
    intro name r x hx
    exact readCache_entries P cfg _ w1 name r x hx
  · intro net request resp hhit
    have hread : (readCache P cfg (rewriteRequest P cfg request) w1).1 = some resp := by
      rcases hhit with hu | ⟨hu, hh⟩
      · exact readCache_unhashed P cfg _ w1 resp hu
      · have := (readCache_hit P cfg (rewriteRequest P cfg request) w1 resp hh).1
        rw [hu] at this
        exact this
    rw [handleRequest_of_readCache_some P cfg net request w1 resp hread]
    exact ⟨rfl, (readCache_frame P cfg _ w1).1⟩

theorem abort_is_final_witness :
    (onMessage sampleConfig "C1" haltCommand {}).aborted = true ∧
    (handleRequest samplePlatform sampleConfig sampleNetwork syncRequest
      (onActivate samplePlatform sampleConfig (onMessage sampleConfig "C1" haltCommand {}))).1 =
      Except.error { name := "AbortError", message := "The operation was aborted." } :=
  ⟨rfl,
   ((abort_is_final samplePlatform sampleConfig (onMessage sampleConfig "C1" haltCommand {})
      (onActivate samplePlatform sampleConfig (onMessage sampleConfig "C1" haltCommand {}))
      (Relation.ReflTransGen.single (Step.activate _)) rfl).2.1 sampleNetwork syncRequest
      rfl).1⟩

/-! ## The thumbnail predicate: dimensions that are not integer literals -/

theorem takeWhile_append_stop (p : Char → Bool) (l s : List Char)
    (hl : ∀ c ∈ l, p c = true) (hs : ∀ c, s.head? = some c → p c = false) :
    (l ++ s).takeWhile p = l := by
  induction l with
  | nil =>
    cases s with
    | nil => rfl
    | cons a t => simp [List.takeWhile, hs a rfl]
  | cons a t ih =>
    simp only [List.cons_append, List.takeWhile, hl a (List.mem_cons_self _ _)]
    exact congrArg (fun x => a :: x) (ih (fun c hc => hl c (List.mem_cons_of_mem _ hc)))

/-- The decimal digits of a natural number, followed by something that does not start with a
digit, read as that number. -/
theorem parseDigits_repr_append (n : Nat) (s : List Char)
    (hs : ∀ c, s.head? = some c → isDecDigit c = false) :
    ∃ l : List Char, (Nat.repr n).data = l ∧ parseDigits (l ++ s) = some n ∧ l ≠ [] ∧
      (∀ c, l.head? = some c → isStrWhiteSpaceChar c = false ∧ c ≠ '-' ∧ c ≠ '+') := by
  obtain ⟨l, hl, hne, hdig, hval, hhead⟩ := toDigitsCore_spec (n + 1) n [] (Nat.lt_succ_self n)
  refine ⟨l, ?_, ?_, hne, hhead⟩
  · simp [Nat.repr, Nat.toDigits, hl, List.asString]
  · unfold parseDigits
    simp only [takeWhile_append_stop _ l s hdig hs]
    cases l with
    | nil => exact absurd rfl hne
    | cons a t => simp [hval]

/-- JavaScript `parseInt` reads an integer literal followed by other characters as the
integer. -/
theorem parseInt_toString_append (i : Int) (suffix : String)
    (hs : ∀ c, suffix.data.head? = some c → isDecDigit c = false) :
    parseInt (some (toString i ++ suffix)) = some i := by
  unfold parseInt
  cases i with
  | ofNat n =>
    show parseIntChars (Nat.repr n ++ suffix).data = _
    obtain ⟨l, hl, hp, hne, hhead⟩ := parseDigits_repr_append n suffix.data hs
    rw [String.data_append, hl]
    cases l with
    | nil => exact absurd rfl hne
    | cons a t =>
      obtain ⟨hw, hm, hpl⟩ := hhead a rfl
      unfold parseIntChars
      simp only [List.cons_append, List.dropWhile, hw]
      split
      · rename_i heq; simp at heq; exact absurd heq.1 hm
      · rename_i heq; simp at heq; exact absurd heq.1 hpl
      · have hp2 : parseDigits (a :: t.append suffix.data) = some n := hp
        rw [hp2]; rfl
  | negSucc n =>
    show parseIntChars ("-" ++ Nat.repr (n + 1) ++ suffix).data = _
    obtain ⟨l, hl, hp, hne, hhead⟩ := parseDigits_repr_append (n + 1) suffix.data hs
    have : ("-" ++ Nat.repr (n + 1) ++ suffix).data = '-' :: (l ++ suffix.data) := by
      simp [String.data_append, hl]
    rw [this]
    unfold parseIntChars
    have hw : isStrWhiteSpaceChar '-' = false := by decide
    simp only [List.dropWhile, hw, hp]
    simp [Int.negSucc_eq]

/-- JavaScript `parseInt` gives `NaN` for the empty string and for a string that starts with
a character that is no white space, no sign and no digit. -/
theorem parseInt_no_number (s : String)
    (h : ∀ c, s.data.head? = some c →
      isStrWhiteSpaceChar c = false ∧ c ≠ '-' ∧ c ≠ '+' ∧ isDecDigit c = false) :
    parseInt (some s) = none := by
  unfold parseInt
  simp only
  cases hd : s.data with
  | nil => rfl
  | cons a t =>
    rw [hd] at h
    obtain ⟨hw, hm, hpl, hdg⟩ := h a rfl
    unfold parseIntChars
    simp only [List.dropWhile, hw]
    split
    · rename_i heq; simp at heq; exact absurd heq.1 hm
    · rename_i heq; simp at heq; exact absurd heq.1 hpl
    · simp [parseDigits, List.takeWhile, hdg]

/-- C17, as the code has it: under the thumbnail endpoint or not, `isCacheableThumbnail` is
false when `parseInt` finds no number in the `width` or in the `height` value, which is so
for the empty string and for a value that starts with a character that is no white space,
no sign and no digit. An integer literal followed by other characters is read as the
integer, so for such dimensions the result is the one for the integers themselves. -/
theorem isCacheableThumbnail_malformed (url : URL) :
    (parseInt (searchParamsGet url.searchParams "width") = none ∨
      parseInt (searchParamsGet url.searchParams "height") = none →
        isCacheableThumbnail url = false) ∧
    (∀ s : String,
      (∀ c, s.data.head? = some c →
        isStrWhiteSpaceChar c = false ∧ c ≠ '-' ∧ c ≠ '+' ∧ isDecDigit c = false) →
      searchParamsGet url.searchParams "width" = some s ∨
        searchParamsGet url.searchParams "height" = some s →
      isCacheableThumbnail url = false) ∧
    (∀ (w h : Int) (s1 s2 : String),
      (∀ c, s1.data.head? = some c → isDecDigit c = false) →
      (∀ c, s2.data.head? = some c → isDecDigit c = false) →
      searchParamsGet url.searchParams "width" = some (toString w ++ s1) →
      searchParamsGet url.searchParams "height" = some (toString h ++ s2) →
      (isCacheableThumbnail url = true ↔
        startsWith url.pathname thumbnailPrefix = true ∧ w ≤ 50 ∧ h ≤ 50)) := by
  have key := (isCacheableThumbnail_iff url).1
  have hnan : parseInt (searchParamsGet url.searchParams "width") = none ∨
      parseInt (searchParamsGet url.searchParams "height") = none →
        isCacheableThumbnail url = false := by
    intro h
    cases hc : isCacheableThumbnail url
    · rfl
    · obtain ⟨_, ⟨w, hw, _⟩, ⟨h', hh, _⟩⟩ := key.1 hc
      rcases h with h | h
      · rw [h] at hw; cases hw
      · rw [h] at hh; cases hh
  refine ⟨hnan, ?_, ?_⟩
  · intro s hs hget
    apply hnan
    rcases hget with hget | hget
    · left; rw [hget]; exact parseInt_no_number s hs
    · right; rw [hget]; exact parseInt_no_number s hs
  · intro w h s1 s2 h1 h2 hw hh
    rw [key, hw, hh, parseInt_toString_append w s1 h1, parseInt_toString_append h s2 h2]
    constructor
    · rintro ⟨hp, ⟨w', hw', hle⟩, ⟨h', hh', hle'⟩⟩
      cases hw'; cases hh'
      exact ⟨hp, hle, hle'⟩
    · rintro ⟨hp, hle, hle'⟩
      exact ⟨hp, ⟨w, rfl, hle⟩, ⟨h, rfl, hle'⟩⟩

theorem isCacheableThumbnail_malformed_witness :
    isCacheableThumbnail thumbAuto = false :=
  (isCacheableThumbnail_malformed thumbAuto).2.1 "auto" (by decide) (Or.inl rfl)

/-- A thumbnail URL whose width is `50px` and whose height is `10.9`, neither of them an
integer literal, is a cacheable thumbnail: the values read as 50 and 10. -/
theorem isCacheableThumbnail_px :
    startsWith thumbPx.pathname thumbnailPrefix = true ∧
    searchParamsGet thumbPx.searchParams "width" = some "50px" ∧
    searchParamsGet thumbPx.searchParams "height" = some "10.9" ∧
    parseInt (some "50px") = some 50 ∧ parseInt (some "10.9") = some 10 ∧
    isCacheableThumbnail thumbPx = true := by
  refine ⟨by decide, by decide, by decide, by decide, by decide, by decide⟩

/-! ## Notification clicks -/

/-- What `openClientFromNotif` does: it navigates and focuses the first client whose hash
starts with `#/session/` followed by the session id of the notification, and opens no
window; when there is no such client it opens one window at the room URL, if it can, and
navigates no client. -/
theorem openClientFromNotif_spec (P : Platform) (cfg : Config) (canOpenWindow : Bool)
    (data : NotificationData) (w : World) :
    openClientFromNotif P cfg canOpenWindow data w =
      match w.clients.find? (fun client =>
          startsWith (P.newURL client.url (some (P.newURL cfg.scope none).href)).hash
            ("#/session/" ++ templateString data.sessionId)) with
      | some client =>
        [ClientAction.navigate client.id
            ("/" ++ ("#/session/" ++ templateString data.sessionId ++ "/room/" ++
              templateString data.roomId)),
          ClientAction.focus client.id]
      | none =>
        if canOpenWindow then
          [ClientAction.openWindow
            ("/" ++ ("#/session/" ++ templateString data.sessionId ++ "/room/" ++
              templateString data.roomId))]
        else [] := by
  unfold openClientFromNotif
  simp only
  generalize w.clients = cs
  induction cs with
  | nil => rfl
  | cons c rest ih =>
    simp only [openClientLoop, List.find?]
    cases hc : startsWith (P.newURL c.url (some (P.newURL cfg.scope none).href)).hash
        ("#/session/" ++ templateString data.sessionId) with
    | true => simp
    | false => simpa using ih

/-- C18, the code at the failing input: the only window is at room `!a` of session `12`
and the notification clicked is for room `!r` of session `1`. The hash of the window,
`#/session/12/room/!a`, starts with `#/session/1`, so `openClientFromNotif` navigates that
window to `/#/session/1/room/!r` and focuses it, and opens no window. -/
theorem openClientFromNotif_prefix_session :
    (samplePlatform.newURL clientSession12.url
      (some (samplePlatform.newURL sampleConfig.scope none).href)).hash =
        "#/session/12/room/!a" ∧
    openClientFromNotif samplePlatform sampleConfig true notifSession1 session12World =
      [ClientAction.navigate "C12" "/#/session/1/room/!r", ClientAction.focus "C12"] := by
  refine ⟨by decide, by decide⟩

/-! ## Push notifications: what a read-sync push closes -/

/-- Showing a notification under a tag that no displayed notification has adds it to the
displayed ones. -/
theorem showNotification_fresh_tag (title : String) (body : Option String)
    (data : NotificationData) (tag : String) (w : World)
    (h : (w.notifications.filter (fun notif => decide (notif.tag = tag))).length = 0) :
    (showNotification title body data tag w).notifications =
      w.notifications ++ [{ title := title, body := body, tag := tag, data := data }] := by
  unfold showNotification
  simp only
  split
  · rfl
  · congr 1
    apply List.filter_eq_self.2
    intro x hx
    by_contra hne
    have hmem : x ∈ w.notifications.filter (fun notif => decide (notif.tag = tag)) := by
      apply List.mem_filter.2
      refine ⟨hx, ?_⟩
      simpa using hne
    rw [List.length_eq_zero] at h
    rw [h] at hmem
    cases hmem

/-- C19: a read-sync push (no sender or no event id, `unread` 0) is always handled to the
end. Afterwards no notification that was displayed with a tag other than `messages_read`
is displayed, every notification that was displayed with the tag `messages_read` still is,
and the displayed notifications are those that were displayed with that tag, followed by
at most one new notification, itself tagged `messages_read`. When some window client is
visible nothing is shown: the displayed notifications are exactly those that were
displayed with the tag `messages_read`. -/
theorem handlePushNotification_read_sync_closes (answers : Nat → Option Payload)
    (n : PushPayload) (w : World)
    (hnew : ¬ (truthyString (jsOr n.sender_display_name n.sender) = true ∧
      truthyString n.event_id = true))
    (hunread : n.unread = some 0) :
    ∃ w1 : World,
      handlePushNotification answers n w = some (PushOutcome.readSync, w1) ∧
      (∀ x ∈ w.notifications, x.tag ≠ NOTIF_TAG_MESSAGES_READ → x ∉ w1.notifications) ∧
      (∀ x ∈ w.notifications, x.tag = NOTIF_TAG_MESSAGES_READ → x ∈ w1.notifications) ∧
      (w1.notifications =
          w.notifications.filter (fun x => decide (x.tag = NOTIF_TAG_MESSAGES_READ)) ∨
        w1.notifications =
          w.notifications.filter (fun x => decide (x.tag = NOTIF_TAG_MESSAGES_READ)) ++
            [{ title := "New messages that have since been read", body := none,
               tag := NOTIF_TAG_MESSAGES_READ, data := { sessionId := n.session_id } }]) ∧
      ((∃ c ∈ w.clients, c.visibilityState = "visible") →
        w1.notifications =
          w.notifications.filter (fun x => decide (x.tag = NOTIF_TAG_MESSAGES_READ))) := by
  have hfilter : w.notifications.filter (fun x => !decide (x.tag ≠ NOTIF_TAG_MESSAGES_READ)) =
      w.notifications.filter (fun x => decide (x.tag = NOTIF_TAG_MESSAGES_READ)) := by
    apply List.filter_congr
    intro x _
    simp
  have hrun := handlePushNotification_readSync_eq answers n w hnew hunread
  rw [hfilter] at hrun
  refine ⟨_, hrun, ?_⟩
  have hshape :
      (if (w.clients.find? (fun c => decide (c.visibilityState = "visible"))).isNone = true ∧
            ((w.notifications.filter
              (fun x => decide (x.tag = NOTIF_TAG_MESSAGES_READ))).filter
                (fun notif => decide (notif.tag = NOTIF_TAG_MESSAGES_READ))).length = 0 then
          showNotification "New messages that have since been read" none
            { sessionId := n.session_id } NOTIF_TAG_MESSAGES_READ
            { w with notifications :=
              (w.notifications.filter (fun x => decide (x.tag = NOTIF_TAG_MESSAGES_READ))) }
        else
          { w with notifications :=
            (w.notifications.filter
              (fun x => decide (x.tag = NOTIF_TAG_MESSAGES_READ))) }).notifications =
          w.notifications.filter (fun x => decide (x.tag = NOTIF_TAG_MESSAGES_READ)) ∨
      (if (w.clients.find? (fun c => decide (c.visibilityState = "visible"))).isNone = true ∧
            ((w.notifications.filter
              (fun x => decide (x.tag = NOTIF_TAG_MESSAGES_READ))).filter
                (fun notif => decide (notif.tag = NOTIF_TAG_MESSAGES_READ))).length = 0 then
          showNotification "New messages that have since been read" none
            { sessionId := n.session_id } NOTIF_TAG_MESSAGES_READ
            { w with notifications :=
              (w.notifications.filter (fun x => decide (x.tag = NOTIF_TAG_MESSAGES_READ))) }
        else
          { w with notifications :=
            (w.notifications.filter
              (fun x => decide (x.tag = NOTIF_TAG_MESSAGES_READ))) }).notifications =
          w.notifications.filter (fun x => decide (x.tag = NOTIF_TAG_MESSAGES_READ)) ++
            [{ title := "New messages that have since been read", body := none,
               tag := NOTIF_TAG_MESSAGES_READ, data := { sessionId := n.session_id } }] := by
    split
    · rename_i hcond
      right
      exact showNotification_fresh_tag _ _ _ _ _ hcond.2
    · left; rfl
  refine ⟨?_, ?_, hshape, ?_⟩
  · intro x _ htag hmem
    rcases hshape with h | h
    · rw [h] at hmem
      have := (List.mem_filter.1 hmem).2
      simp at this
      exact htag this
    · rw [h] at hmem
      rcases List.mem_append.1 hmem with hm | hm
      · have := (List.mem_filter.1 hm).2
        simp at this
        exact htag this
      · rw [List.mem_singleton] at hm
        apply htag
        rw [hm]
  · intro x hx htag
    have hin : x ∈ w.notifications.filter
        (fun x => decide (x.tag = NOTIF_TAG_MESSAGES_READ)) :=
      List.mem_filter.2 ⟨hx, by simp [htag]⟩
    rcases hshape with h | h
    · rw [h]; exact hin
    · rw [h]; exact List.mem_append_left _ hin
  · rintro ⟨c, hc, hvis⟩
    have hfound : ¬ ((w.clients.find? (fun c => decide (c.visibilityState = "visible"))).isNone
        = true) := by
      intro hnone
      rw [Option.isNone_iff_eq_none, List.find?_eq_none] at hnone
      have := hnone c hc
      simp [hvis] at this
    rw [if_neg (fun h => hfound h.1)]

theorem handlePushNotification_read_sync_closes_witness :
    ∃ w1 : World,
      handlePushNotification noAnswer pushRead visibleWithNotifs =
        some (PushOutcome.readSync, w1) ∧
      w1.notifications = [notifRead] :=
  (handlePushNotification_read_sync_closes noAnswer pushRead visibleWithNotifs (by decide)
    rfl).elim
    (fun w1 h => ⟨w1, h.1, (h.2.2.2.2 ⟨clientC1, by decide, rfl⟩).trans (by decide)⟩)

/-! ## Push notifications: the second scan -/

/-- A scan that finds no client has asked every visible and focused client, in order, and
each reply was negative. -/
theorem findClientIn_none_spec (answers : Nat → Option Payload)
    (sessionId roomId : Option String) (cs : List Client) :
    ∀ (w w1 : World),
      findClientIn (hasRoomOpenPredicate answers sessionId roomId) cs w = some (none, w1) →
      w1.messageIdCounter = w.messageIdCounter + (cs.filter isAsked).length ∧
      w1.notifications = w.notifications ∧
      ∀ j, j < (cs.filter isAsked).length →
        ∃ reply, answers (w.messageIdCounter + 1 + j) = some reply ∧ reply.truthy = false := by
  induction cs with
  | nil =>
    intro w w1 h
    simp only [findClientIn, Option.some.injEq, Prod.mk.injEq, true_and] at h
    subst h
    refine ⟨rfl, rfl, ?_⟩
    intro j hj
    simp at hj
  | cons c rest ih =>
    intro w w1 h
    simp only [findClientIn, hasRoomOpenPredicate] at h
    by_cases hvf : c.visibilityState = "visible" ∧ c.focused = true
    · have hasked : isAsked c = true := by simp [isAsked, hvf]
      simp only [hvf, and_self, if_true] at h
      cases ha : awaitReply answers c "hasRoomOpen" (Payload.room sessionId roomId) w with
      | none => rw [ha] at h; cases h
      | some r =>
        obtain ⟨reply, w2⟩ := r
        obtain ⟨hans, -, hcount, hnotif, -, -, -⟩ := awaitReply_spec _ _ _ _ _ _ _ ha
        rw [ha] at h
        simp only at h
        cases ht : reply.truthy with
        | true => rw [ht] at h; simp at h
        | false =>
          rw [ht] at h
          simp only at h
          obtain ⟨i1, i2, i3⟩ := ih w2 w1 h
          rw [List.filter_cons_of_pos hasked, List.length_cons]
          refine ⟨by rw [i1, hcount]; omega, i2.trans hnotif, ?_⟩
          intro j hj
          cases j with
          | zero => exact ⟨reply, hans, ht⟩
          | succ k =>
            obtain ⟨rep, h1, h2⟩ := i3 k (by omega)
            refine ⟨rep, ?_, h2⟩
            rw [← h1, hcount]
            congr 1
            omega
    · have hasked : ¬ (isAsked c = true) := by simp [isAsked, hvf]
      simp only [hvf, if_false] at h
      rw [List.filter_cons_of_neg hasked]
      exact ih w w1 h

/-- A scan in which every visible and focused client replies in the negative ends without
finding a client. -/
theorem findClientIn_all_negative (answers : Nat → Option Payload)
    (sessionId roomId : Option String) (cs : List Client) :
    ∀ (w : World),
      (∀ j, j < (cs.filter isAsked).length →
        ∃ reply, answers (w.messageIdCounter + 1 + j) = some reply ∧ reply.truthy = false) →
      ∃ w1, findClientIn (hasRoomOpenPredicate answers sessionId roomId) cs w =
        some (none, w1) := by
  induction cs with
  | nil => intro w _; exact ⟨w, rfl⟩
  | cons c rest ih =>
    intro w hneg
    simp only [findClientIn, hasRoomOpenPredicate]
    by_cases hvf : c.visibilityState = "visible" ∧ c.focused = true
    · have hasked : isAsked c = true := by simp [isAsked, hvf]
      rw [List.filter_cons_of_pos hasked, List.length_cons] at hneg
      obtain ⟨reply, hans, ht⟩ := hneg 0 (Nat.succ_pos _)
      have ha : awaitReply answers c "hasRoomOpen" (Payload.room sessionId roomId) w =
          some (reply, { (sendAndWaitForReply c "hasRoomOpen" (Payload.room sessionId roomId)
            Resolver.caller w).2 with
            pendingReplies := mapDelete (sendAndWaitForReply c "hasRoomOpen"
              (Payload.room sessionId roomId) Resolver.caller w).2.pendingReplies
              (sendAndWaitForReply c "hasRoomOpen" (Payload.room sessionId roomId)
                Resolver.caller w).1 }) := by
        unfold awaitReply
        simp only
        have : (sendAndWaitForReply c "hasRoomOpen" (Payload.room sessionId roomId)
            Resolver.caller w).1 = w.messageIdCounter + 1 + 0 := rfl
        rw [this, hans]
      simp only [hvf, and_self, if_true, ha, ht]
      apply ih
      intro j hj
      obtain ⟨rep, h1, h2⟩ := hneg (j + 1) (by omega)
      refine ⟨rep, ?_, h2⟩
      rw [← h1]
      congr 1
      simp only [sendAndWaitForReply]
      omega
    · have hasked : ¬ (isAsked c = true) := by simp [isAsked, hvf]
      rw [List.filter_cons_of_neg hasked] at hneg
      simp only [hvf, if_false]
      exact ih w hneg

/-- The notifications after the last part of the new-message branch depend on the displayed
notifications only. -/
theorem newMessage_tail_notifications (n : PushPayload) (w1 w2 : World)
    (h : w1.notifications = w2.notifications) :
    (showNotification (newMessageNotification n).title (newMessageNotification n).body
      (newMessageNotification n).data (newMessageNotification n).tag
      (((getNotifications (some NOTIF_TAG_NEW_MESSAGE) w1).filter
        (fun notif => decide (notif.data.roomId = n.room_id))).foldl
          (fun w notif => closeNotification notif w) w1)).notifications =
    (showNotification (newMessageNotification n).title (newMessageNotification n).body
      (newMessageNotification n).data (newMessageNotification n).tag
      (((getNotifications (some NOTIF_TAG_NEW_MESSAGE) w2).filter
        (fun notif => decide (notif.data.roomId = n.room_id))).foldl
          (fun w notif => closeNotification notif w) w2)).notifications := by
  rw [foldl_close, foldl_close]
  simp only [showNotification, getNotifications, h]

/-- C20: the loop over `clientList` in `handlePushNotification` is redundant. Let each visible
and focused client answer the second `hasRoomOpen` query as it answers the first (the
`j`-th such client is asked under the ids `messageIdCounter + 1 + j` and, in the loop,
`messageIdCounter + k + 1 + j`, where `k` is the number of such clients). Then whenever
`findClient` finds no client with the room open, the loop ends without returning early, and
`handlePushNotification` and the handler without the loop end the same way (or both never
end) with the same notifications displayed. -/
theorem handlePushNotification_loop_redundant (answers : Nat → Option Payload)
    (n : PushPayload) (w : World)
    (hsame : ∀ j, j < (w.clients.filter isAsked).length →
      answers (w.messageIdCounter + (w.clients.filter isAsked).length + 1 + j) =
        answers (w.messageIdCounter + 1 + j)) :
    (∀ w1, findClient (hasRoomOpenPredicate answers n.session_id n.room_id) w =
        some (none, w1) →
      ∃ w2, roomOpenLoop answers n.session_id n.room_id w.clients w1 = some (false, w2) ∧
        w2.notifications = w1.notifications) ∧
    (handlePushNotification answers n w).map (fun r => (r.1, r.2.notifications)) =
      (handlePushNotificationWithoutLoop answers n w).map
        (fun r => (r.1, r.2.notifications)) := by
  have hloop : ∀ w1, findClient (hasRoomOpenPredicate answers n.session_id n.room_id) w =
        some (none, w1) →
      ∃ w2, roomOpenLoop answers n.session_id n.room_id w.clients w1 = some (false, w2) ∧
        w2.notifications = w1.notifications := by
    intro w1 hf
    unfold findClient at hf
    obtain ⟨hcount, -, hneg⟩ := findClientIn_none_spec answers n.session_id n.room_id
      w.clients w w1 hf
    obtain ⟨w2, h2⟩ := findClientIn_all_negative answers n.session_id n.room_id w.clients w1
      (by
        intro j hj
        rw [hcount, hsame j hj]
        exact hneg j hj)
    have hl : roomOpenLoop answers n.session_id n.room_id w.clients w1 = some (false, w2) := by
      rw [roomOpenLoop_eq_findClientIn, h2]
      rfl
    exact ⟨w2, hl, (roomOpenLoop_frame answers n.session_id n.room_id w.clients w1 w2 false
      hl).1⟩
  refine ⟨hloop, ?_⟩
  unfold handlePushNotification handlePushNotificationWithoutLoop
  simp only
  split
  · cases hf : findClient (hasRoomOpenPredicate answers n.session_id n.room_id) w with
    | none => rfl
    | some r =>
      obtain ⟨found, w1⟩ := r
      cases found with
      | some c => rfl
      | none =>
        obtain ⟨w2, hl, hn⟩ := hloop w1 hf
        simp only [hl, Option.map_some', Option.some.injEq, Prod.mk.injEq, true_and]
        exact newMessage_tail_notifications n w2 w1 hn
  · rfl

theorem handlePushNotification_loop_redundant_witness :
    (handlePushNotification noRoomOpen pushA threeClients).map
        (fun r => (r.1, r.2.notifications)) =
      (handlePushNotificationWithoutLoop noRoomOpen pushA threeClients).map
        (fun r => (r.1, r.2.notifications)) :=
  (handlePushNotification_loop_redundant noRoomOpen pushA threeClients (fun _ _ => rfl)).2

/-! ## `handleRequest`: hashed assets are fetched once -/

theorem cacheAddAll_has (net : Network) (name : String) (requests : List Request) (w : World)
    (n : String) : (cacheAddAll net name requests w).2.caches.has n = w.caches.has n := by
  unfold cacheAddAll
  simp only
  cases addAllResponses net requests with
  | error e => rfl
  | ok entries =>
    simp only
    split
    · exact CacheStorage.has_update _ _ _ _
    · rfl

theorem addMissing_has (net : Network) (missing : List Request) (n : String) :
    ∀ (res : Except JsError Unit) (w : World),
      (missing.foldl (addMissingStep net) (res, w)).2.caches.has n = w.caches.has n := by
  induction missing with
  | nil => intro res w; rfl
  | cons a rest ih =>
    intro res w
    simp only [List.foldl_cons]
    have hstep : (addMissingStep net (res, w) a).2.caches.has n = w.caches.has n := by
      have h := cacheAddAll_has net hashedCacheName [a] w n
      unfold addMissingStep cacheAdd
      simp only
      cases hc : cacheAddAll net hashedCacheName [a] w with
      | mk o w1 =>
        rw [hc] at h
        cases o with
        | ok u => exact h
        | error e =>
          cases res with
          | ok u => exact h
          | error first => exact h
    have := ih (addMissingStep net (res, w) a).1 (addMissingStep net (res, w) a).2
    rw [hstep] at this
    exact this

theorem install_has_unhashed (P : Platform) (cfg : Config) (scriptURL : String)
    (net : Network) (w : World) :
    (install P cfg scriptURL net w).2.caches.has (unhashedCacheName cfg) = true := by
  have h := cacheAddAll_has net (unhashedCacheName cfg)
    (precacheRequests P scriptURL cfg.UNHASHED_PRECACHED_ASSETS)
    { w with caches := w.caches.openCache (unhashedCacheName cfg) } (unhashedCacheName cfg)
  simp only [CacheStorage.has_openCache] at h
  unfold install
  simp only
  cases hc : cacheAddAll net (unhashedCacheName cfg)
      (precacheRequests P scriptURL cfg.UNHASHED_PRECACHED_ASSETS)
      { w with caches := w.caches.openCache (unhashedCacheName cfg) } with
  | mk o w2 =>
    rw [hc] at h
    simp only at h
    cases o with
    | error e => exact h
    | ok u =>
      simp only [addMissing]
      rw [addMissing_has]
      simp only
      unfold CacheStorage.has
      rw [CacheStorage.lookup_openCache_ne _ _ _ (fun hh => unhashedCacheName_ne_hashed cfg hh.symm)]
      exact h

/-- After an `install` that succeeded the unhashed cache exists and every hashed-precached
asset has an entry in the hashed cache. -/
theorem install_ok_spec (P : Platform) (cfg : Config) (scriptURL : String) (net : Network)
    (w0 w1 : World) (hrun : install P cfg scriptURL net w0 = (Except.ok (), w1)) :
    w1.caches.has (unhashedCacheName cfg) = true ∧
    ∀ p ∈ cfg.HASHED_PRECACHED_ASSETS,
      ∃ r, (w1.caches.get hashedCacheName).matchRequest (assetRequest P scriptURL p) =
        some r := by
  have hok : (install P cfg scriptURL net w0).1 = Except.ok () := by rw [hrun]
  have hw1 : (install P cfg scriptURL net w0).2 = w1 := by rw [hrun]
  rcases install_eq P cfg scriptURL net w0 with ⟨-, hfail, -⟩ | ⟨-, w3, -, hw3c, hw3h, heq⟩
  · exact absurd hok hfail
  · obtain ⟨-, -, -, a4, a5, -⟩ := addMissing_foldl net
      ((precacheRequests P scriptURL cfg.HASHED_PRECACHED_ASSETS).filter
        (fun request => ((w3.caches.get hashedCacheName).matchRequest request).isNone))
      (Except.ok ()) w3 hw3h
    have heq2 : install P cfg scriptURL net w0 =
        List.foldl (addMissingStep net) (Except.ok (), w3)
          ((precacheRequests P scriptURL cfg.HASHED_PRECACHED_ASSETS).filter
            (fun request => ((w3.caches.get hashedCacheName).matchRequest request).isNone)) := by
      rw [heq]; rfl
    rw [← heq2, hw1] at a4
    rw [← heq2] at a5
    rw [hw1] at a5
    constructor
    · rw [← hw1]
      exact install_has_unhashed P cfg scriptURL net w0
    · intro p hp
      have hsome : ((w1.caches.get hashedCacheName).matchRequest
          (assetRequest P scriptURL p)).isSome = true := by
        by_cases hm : assetRequest P scriptURL p ∈
            (precacheRequests P scriptURL cfg.HASHED_PRECACHED_ASSETS).filter
              (fun request => ((w3.caches.get hashedCacheName).matchRequest request).isNone)
        · exact (a5 hok).2 _ hm
        · apply a4
          cases hc : (w3.caches.get hashedCacheName).matchRequest
              (assetRequest P scriptURL p) with
          | some x => rfl
          | none =>
            exfalso
            apply hm
            apply List.mem_filter.2
            refine ⟨List.mem_map_of_mem _ hp, ?_⟩
            simp [hc]
      cases hc : (w1.caches.get hashedCacheName).matchRequest (assetRequest P scriptURL p) with
      | some r => exact ⟨r, rfl⟩
      | none => rw [hc] at hsome; cases hsome

/-- Requests that leave the state as it is can be repeated. -/
theorem handleRequests_fixed (P : Platform) (cfg : Config) (request : Request) (w : World)
    (h : ∀ net : Network, (handleRequest P cfg net request w).2 = w)
    (events : List (Request × Network)) (hev : ∀ ev ∈ events, ev.1 = request) :
    handleRequests P cfg events w = w := by
  unfold handleRequests
  induction events with
  | nil => rfl
  | cons ev rest ih =>
    simp only [List.foldl_cons]
    rw [hev ev (List.mem_cons_self _ _), h ev.2]
    exact ih (fun e he => hev e (List.mem_cons_of_mem _ he))

/-- C3: cache idempotence of the hashed assets. (1) After an `install` that succeeded, for
every path `p` of `HASHED_PRECACHED_ASSETS` that is not the root of the application and for
which the unhashed cache holds nothing, the hashed cache holds a response for the request
for `p`, and every `handleRequest` for that request, with any network, returns that
response and leaves the whole state, the caches and the log of fetches, as it is; so does
every sequence of such requests. (2) After a `handleRequest` that missed the caches,
fetched a response of status below 400 for a request whose path under the scope is in
`HASHED_CACHED_ON_REQUEST_ASSETS` (and whose URL is no cacheable thumbnail), the hashed
cache holds that response for the request, and every later `handleRequest` for it, with
any network, returns that response and leaves the whole state as it is; so does every
sequence of such requests. -/
theorem handleRequest_cache_idempotence (P : Platform) (cfg : Config) :
    (∀ (scriptURL : String) (net : Network) (w0 w1 : World) (p : String),
      install P cfg scriptURL net w0 = (Except.ok (), w1) →
      p ∈ cfg.HASHED_PRECACHED_ASSETS →
      ¬ ((P.newURL (assetRequest P scriptURL p).url none).origin =
          (P.newURL cfg.scope none).origin ∧
        (P.newURL (assetRequest P scriptURL p).url none).pathname =
          (P.newURL cfg.scope none).pathname) →
      (w1.caches.get (unhashedCacheName cfg)).matchRequest (assetRequest P scriptURL p) =
        none →
      ∃ r, (w1.caches.get hashedCacheName).matchRequest (assetRequest P scriptURL p) =
          some r ∧
        (∀ net' : Network,
          handleRequest P cfg net' (assetRequest P scriptURL p) w1 = (Except.ok r, w1)) ∧
        (∀ events : List (Request × Network),
          (∀ ev ∈ events, ev.1 = assetRequest P scriptURL p) →
          handleRequests P cfg events w1 = w1)) ∧
    (∀ (net : Network) (request : Request) (w0 w1 : World) (r0 : Response),
      handleRequest P cfg net request w0 = (Except.ok r0, w1) →
      (readCache P cfg (rewriteRequest P cfg request) w0).1 = none →
      r0.status < 400 →
      isCacheableThumbnail (P.newURL (rewriteRequest P cfg request).url none) = false →
      startsWith (rewriteRequest P cfg request).url cfg.scope = true →
      substr (rewriteRequest P cfg request).url cfg.scope.length ∈
        cfg.HASHED_CACHED_ON_REQUEST_ASSETS →
      (w1.caches.get hashedCacheName).matchRequest (rewriteRequest P cfg request) =
        some r0 ∧
      (∀ net' : Network, handleRequest P cfg net' request w1 = (Except.ok r0, w1)) ∧
      (∀ events : List (Request × Network),
        (∀ ev ∈ events, ev.1 = request) → handleRequests P cfg events w1 = w1)) ∧
    (∀ request : Request,
      ¬ ((P.newURL request.url none).origin = (P.newURL cfg.scope none).origin ∧
        (P.newURL request.url none).pathname = (P.newURL cfg.scope none).pathname) →
      rewriteRequest P cfg request = request) := by
  have hsame : ∀ request : Request,
      ¬ ((P.newURL request.url none).origin = (P.newURL cfg.scope none).origin ∧
        (P.newURL request.url none).pathname = (P.newURL cfg.scope none).pathname) →
      rewriteRequest P cfg request = request := by
    intro request h
    simp [rewriteRequest, h]
  refine ⟨?_, ?_, hsame⟩
  · intro scriptURL net w0 w1 p hrun hp hroot hun
    obtain ⟨hhas, hall⟩ := install_ok_spec P cfg scriptURL net w0 w1 hrun
    obtain ⟨r, hr⟩ := hall p hp
    have hrw := hsame (assetRequest P scriptURL p) hroot
    have hstep : ∀ net' : Network,
        handleRequest P cfg net' (assetRequest P scriptURL p) w1 = (Except.ok r, w1) := by
      intro net'
      obtain ⟨a, _, _, d⟩ := handleRequest_hit P cfg net' (assetRequest P scriptURL p) w1 r
        (by rw [hrw]; exact hr)
      rw [hrw, hun] at a
      exact Prod.ext a (d hhas)
    refine ⟨r, hr, hstep, ?_⟩
    intro events hev
    exact handleRequests_fixed P cfg _ w1 (fun net' => by rw [hstep net']) events hev
  · intro net request w0 w1 r0 hrun hmiss hst hnt hsw hin
    obtain ⟨h1, h2, h3⟩ := handleRequest_stores P cfg net request w0 w1 r0 hrun hmiss hst hnt
      hsw hin
    have hstep : ∀ net' : Network, handleRequest P cfg net' request w1 = (Except.ok r0, w1) := by
      intro net'
      obtain ⟨a, _, _, d⟩ := handleRequest_hit P cfg net' request w1 r0 h1
      rw [h2] at a
      exact Prod.ext a (d h3)
    refine ⟨h1, hstep, ?_⟩
    intro events hev
    exact handleRequests_fixed P cfg _ w1 (fun net' => by rw [hstep net']) events hev

/-- Witness for C3: the asset `olm-9abc.wasm`, fetched once in the initial state, is then
served from the hashed cache also by a network on which every fetch fails, and the state
stays as it is; and after the installation of the sample build a request for the precached
script leaves the state as it is. -/
theorem handleRequest_cache_idempotence_witness :
    handleRequest samplePlatform sampleConfig brokenNetwork olmRequest
        (handleRequest samplePlatform sampleConfig sampleNetwork olmRequest {}).2 =
      (Except.ok { status := 200, body := "from network" },
        (handleRequest samplePlatform sampleConfig sampleNetwork olmRequest {}).2) ∧
    (handleRequest samplePlatform sampleConfig brokenNetwork
        (assetRequest samplePlatform sampleScript "hydrogen-5678.js")
        (install samplePlatform sampleConfig sampleScript sampleNetwork {}).2).2 =
      (install samplePlatform sampleConfig sampleScript sampleNetwork {}).2 :=
  ⟨((handleRequest_cache_idempotence samplePlatform sampleConfig).2.1 sampleNetwork olmRequest
      {} (handleRequest samplePlatform sampleConfig sampleNetwork olmRequest {}).2
      { status := 200, body := "from network" } rfl (by decide) (by decide) (by decide)
      (by decide) (by decide)).2.1 brokenNetwork,
   ((handleRequest_cache_idempotence samplePlatform sampleConfig).1 sampleScript sampleNetwork
      {} (install samplePlatform sampleConfig sampleScript sampleNetwork {}).2
      "hydrogen-5678.js" rfl (by decide) (by decide) (by decide)).elim
      (fun _ h => congrArg Prod.snd (h.2.1 brokenNetwork))⟩

end ServiceWorker
